import Mathlib

/-!
# A shallow embedding of the hand-written HTTP/1.1 server

The development models `app/main.go`, `app/mux.go` and `app/handler.go`.

* A Go `string` / `[]byte` is a list of bytes (`Str`), a byte being a natural
  number below 256.
* The buffered reader of a connection is the list of bytes still to be read;
  the end of the list is the end of the stream (`io.EOF`).
* A Go `map[string]T` is an association list with pairwise distinct keys
  (`GoMap`); the unspecified iteration order of `range` is an explicit
  argument (`Order`).
* The file system and the gzip writer are arguments of the handlers (`Env`).
* `int` is the 64-bit integer of the usual server platforms.
-/

set_option autoImplicit false

namespace HttpServer

/-! ## Byte strings -/

/-- Go strings and byte slices. -/
abbrev Str := List Nat

/-- Bytes of an ASCII literal. -/
def ascii (s : String) : Str := s.toList.map Char.toNat

/-- The constant `CRLF` of `main.go`. -/
def CRLF : Str := [13, 10]

/-! ## The parts of the Go standard library used by the server -/

/-- One-byte white space of `unicode.IsSpace`: TAB, LF, VT, FF, CR, SPACE. -/
def isSpace1 (a : Nat) : Bool :=
  a = 9 || a = 10 || a = 11 || a = 12 || a = 13 || a = 32

/-- Two-byte UTF-8 encodings of white space: U+0085 and U+00A0. -/
def isSpace2 (a b : Nat) : Bool :=
  a = 0xC2 && (b = 0x85 || b = 0xA0)

/-- Three-byte UTF-8 encodings of white space: U+1680, U+2000..U+200A,
U+2028, U+2029, U+202F, U+205F and U+3000. -/
def isSpace3 (a b c : Nat) : Bool :=
  (a = 0xE1 && b = 0x9A && c = 0x80) ||
  (a = 0xE2 && b = 0x80 &&
    ((0x80 ≤ c && c ≤ 0x8A) || c = 0xA8 || c = 0xA9 || c = 0xAF)) ||
  (a = 0xE2 && b = 0x81 && c = 0x9F) ||
  (a = 0xE3 && b = 0x80 && c = 0x80)

/-- Width in bytes of the white-space rune that starts the string, `0` when
the string does not start with one.  The encodings of white-space runes all
begin with a byte that is no continuation byte, so that the rune decoder of
`unicode/utf8` meets every occurrence. -/
def spaceWidth : Str → Nat
  | a :: b :: c :: _ =>
    if isSpace1 a then 1 else if isSpace2 a b then 2
    else if isSpace3 a b c then 3 else 0
  | [a, b] => if isSpace1 a then 1 else if isSpace2 a b then 2 else 0
  | [a] => if isSpace1 a then 1 else 0
  | [] => 0

/-- Width of the white-space rune that ends a string, read off the reversed
string (`utf8.DecodeLastRuneInString`). -/
def spaceWidthRev : Str → Nat
  | c :: b :: a :: _ =>
    if isSpace1 c then 1 else if isSpace2 b c then 2
    else if isSpace3 a b c then 3 else 0
  | [c, b] => if isSpace1 c then 1 else if isSpace2 b c then 2 else 0
  | [c] => if isSpace1 c then 1 else 0
  | [] => 0

/-- Closes the field under construction (kept reversed). -/
def flushField (cur : Str) : List Str :=
  if cur = [] then [] else [cur.reverse]

/-- Scanner of `strings.Fields`: `skip` counts the remaining bytes of a
white-space rune, `cur` is the current field, reversed. -/
def fieldsGo : Str → Nat → Str → List Str
  | [], _, cur => flushField cur
  | _ :: rest, skip + 1, cur => fieldsGo rest skip cur
  | c :: rest, 0, cur =>
    if spaceWidth (c :: rest) = 0 then fieldsGo rest 0 (c :: cur)
    else flushField cur ++ fieldsGo rest (spaceWidth (c :: rest) - 1) []

/-- Go `strings.Fields`: the maximal runs of bytes between white space. -/
def Fields (s : Str) : List Str := fieldsGo s 0 []

/-- Drops leading white-space runes, `w` giving the width of the rune at the
head (`skip` counts the remaining bytes of the rune being dropped). -/
def dropSpaces (w : Str → Nat) : Str → Nat → Str
  | [], _ => []
  | _ :: rest, skip + 1 => dropSpaces w rest skip
  | c :: rest, 0 =>
    if w (c :: rest) = 0 then c :: rest else dropSpaces w rest (w (c :: rest) - 1)

/-- Go `strings.TrimSpace`: leading white space is removed, then trailing
white space. -/
def TrimSpace (s : Str) : Str :=
  (dropSpaces spaceWidthRev (dropSpaces spaceWidth s 0).reverse 0).reverse

/-- Membership in the cutset `"\r\n"`. -/
def inCRLF (c : Nat) : Bool := c = 13 || c = 10

/-- Go `strings.Trim(s, "\r\n")`: every leading and trailing CR or LF goes. -/
def TrimCRLF (s : Str) : Str :=
  ((s.dropWhile inCRLF).reverse.dropWhile inCRLF).reverse

/-- The text before and after the first occurrence of the byte `sep`. -/
def cut (sep : Nat) : Str → Option (Str × Str)
  | [] => none
  | c :: rest =>
    if c = sep then some ([], rest)
    else match cut sep rest with
      | none => none
      | some (a, b) => some (c :: a, b)

/-- Go `strings.SplitN(s, sep, 2)` for a one-byte separator. -/
def SplitN2 (sep : Nat) (s : Str) : List Str :=
  match cut sep s with
  | none => [s]
  | some (a, b) => [a, b]

/-- Go `strings.Split(s, sep)` for a one-byte separator. -/
def Split (sep : Nat) : Str → List Str
  | [] => [[]]
  | c :: rest =>
    if c = sep then [] :: Split sep rest
    else match Split sep rest with
      | [] => [[c]]
      | h :: t => (c :: h) :: t

/-- Go `strings.Join(elems, sep)`. -/
def Join (sep : Str) : List Str → Str
  | [] => []
  | [a] => a
  | a :: b :: t => a ++ sep ++ Join sep (b :: t)

/-- Lower case of one ASCII byte. -/
def lowerByte (c : Nat) : Nat := if 65 ≤ c ∧ c ≤ 90 then c + 32 else c

/-- Go `strings.ToLower` on ASCII strings.  The server only compares the
result with the literal `"close"`; on a string with a byte above 127 the Go
result differs from that literal, as no rune outside ASCII has one of the
letters of `close` as its lower case, and so does this one. -/
def ToLower (s : Str) : Str := s.map lowerByte

/-- Decimal digits to their value. -/
def parseDigits : Str → Nat → Option Nat
  | [], acc => some acc
  | c :: rest, acc =>
    if 48 ≤ c ∧ c ≤ 57 then parseDigits rest (acc * 10 + (c - 48)) else none

/-- Largest value of the Go type `int` (64 bits). -/
def maxInt : Nat := 2 ^ 63 - 1

/-- Go `strconv.Atoi`: an optional sign and at least one decimal digit, the
value within the range of `int`; `none` is the error result. -/
def Atoi (s : Str) : Option Int :=
  match s with
  | [] => none
  | c :: rest =>
    let neg := decide (c = 45)
    let ds := if c = 45 ∨ c = 43 then rest else s
    if ds = [] then none
    else match parseDigits ds 0 with
      | none => none
      | some n =>
        if neg then (if n ≤ maxInt + 1 then some (-(n : Int)) else none)
        else (if n ≤ maxInt then some (n : Int) else none)

/-- Digits of `strconv.Itoa`, most significant first; `fuel` bounds the
number of digits. -/
def itoaGo : Nat → Nat → Str → Str
  | 0, _, acc => acc
  | fuel + 1, n, acc =>
    if n < 10 then (48 + n) :: acc else itoaGo fuel (n / 10) ((48 + n % 10) :: acc)

/-- Go `strconv.Itoa` on a length (a non-negative `int`). -/
def Itoa (n : Nat) : Str := itoaGo (n + 1) n []

/-- Go `bufio.Reader.ReadString(delim)` on a stream that ends with the list:
the line up to and including the first `delim` and the bytes left, or `none`
when the stream ends first (the call returns `io.EOF`). -/
def ReadString (delim : Nat) : Str → Option (Str × Str)
  | [] => none
  | c :: rest =>
    if c = delim then some ([c], rest)
    else match ReadString delim rest with
      | none => none
      | some (l, r) => some (c :: l, r)

/-! ## Go maps -/

/-- A Go map with string keys: an association list with distinct keys. -/
abbrev GoMap (α : Type) := List (Str × α)

/-- The lookup `v, ok := m[k]`. -/
def GoMap.get? {α : Type} : GoMap α → Str → Option α
  | [], _ => none
  | (k', v) :: t, k => if k' = k then some v else GoMap.get? t k

/-- The assignment `m[k] = v`. -/
def GoMap.set {α : Type} : GoMap α → Str → α → GoMap α
  | [], k, v => [(k, v)]
  | (k', v') :: t, k, v =>
    if k' = k then (k, v) :: t else (k', v') :: GoMap.set t k v

/-- The lookup `m[k]` of a `map[string]string`, `""` when the key is absent. -/
def GoMap.index (m : GoMap Str) (k : Str) : Str := (GoMap.get? m k).getD []

/-- The order in which one `range` loop visits the entries of a map: some
permutation of the entries. -/
structure Order where
  visit : List (Str × Str) → List (Str × Str)
  perm : ∀ l, (visit l).Perm l

/-- The order that visits the entries as stored. -/
def Order.stored : Order := ⟨fun l => l, fun l => List.Perm.refl l⟩

/-! ## Requests and the frame reader (`main.go`, `AnalysisRequest`) -/

/-- The type `Request` of `mux.go`. -/
structure Request where
  Method : Str
  Path : Str
  Version : Str
  Headers : GoMap Str
  Body : Str
  deriving DecidableEq

/-- The two errors of `io.ReadFull` on a stream that ends early: `io.EOF`
when no byte was read, `io.ErrUnexpectedEOF` after some bytes. -/
inductive ReadErr where
  | EOF
  | ErrUnexpectedEOF
  deriving DecidableEq

/-- The error values returned by `AnalysisRequest`.  Only `eof` is the bare
`io.EOF` that `handleConnection` compares with `err == io.EOF`; the others
are fresh errors made by `fmt.Errorf`. -/
inductive ParseError where
  /-- The error of `ReadString`, returned as it is. -/
  | eof
  /-- The error "invalid request line". -/
  | invalidRequestLine
  /-- The error "invalid Content-Length: ...". -/
  | invalidContentLength
  /-- The error "error reading request body: ...", wrapping the cause. -/
  | readBody (cause : ReadErr)
  deriving DecidableEq

/-- What a call can do: return a value, return an error, or raise a run-time
fault that ends the process. -/
inductive Outcome (α : Type) where
  | ok (a : α)
  | error (e : ParseError)
  | fault
  deriving DecidableEq

/-- Largest length that `make([]byte, n)` accepts on a 64-bit platform
(`maxAlloc` of the Go runtime, 2^48 on linux/amd64); above it the runtime
raises "makeslice: len out of range".  Whether a buffer of at most this
length can be allocated depends on the machine: see `readBody`. -/
def maxAlloc : Nat := 2 ^ 48

/-- Lines 156 to 164 of `main.go`: one header line is trimmed of CR and LF and
split at its first colon; without a colon the line is skipped. -/
def addHeader (headers : GoMap Str) (line : Str) : GoMap Str :=
  match SplitN2 58 (TrimCRLF line) with
  | [k, v] => GoMap.set headers (TrimSpace k) (TrimSpace v)
  | _ => headers

/-- The header loop, lines 147 to 165 of `main.go`.  `none` is the return
with the error of `ReadString` (`io.EOF`).  Every turn reads at least one
byte, so `fuel` is never the cause of `none` when it is at least the length
of the stream (`readHeaders_fuel`). -/
def readHeaders : Nat → Str → GoMap Str → Option (GoMap Str × Str)
  | 0, _, _ => none
  | fuel + 1, s, headers =>
    match ReadString 10 s with
    | none => none
    | some (line, rest) =>
      if line = CRLF ∨ line = [10] then some (headers, rest)
      else readHeaders fuel rest (addHeader headers line)

/-- The body step, lines 167 to 181 of `main.go`: the body and the bytes left
in the reader.  The buffer is made before a byte is read: `make([]byte,
length)` raises the run-time panic for a length above `maxAlloc`, and ends the
process with the fatal error "out of memory" for a length above `mem`, the
largest buffer that the allocator of the machine provides at that moment.
Only then does `io.ReadFull` fill the buffer, and a stream that ends too early
gives the body-read error.  When `mem` is not given it is `maxAlloc`: the
allocator provides every buffer that `makeslice` accepts. -/
def readBody (headers : GoMap Str) (s : Str) (mem : Nat := maxAlloc) : Outcome (Str × Str) :=
  match GoMap.get? headers (ascii "Content-Length") with
  | none => .ok ([], s)
  | some clStr =>
    match Atoi clStr with
    | none => .error .invalidContentLength
    | some length =>
      if length > 0 then
        if length.toNat > maxAlloc then .fault
        else if length.toNat > mem then .fault
        else if length.toNat ≤ s.length then
          .ok (s.take length.toNat, s.drop length.toNat)
        else .error (.readBody (if s = [] then .EOF else .ErrUnexpectedEOF))
      else .ok ([], s)

/-- The function `AnalysisRequest` of `main.go` on the bytes left in the
reader: the request and the bytes left after it, or the error.  The argument
`mem` is the largest buffer that the allocator provides (see `readBody`); when
it is not given it is `maxAlloc`. -/
def AnalysisRequest (s : Str) (mem : Nat := maxAlloc) : Outcome (Request × Str) :=
  match ReadString 10 s with
  | none => .error .eof
  | some (line, rest) =>
    match Fields line with
    | method :: path :: httpVersion :: _ =>
      match readHeaders rest.length rest [] with
      | none => .error .eof
      | some (headers, rest') =>
        match readBody headers rest' mem with
        | .ok (body, rest'') => .ok (⟨method, path, httpVersion, headers, body⟩, rest'')
        | .error e => .error e
        | .fault => .fault
    | _ => .error .invalidRequestLine

/-! ## Handlers (`handler.go`) -/

/-- The type `HandlerResult` of `mux.go`. -/
structure HandlerResult where
  Response : Str
  Close : Bool
  deriving DecidableEq

/-- What the handlers take from outside the program: the directory given on
the command line, the gzip writer (`none` when `gw.Write` fails),
`filepath.Join`, and the file system with its state `σ`.  `create` and
`write` return the new state and whether the call succeeded. -/
structure Env (σ : Type) where
  baseDir : Str
  gzip : Str → Option Str
  join : Str → Str → Str
  create : σ → Str → σ × Bool
  write : σ → Str → Str → σ × Bool
  stat : σ → Str → Bool
  readFile : σ → Str → Option Str

/-- The test `strings.ToLower(req.Headers["Connection"]) == "close"`. -/
def wantsClose (req : Request) : Bool :=
  ToLower (GoMap.index req.Headers (ascii "Connection")) = ascii "close"

/-- The loop `for head, value := range responseHeaders` that builds the
header text, visiting the entries in the order `ord`. -/
def renderHeaders (ord : Order) (headers : GoMap Str) : Str :=
  (ord.visit headers).foldl (fun acc e => acc ++ e.1 ++ ascii ": " ++ e.2 ++ CRLF) []

/-- The function `rootHandler`. -/
def rootHandler (req : Request) : HandlerResult :=
  if wantsClose req then
    let headers := ascii "Connection: close" ++ CRLF
    ⟨req.Version ++ ascii " 200 OK" ++ CRLF ++ headers ++ CRLF ++ CRLF, true⟩
  else
    ⟨req.Version ++ ascii " 200 OK" ++ CRLF ++ CRLF, false⟩

/-- The negotiation loop of `echoHandler`, lines 54 to 59: the first token
that is `gzip` or `zip` becomes the `Content-Encoding`. -/
def pickEncoding : List Str → GoMap Str → GoMap Str
  | [], headers => headers
  | c :: rest, headers =>
    if TrimSpace c = ascii "gzip" ∨ TrimSpace c = ascii "zip" then
      GoMap.set headers (ascii "Content-Encoding") (TrimSpace c)
    else pickEncoding rest headers

/-- The function `echoHandler`. -/
def echoHandler (gzip : Str → Option Str) (ord : Order) (req : Request) : HandlerResult :=
  let splits := Split 47 req.Path
  if splits.length < 3 then
    ⟨ascii "HTTP/1.1 400 Bad Request" ++ CRLF ++ CRLF, false⟩
  else
    let str := splits.getD 2 []
    let h0 : GoMap Str := []
    let enc := GoMap.index req.Headers (ascii "Accept-Encoding")
    let h1 := if enc ≠ [] then pickEncoding (Split 44 enc) h0 else h0
    let h2 := if wantsClose req then GoMap.set h1 (ascii "Connection") (ascii "close") else h1
    let h3 := GoMap.set h2 (ascii "Content-Type") (ascii "text/plain")
    let isCompress := (GoMap.get? h3 (ascii "Content-Encoding")).isSome
    match (if isCompress then gzip str else some str) with
    | none => ⟨req.Version ++ ascii " 500 Internal Server Error" ++ CRLF ++ CRLF, false⟩
    | some bodyBytes =>
      let h4 := GoMap.set h3 (ascii "Content-Length") (Itoa bodyBytes.length)
      ⟨req.Version ++ ascii " 200 OK" ++ CRLF ++ renderHeaders ord h4 ++ CRLF ++ bodyBytes,
        wantsClose req⟩

/-- The function `userAgentHandler`. -/
def userAgentHandler (ord : Order) (req : Request) : HandlerResult :=
  let userAgent := GoMap.index req.Headers (ascii "User-Agent")
  let h0 : GoMap Str := []
  let h1 := GoMap.set h0 (ascii "Content-Type") (ascii "text/plain")
  let h2 := GoMap.set h1 (ascii "Content-Length") (Itoa userAgent.length)
  let h3 := if wantsClose req then GoMap.set h2 (ascii "Connection") (ascii "close") else h2
  ⟨req.Version ++ ascii " 200 OK" ++ CRLF ++ renderHeaders ord h3 ++ CRLF ++ userAgent,
    wantsClose req⟩

/-- The function `filesHandler`, the state of the file system passed along. -/
def filesHandler {σ : Type} (env : Env σ) (ord : Order) (fs : σ) (req : Request) :
    HandlerResult × σ :=
  let splits := Split 47 req.Path
  if splits.length < 3 then
    (⟨req.Version ++ ascii " 400 Bad Request" ++ CRLF ++ CRLF, false⟩, fs)
  else if req.Method = ascii "POST" then
    let fileName := Join (ascii "/") (splits.drop 2)
    let created := env.create fs (env.join env.baseDir fileName)
    if !created.2 then
      (⟨req.Version ++ ascii " 500 Internal Server Error" ++ CRLF ++ CRLF, false⟩, created.1)
    else
      let wrote := env.write created.1 (env.join env.baseDir fileName) req.Body
      if !wrote.2 then
        (⟨req.Version ++ ascii " 500 Internal Server Error" ++ CRLF ++ CRLF, false⟩, wrote.1)
      else
        (⟨req.Version ++ ascii " 201 Created" ++ CRLF ++ CRLF, false⟩, wrote.1)
  else
    let relPath := Join (ascii "/") (splits.drop 2)
    let filePath := env.join env.baseDir relPath
    if !env.stat fs filePath then
      (⟨req.Version ++ ascii " 404 Not Found" ++ CRLF ++ CRLF, false⟩, fs)
    else
      match env.readFile fs filePath with
      | none => (⟨req.Version ++ ascii " 500 Internal Server Error" ++ CRLF ++ CRLF, false⟩, fs)
      | some contentBytes =>
        let h0 : GoMap Str := []
        let h1 := GoMap.set h0 (ascii "Content-Type") (ascii "application/octet-stream")
        let h2 := GoMap.set h1 (ascii "Content-Length") (Itoa contentBytes.length)
        let h3 := if wantsClose req then GoMap.set h2 (ascii "Connection") (ascii "close") else h2
        (⟨req.Version ++ ascii " 200 OK" ++ CRLF ++ renderHeaders ord h3 ++ CRLF ++ contentBytes,
          wantsClose req⟩, fs)

/-! ## The router (`mux.go`) -/

/-- The type `HandlerFunc`: a handler is given the iteration order of its map
and the state of the file system, and returns the new state. -/
abbrev HandlerFunc (σ : Type) := Order → σ → Request → HandlerResult × σ

/-- The type `Mux`. -/
structure Mux (σ : Type) where
  routes : GoMap (HandlerFunc σ)

/-- The function `NewMux`. -/
def NewMux {σ : Type} : Mux σ := ⟨[]⟩

/-- The method `Mux.Handle`. -/
def Mux.Handle {σ : Type} (m : Mux σ) (route : Str) (handler : HandlerFunc σ) : Mux σ :=
  ⟨GoMap.set m.routes route handler⟩

/-- The method `Mux.Serve`. -/
def Mux.Serve {σ : Type} (m : Mux σ) (routeKey : Str) (ord : Order) (fs : σ)
    (req : Request) : HandlerResult × σ :=
  match GoMap.get? m.routes routeKey with
  | some h => h ord fs req
  | none =>
    let conn := GoMap.index req.Headers (ascii "Connection")
    let closeConn : Bool := conn ≠ [] ∧ ToLower conn = ascii "close"
    let response := req.Version ++ ascii " 404 Not Found" ++ CRLF
    let response := if closeConn then response ++ (ascii "Connection: close" ++ CRLF) else response
    let response := response ++ CRLF
    (⟨response, closeConn⟩, fs)

/-- The function `registerRoutes` of `main.go`. -/
def registerRoutes {σ : Type} (env : Env σ) (m : Mux σ) : Mux σ :=
  let m := m.Handle (ascii "") (fun _ fs req => (rootHandler req, fs))
  let m := m.Handle (ascii "echo") (fun ord fs req => (echoHandler env.gzip ord req, fs))
  let m := m.Handle (ascii "user-agent") (fun ord fs req => (userAgentHandler ord req, fs))
  m.Handle (ascii "files") (filesHandler env)

/-! ## The connection loop (`main.go`, `handleConnection`) -/

/-- What is not decided by the program in one turn of the loop: the order in
which the handler's map is visited and whether `conn.Write` succeeds. -/
structure Tick where
  order : Order
  writeOk : Bool

/-- Why the loop ended. -/
inductive Exit where
  /-- Return on `err == io.EOF`. -/
  | eof
  /-- Return after printing another parse error. -/
  | parseError (e : ParseError)
  /-- The process died in a run-time fault. -/
  | fault
  /-- Return on a failed write. -/
  | writeFailed
  /-- Return on `result.Close`. -/
  | closed
  /-- The bound on the number of turns was reached. -/
  | fuel
  deriving DecidableEq

/-- The run of one connection: the bytes written, the file system at the end,
the bytes of the input never read, and why the loop ended. -/
structure ConnResult (σ : Type) where
  written : Str
  fs : σ
  unread : Str
  exit : Exit

/-- The route key of lines 87 to 91 of `main.go`. -/
def routeKeyOf (path : Str) : Str :=
  let splits := Split 47 path
  if splits.length > 1 then splits.getD 1 [] else []

/-- The loop of `handleConnection` with the router `m`; `out` collects the
bytes written so far.  A failed write counts as writing nothing.  The frame
reader is called with no limit of the allocator other than `maxAlloc`. -/
def handleLoop {σ : Type} (m : Mux σ) : Nat → (Nat → Tick) → σ → Str → Str → ConnResult σ
  | 0, _, fs, s, out => ⟨out, fs, s, .fuel⟩
  | fuel + 1, ticks, fs, s, out =>
    match AnalysisRequest s with
    | .fault => ⟨out, fs, s, .fault⟩
    | .error .eof => ⟨out, fs, s, .eof⟩
    | .error e => ⟨out, fs, s, .parseError e⟩
    | .ok (req, rest) =>
      let result := m.Serve (routeKeyOf req.Path) (ticks 0).order fs req
      if !(ticks 0).writeOk then ⟨out, result.2, rest, .writeFailed⟩
      else if result.1.Close then ⟨out ++ result.1.Response, result.2, rest, .closed⟩
      else handleLoop m fuel (fun i => ticks (i + 1)) result.2 rest (out ++ result.1.Response)

/-- The function `handleConnection` on the bytes `s` received on the
connection.  Every turn that goes on reads at least one byte, so the bound is
not reached. -/
def handleConnection {σ : Type} (m : Mux σ) (ticks : Nat → Tick) (fs : σ) (s : Str) :
    ConnResult σ :=
  handleLoop m (s.length + 1) ticks fs s []

/-! ## Requests on the wire -/

/-- Lines on the wire: every line is followed by LF. -/
def wire : List Str → Str
  | [] => []
  | c :: cs => c ++ 10 :: wire cs

/-- A header block: lines (given without their LF) that hold no LF and are
not the empty line, bare or with CR. -/
def HeaderLines (cs : List Str) : Prop :=
  ∀ c ∈ cs, 10 ∉ c ∧ c ≠ [] ∧ c ≠ [13]

/-- The line that ends the header block, without its LF: empty or one CR. -/
def BlankLine (t : Str) : Prop := t = [] ∨ t = [13]

/-- The header map built by the code from the lines of a header block. -/
def headerMap (cs : List Str) : GoMap Str :=
  cs.foldl (fun h c => addHeader h (c ++ [10])) []

/-! ## The header map as the specification words it -/

/-- One step of the specification of the header map, on a header line given
without its LF: a line with no colon changes nothing; any other line sets the
entry whose key is the white-space-trimmed text before the first colon to the
white-space-trimmed text after it. -/
def specHeaderLine (h : GoMap Str) (line : Str) : GoMap Str :=
  match cut 58 line with
  | none => h
  | some (before, after) => GoMap.set h (TrimSpace before) (TrimSpace after)

/-- The header map of the specification: the lines processed in order,
starting from the empty map. -/
def specHeaders (cs : List Str) : GoMap Str := cs.foldl specHeaderLine []

/-! ## Words of the specification about requests and responses -/

/-- Equality of two strings ignoring the case of ASCII letters. -/
def equalFold (a b : Str) : Bool := a.map lowerByte = b.map lowerByte

/-- The request has a `Connection` header whose value equals `close`, letter
case ignored. -/
def closeRequested (r : Request) : Bool :=
  match GoMap.get? r.Headers (ascii "Connection") with
  | some c => equalFold c (ascii "close")
  | none => false

/-- The lines of a response: the pieces between the CRLF pairs (`cur` is the
current piece, reversed). -/
def splitCRLF : Str → Str → List Str
  | [], cur => [cur.reverse]
  | [c], cur => [(c :: cur).reverse]
  | c :: d :: rest, cur =>
    if c = 13 ∧ d = 10 then cur.reverse :: splitCRLF rest []
    else splitCRLF (d :: rest) (c :: cur)

/-- The header section of a response: the lines between the status line and
the first blank line. -/
def headerSection (resp : Str) : List Str :=
  ((splitCRLF resp []).drop 1).takeWhile (fun l => l ≠ [])

/-- The body of a response: all bytes after the first blank line, that is
after the first CRLF CRLF; `none` when there is no blank line. -/
def bodyAfterBlank : Str → Option Str
  | [] => none
  | c :: rest =>
    if (c :: rest).take 4 = [13, 10, 13, 10] then some (rest.drop 3)
    else bodyAfterBlank rest

/-- The values of the `Content-Length` lines of a header section. -/
def contentLengths (resp : Str) : List Str :=
  (headerSection resp).filterMap (fun l =>
    match cut 58 l with
    | some (name, value) => if name = ascii "Content-Length" then some (TrimSpace value) else none
    | none => none)

/-- Lines of a header section on the wire: every line is followed by CRLF. -/
def joinLines : List Str → Str
  | [] => []
  | l :: ls => l ++ 13 :: 10 :: joinLines ls

/-- The header line made of one entry of a header map. -/
def renderLine (e : Str × Str) : Str := e.1 ++ ascii ": " ++ e.2

/-- The header maps built by the handlers when the connection is to be
closed: no LF in any name or value, and exactly one entry that renders as
`Connection: close`. -/
def ClosingMap (h : GoMap Str) : Prop :=
  (∀ e ∈ h, 10 ∉ e.1 ∧ 10 ∉ e.2) ∧
  (h.map renderLine).count (ascii "Connection: close") = 1

/-! ## A concrete environment for running the server on examples -/

/-- An empty directory that cannot be written to: no file exists and every
creation fails; gzip is replaced by the identity. -/
def Env.empty : Env Unit where
  baseDir := ascii "/tmp"
  gzip := fun s => some s
  join := fun a b => a ++ ascii "/" ++ b
  create := fun _ _ => ((), false)
  write := fun _ _ _ => ((), false)
  stat := fun _ _ => false
  readFile := fun _ _ => none

/-- Every write succeeds and every map is visited in stored order. -/
def Tick.plain : Nat → Tick := fun _ => ⟨Order.stored, true⟩

/-- A stand-in for the gzip writer on examples: its output is the text behind
the two magic bytes of the gzip format, so that a compressed body can be told
from the text. -/
def markGzip (s : Str) : Option Str := some (31 :: 139 :: s)

/-! ## Well-formed requests on the wire and runs of the connection loop -/

/-- The parts of a request on the wire: the request line and the header lines
without their LF, the blank line without its LF, and the body. -/
structure Frame where
  line : Str
  headers : List Str
  blank : Str
  body : Str

/-- The bytes of a request. -/
def Frame.bytes (f : Frame) : Str :=
  f.line ++ 10 :: (wire f.headers ++ (f.blank ++ 10 :: f.body))

/-- A well-formed request: a request line with at least three fields, header
lines, a blank line, and a body that is empty when there is no
`Content-Length`, and otherwise has the length that `strconv.Atoi` reads in
that header (none for a length that is not positive), a length that
`make([]byte, n)` accepts. -/
def Frame.WellFormed (f : Frame) : Prop :=
  10 ∉ f.line ∧ 3 ≤ (Fields (f.line ++ [10])).length ∧
  HeaderLines f.headers ∧ BlankLine f.blank ∧
  match GoMap.get? (headerMap f.headers) (ascii "Content-Length") with
  | none => f.body = []
  | some clv => ∃ n : Int, Atoi clv = some n ∧ n.toNat ≤ maxAlloc ∧ f.body.length = n.toNat

/-- The request that a well-formed frame stands for: the first three fields of
the request line, the header map of the header lines, and the body. -/
def Frame.request (f : Frame) : Request :=
  match Fields (f.line ++ [10]) with
  | m :: p :: v :: _ => ⟨m, p, v, headerMap f.headers, f.body⟩
  | _ => ⟨[], [], [], headerMap f.headers, f.body⟩

/-- The successive calls of `AnalysisRequest` on a stream: each step is the
request returned and the bytes left in the reader. -/
def parseChain : Str → List (Request × Str) → Bool
  | _, [] => true
  | s, (req, rest) :: more =>
    decide (AnalysisRequest s = .ok (req, rest)) && parseChain rest more

/-- The bytes left in the reader after the steps of a chain. -/
def chainEnd : Str → List (Request × Str) → Str
  | s, [] => s
  | _, (_, rest) :: more => chainEnd rest more

/-- The steps of the frame reader on the concatenation of frames. -/
def stepsOf : List Frame → List (Request × Str)
  | [] => []
  | f :: fs => (f.request, (fs.map Frame.bytes).flatten) :: stepsOf fs

/-- The results of `Serve` for requests served one after the other: the
concatenation of the responses and the file system at the end. -/
def serveAll {σ : Type} (m : Mux σ) : (Nat → Tick) → σ → List Request → Str × σ
  | _, fs, [] => ([], fs)
  | ticks, fs, req :: reqs =>
    let r := m.Serve (routeKeyOf req.Path) (ticks 0).order fs req
    let rest := serveAll m (fun i => ticks (i + 1)) r.2 reqs
    (r.1.Response ++ rest.1, rest.2)

/-- Every one of the results of `Serve` for the requests has `Close` unset. -/
def allKeepAlive {σ : Type} (m : Mux σ) : (Nat → Tick) → σ → List Request → Bool
  | _, _, [] => true
  | ticks, fs, req :: reqs =>
    let r := m.Serve (routeKeyOf req.Path) (ticks 0).order fs req
    !r.1.Close && allKeepAlive m (fun i => ticks (i + 1)) r.2 reqs

/-! ## Words of the specification about responses -/

/-- The status line of a response: its first line. -/
def statusLine (resp : Str) : Option Str := (splitCRLF resp []).head?

/-- The 404 response of the specification for a request: the version and
` 404 Not Found`, the line `Connection: close` when the request asks to close,
a blank line and no body. -/
def notFound (req : Request) : Str :=
  req.Version ++ ascii " 404 Not Found" ++ CRLF
    ++ (if closeRequested req then ascii "Connection: close" ++ CRLF else [])
    ++ CRLF

/-! ## The file system as a map, and `filepath.Join` -/

/-- One path element in Go `filepath.Clean`; the elements kept so far are in
`stack`, the last one first.  An empty element and `.` are dropped; `..`
removes the element before it, is kept at the start of a path that is not
rooted, and is dropped at the start of a rooted path. -/
def cleanStep (rooted : Bool) (stack : List Str) (c : Str) : List Str :=
  if c = [] ∨ c = ascii "." then stack
  else if c = ascii ".." then
    match stack with
    | top :: below =>
      if top = ascii ".." then (if rooted then stack else c :: stack) else below
    | [] => if rooted then [] else [c]
  else c :: stack

/-- Go `filepath.Clean` on a Unix path. -/
def filepathClean (path : Str) : Str :=
  if path = [] then ascii "."
  else
    let rooted : Bool := path.head? = some 47
    let stack := (Split 47 path).foldl (cleanStep rooted) []
    let out := (if rooted then [47] else []) ++ Join [47] stack.reverse
    if out = [] then ascii "." else out

/-- Go `filepath.Join(a, b)`: the elements from the first non-empty one on are
joined with `/` and the result is cleaned. -/
def filepathJoin (a b : Str) : Str :=
  if a ≠ [] then filepathClean (a ++ [47] ++ b)
  else if b ≠ [] then filepathClean b
  else []

/-- The path `p` lies inside the directory `base` (an absolute path other than
the root): it is the cleaned directory itself or continues it behind a `/`. -/
def insideDir (base p : Str) : Bool :=
  p = filepathClean base ||
    p.take ((filepathClean base).length + 1) = filepathClean base ++ [47]

/-- The file system as an explicit map from path to bytes in which creating
and writing always succeed: `os.Create` leaves an empty file, `Write` sets
its bytes, `os.Stat` succeeds on the paths of the map and `os.ReadFile`
returns the bytes. -/
def Env.onMap (baseDir : Str) : Env (GoMap Str) where
  baseDir := baseDir
  gzip := markGzip
  join := filepathJoin
  create := fun fs p => (GoMap.set fs p [], true)
  write := fun fs p b => (GoMap.set fs p b, true)
  stat := fun fs p => (GoMap.get? fs p).isSome
  readFile := fun fs p => GoMap.get? fs p

/-- The order that visits the entries from the last stored to the first. -/
def Order.reversed : Order := ⟨fun l => l.reverse, fun l => List.reverse_perm l⟩

/-! ## Fields and clean header maps (for reading responses back) -/

/-- No white-space rune starts inside the text `f` when `s` follows it: the
scanner of `strings.Fields` keeps every byte of `f`. -/
def NoSpaceAt (s : Str) : Str → Prop
  | [] => True
  | a :: v => spaceWidth (a :: v ++ s) = 0 ∧ NoSpaceAt s v

/-- A header entry that the frame reader reads back as it is: no colon in the
name, no LF in name and value, and nothing for `strings.TrimSpace` to remove. -/
def CleanEntry (e : Str × Str) : Prop :=
  58 ∉ e.1 ∧ 10 ∉ e.1 ∧ TrimSpace e.1 = e.1 ∧ 10 ∉ e.2 ∧ TrimSpace e.2 = e.2

/-- A header map with distinct names and clean entries. -/
def CleanMap (h : GoMap Str) : Prop :=
  (h.map Prod.fst).Nodup ∧ ∀ e ∈ h, CleanEntry e

/-! # Theorems -/

/-! ## The frame reader: reading lines -/

theorem ReadString_line (l rest : Str) (h : 10 ∉ l) :
    ReadString 10 (l ++ 10 :: rest) = some (l ++ [10], rest) := by
  induction l with
  | nil => simp [ReadString]
  | cons c l ih =>
    have hc : c ≠ 10 := fun e => h (by simp [e])
    have hl : 10 ∉ l := fun e => h (by simp [e])
    simp [ReadString, hc, ih hl]

theorem ReadString_none (s : Str) (h : 10 ∉ s) : ReadString 10 s = none := by
  induction s with
  | nil => rfl
  | cons c l ih =>
    have hc : c ≠ 10 := fun e => h (by simp [e])
    have hl : 10 ∉ l := fun e => h (by simp [e])
    simp [ReadString, hc, ih hl]

theorem ReadString_some (s l r : Str) (h : ReadString 10 s = some (l, r)) :
    ∃ c, 10 ∉ c ∧ l = c ++ [10] ∧ s = c ++ 10 :: r := by
  induction s generalizing l with
  | nil => simp [ReadString] at h
  | cons a s ih =>
    by_cases ha : a = 10
    · subst ha
      simp [ReadString] at h
      exact ⟨[], by simp, by simp [h.1], by simp [h.2]⟩
    · simp only [ReadString, ha, if_false] at h
      cases hs : ReadString 10 s with
      | none => simp [hs] at h
      | some p =>
        obtain ⟨l', r'⟩ := p
        simp [hs] at h
        obtain ⟨c, hc, hl, hs'⟩ := ih l' (by rw [hs, h.2])
        refine ⟨a :: c, ?_, ?_, ?_⟩
        · simp [hc]; exact fun e => ha e.symm
        · simp [← h.1, hl]
        · simp [hs']

theorem line_blank_iff (c : Str) :
    (c ++ [10] = CRLF ∨ c ++ [10] = [10]) ↔ (c = [] ∨ c = [13]) := by
  constructor
  · rintro (h | h)
    · right
      have : c ++ [10] = [13] ++ [10] := h
      exact List.append_cancel_right this
    · left
      have : c ++ [10] = [] ++ [10] := h
      exact List.append_cancel_right this
  · rintro (h | h)
    · right; simp [h]
    · left; simp [h, CRLF]

/-- The header loop on a complete header block: with enough fuel it returns
the map of all lines and stops right after the blank line. -/
theorem readHeaders_wire (cs : List Str) (t tail : Str) (fuel : Nat) (h : GoMap Str)
    (hcs : HeaderLines cs) (ht : BlankLine t)
    (hf : (wire cs ++ (t ++ 10 :: tail)).length ≤ fuel) :
    readHeaders fuel (wire cs ++ (t ++ 10 :: tail)) h
      = some (cs.foldl (fun h c => addHeader h (c ++ [10])) h, tail) := by
  induction cs generalizing fuel h with
  | nil =>
    have ht10 : 10 ∉ t := by rcases ht with e | e <;> simp [e]
    cases fuel with
    | zero => simp at hf
    | succ fuel =>
      have hb : t ++ [10] = CRLF ∨ t ++ [10] = [10] := (line_blank_iff t).2 ht
      simp only [wire, List.nil_append, readHeaders, ReadString_line t tail ht10]
      rw [if_pos hb]
      rfl
  | cons c cs ih =>
    have hc := hcs c (by simp)
    have hcs' : HeaderLines cs := fun d hd => hcs d (by simp [hd])
    cases fuel with
    | zero => simp [wire] at hf
    | succ fuel =>
      have hnb : ¬ (c ++ [10] = CRLF ∨ c ++ [10] = [10]) := by
        rw [line_blank_iff]; rintro (e | e)
        · exact hc.2.1 e
        · exact hc.2.2 e
      have hlen : (wire cs ++ (t ++ 10 :: tail)).length ≤ fuel := by
        simp [wire] at hf ⊢; omega
      have hw : wire (c :: cs) ++ (t ++ 10 :: tail)
          = c ++ 10 :: (wire cs ++ (t ++ 10 :: tail)) := by simp [wire]
      rw [hw]
      simp only [readHeaders, ReadString_line c _ hc.1]
      rw [if_neg hnb, ih fuel _ hcs' hlen]
      simp

/-- The header loop on a header block cut short by the end of the stream. -/
theorem readHeaders_cut (cs : List Str) (p : Str) (fuel : Nat) (h : GoMap Str)
    (hcs : HeaderLines cs) (hp : 10 ∉ p) :
    readHeaders fuel (wire cs ++ p) h = none := by
  induction cs generalizing fuel h with
  | nil =>
    cases fuel with
    | zero => rfl
    | succ fuel => simp [wire, readHeaders, ReadString_none p hp]
  | cons c cs ih =>
    have hc := hcs c (by simp)
    have hcs' : HeaderLines cs := fun d hd => hcs d (by simp [hd])
    cases fuel with
    | zero => rfl
    | succ fuel =>
      have hnb : ¬ (c ++ [10] = CRLF ∨ c ++ [10] = [10]) := by
        rw [line_blank_iff]; rintro (e | e)
        · exact hc.2.1 e
        · exact hc.2.2 e
      have hw : wire (c :: cs) ++ p = c ++ 10 :: (wire cs ++ p) := by simp [wire]
      rw [hw]
      simp only [readHeaders, ReadString_line c _ hc.1]
      rw [if_neg hnb, ih fuel _ hcs']

theorem readHeaders_fuel_any (f1 f2 : Nat) (s : Str) (h : GoMap Str)
    (h1 : s.length ≤ f1) (h2 : s.length ≤ f2) :
    readHeaders f1 s h = readHeaders f2 s h := by
  induction f1 generalizing f2 s h with
  | zero =>
    have : s = [] := List.length_eq_zero.1 (by omega)
    subst this
    cases f2 <;> simp [readHeaders, ReadString]
  | succ f1 ih =>
    cases f2 with
    | zero =>
      have : s = [] := List.length_eq_zero.1 (by omega)
      subst this
      simp [readHeaders, ReadString]
    | succ f2 =>
      cases hs : ReadString 10 s with
      | none => simp [readHeaders, hs]
      | some q =>
        obtain ⟨line, rest⟩ := q
        obtain ⟨c, _, _, hsr⟩ := ReadString_some s line rest hs
        have hlen : rest.length < s.length := by
          have := congrArg List.length hsr
          simp at this
          omega
        simp only [readHeaders, hs]
        by_cases hb : line = CRLF ∨ line = [10]
        · simp only [hb, if_true]
        · simp only [hb, if_false]
          exact ih f2 rest _ (by omega) (by omega)

/-- The bound of the header loop is immaterial once it is at least the length
of the stream. -/
theorem readHeaders_fuel (fuel : Nat) (s : Str) (h : GoMap Str) (hf : s.length ≤ fuel) :
    readHeaders fuel s h = readHeaders s.length s h :=
  readHeaders_fuel_any fuel s.length s h hf (le_refl _)

/-- The header loop reads at least one byte when it returns a map. -/
theorem readHeaders_length (fuel : Nat) (s : Str) (h h' : GoMap Str) (r : Str)
    (hr : readHeaders fuel s h = some (h', r)) : r.length < s.length := by
  induction fuel generalizing s h with
  | zero => simp [readHeaders] at hr
  | succ fuel ih =>
    cases hs : ReadString 10 s with
    | none => simp [readHeaders, hs] at hr
    | some q =>
      obtain ⟨line, rest⟩ := q
      obtain ⟨c, _, _, hsr⟩ := ReadString_some s line rest hs
      have hlen : rest.length < s.length := by
        have := congrArg List.length hsr
        simp at this
        omega
      simp only [readHeaders, hs] at hr
      by_cases hb : line = CRLF ∨ line = [10]
      · simp only [hb, if_true, Option.some.injEq, Prod.mk.injEq] at hr
        rw [← hr.2]
        exact hlen
      · simp only [hb, if_false] at hr
        have := ih rest _ hr
        omega

/-- The frame reader on a complete head (request line, header block, blank
line): the outcome is that of the body step on the bytes after the blank
line. -/
theorem AnalysisRequest_head (l0 : Str) (cs : List Str) (t tail : Str)
    (m p v : Str) (more : List Str)
    (hl0 : 10 ∉ l0) (hf : Fields (l0 ++ [10]) = m :: p :: v :: more)
    (hcs : HeaderLines cs) (ht : BlankLine t) :
    AnalysisRequest (l0 ++ 10 :: (wire cs ++ (t ++ 10 :: tail)))
      = match readBody (headerMap cs) tail with
        | .ok (body, rest) => .ok (⟨m, p, v, headerMap cs, body⟩, rest)
        | .error e => .error e
        | .fault => .fault := by
  unfold AnalysisRequest
  simp only [ReadString_line l0 _ hl0, hf]
  rw [readHeaders_wire cs t tail _ [] hcs ht (le_refl _)]
  rfl

theorem parseDigits_head (c : Nat) (rest : Str) (N : Nat)
    (h : parseDigits (c :: rest) 0 = some N) : 48 ≤ c ∧ c ≤ 57 := by
  by_contra hc
  simp [parseDigits, hc] at h

/-- On a non-empty string of decimal digits `strconv.Atoi` returns the value
when it fits in an `int` and an error otherwise. -/
theorem Atoi_digits (clv : Str) (N : Nat) (hne : clv ≠ [])
    (hval : parseDigits clv 0 = some N) :
    Atoi clv = if N ≤ maxInt then some (N : Int) else none := by
  cases clv with
  | nil => exact absurd rfl hne
  | cons c rest =>
    have hc := parseDigits_head c rest N hval
    have h45 : c ≠ 45 := by omega
    have h43 : c ≠ 43 := by omega
    simp [Atoi, h45, h43, hval]

theorem parseDigits_non_digit (ds : Str) (acc b : Nat) (hb : b ∈ ds)
    (hnd : ¬ (48 ≤ b ∧ b ≤ 57)) : parseDigits ds acc = none := by
  induction ds generalizing acc with
  | nil => simp at hb
  | cons c ds ih =>
    unfold parseDigits
    by_cases hc : 48 ≤ c ∧ c ≤ 57
    · rw [if_pos hc]
      rcases List.mem_cons.1 hb with e | e
      · exact absurd (e ▸ hc) hnd
      · exact ih _ e
    · rw [if_neg hc]

/-- The function `strconv.Atoi` rejects the empty text and every text that
holds a byte that is neither a decimal digit nor a sign. -/
theorem Atoi_non_numeric (s : Str)
    (h : s = [] ∨ ∃ b ∈ s, ¬ (48 ≤ b ∧ b ≤ 57) ∧ b ≠ 45 ∧ b ≠ 43) : Atoi s = none := by
  rcases h with h | ⟨b, hb, hnd, h45, h43⟩
  · subst h; rfl
  · cases s with
    | nil => simp at hb
    | cons c rest =>
      unfold Atoi
      simp only
      by_cases hs : c = 45 ∨ c = 43
      · have hbr : b ∈ rest := by
          rcases List.mem_cons.1 hb with e | e
          · rcases hs with e' | e'
            · exact absurd (e.trans e') h45
            · exact absurd (e.trans e') h43
          · exact e
        simp only [hs, if_true]
        by_cases hr : rest = []
        · simp [hr]
        · simp [hr, parseDigits_non_digit rest 0 b hbr hnd]
      · simp only [hs, if_false]
        simp [parseDigits_non_digit (c :: rest) 0 b hb hnd]

/-! ## C2: a Content-Length that `strconv.Atoi` rejects -/

/-- C2, as stated, fails: with `Content-Length: -5`, a negative number, the
frame reader reports no error; it returns the request with an empty body and
leaves the bytes after the blank line unread. -/
theorem C2_counterexample :
    AnalysisRequest (ascii "POST / HTTP/1.1\r\nContent-Length: -5\r\n\r\nhello")
      = .ok (⟨ascii "POST", ascii "/", ascii "HTTP/1.1",
          [(ascii "Content-Length", ascii "-5")], []⟩, ascii "hello") := by
  decide

/-- C2 (amended): for a well-formed head whose `Content-Length` value is
`clv`, the frame reader fails with the invalid-Content-Length error exactly
when `strconv.Atoi` rejects `clv`, as it does for an empty value and for every
value that holds a byte that is neither a digit nor a sign; a value that `Atoi`
reads as a negative number or as zero is accepted, the request has an empty
body and no byte after the blank line is read. -/
theorem C2_invalid_content_length (l0 : Str) (cs : List Str) (t tail : Str)
    (m p v : Str) (more : List Str) (clv : Str)
    (hl0 : 10 ∉ l0) (hf : Fields (l0 ++ [10]) = m :: p :: v :: more)
    (hcs : HeaderLines cs) (ht : BlankLine t)
    (hcl : GoMap.get? (headerMap cs) (ascii "Content-Length") = some clv) :
    (AnalysisRequest (l0 ++ 10 :: (wire cs ++ (t ++ 10 :: tail)))
        = .error .invalidContentLength ↔ Atoi clv = none) ∧
    ((clv = [] ∨ ∃ b ∈ clv, ¬ (48 ≤ b ∧ b ≤ 57) ∧ b ≠ 45 ∧ b ≠ 43) →
      AnalysisRequest (l0 ++ 10 :: (wire cs ++ (t ++ 10 :: tail)))
        = .error .invalidContentLength) ∧
    (∀ n : Int, Atoi clv = some n → n ≤ 0 →
      AnalysisRequest (l0 ++ 10 :: (wire cs ++ (t ++ 10 :: tail)))
        = .ok (⟨m, p, v, headerMap cs, []⟩, tail)) := by
  rw [AnalysisRequest_head l0 cs t tail m p v more hl0 hf hcs ht]
  unfold readBody
  rw [hcl]
  cases hA : Atoi clv with
  | none => simp [hA]
  | some n =>
    refine ⟨?_, ?_, ?_⟩
    · simp only [reduceCtorEq, iff_false]
      by_cases h1 : n > 0
      · by_cases h2 : n.toNat > maxAlloc
        · simp [hA, h1, h2]
        · by_cases h3 : n.toNat ≤ tail.length
          · simp [hA, h1, h2, h3]
          · simp [hA, h1, h2, h3]
      · simp [hA, h1]
    · intro hnn
      rw [Atoi_non_numeric clv hnn] at hA
      simp at hA
    · intro n' hn' hle
      have : n' = n := by simpa using hn'.symm
      subst this
      have h1 : ¬ n' > 0 := by omega
      simp [hA, h1]

/-- C2, witness: the value `abc` holds no digit, `Atoi` rejects it and the
frame reader fails with the invalid-Content-Length error. -/
theorem C2_invalid_content_length_witness :
    AnalysisRequest (ascii "POST / HTTP/1.1\r" ++ 10 ::
        (wire [ascii "Content-Length: abc\r"] ++ ([13] ++ 10 :: ascii "hello")))
      = .error .invalidContentLength :=
  (C2_invalid_content_length (ascii "POST / HTTP/1.1\r")
    [ascii "Content-Length: abc\r"] [13] (ascii "hello")
    (ascii "POST") (ascii "/") (ascii "HTTP/1.1") [] (ascii "abc")
    (by decide) (by decide) (by unfold HeaderLines; decide) (by unfold BlankLine; decide)
    (by decide)).2.1 (Or.inr ⟨97, by decide, by decide, by decide, by decide⟩)

/-! ## C3: when the frame reader reports the end of the stream -/

theorem ReadString_none_iff (s : Str) : ReadString 10 s = none ↔ 10 ∉ s := by
  constructor
  · intro h hm
    obtain ⟨a, b, hab⟩ := List.append_of_mem hm
    have hsplit : ∃ c r, 10 ∉ c ∧ s = c ++ 10 :: r := by
      clear h hab a b
      induction s with
      | nil => simp at hm
      | cons x s ih =>
        by_cases hx : x = 10
        · exact ⟨[], s, by simp, by simp [hx]⟩
        · have hm' : 10 ∈ s := by
            rcases List.mem_cons.1 hm with e | e
            · exact absurd e.symm hx
            · exact e
          obtain ⟨c, r, hc, hs⟩ := ih hm'
          refine ⟨x :: c, r, ?_, by simp [hs]⟩
          simp [hc]; exact fun e => hx e.symm
    obtain ⟨c, r, hc, hs⟩ := hsplit
    rw [hs, ReadString_line c r hc] at h
    simp at h
  · exact ReadString_none s

/-- The header loop returns `io.EOF` only on a header block that the end of
the stream cuts short. -/
theorem readHeaders_none (fuel : Nat) (s : Str) (h : GoMap Str)
    (hf : s.length ≤ fuel) (hr : readHeaders fuel s h = none) :
    ∃ cs p, s = wire cs ++ p ∧ HeaderLines cs ∧ 10 ∉ p := by
  induction fuel generalizing s h with
  | zero =>
    have : s = [] := List.length_eq_zero.1 (by omega)
    exact ⟨[], [], by simp [this, wire], by simp [HeaderLines], by simp⟩
  | succ fuel ih =>
    cases hs : ReadString 10 s with
    | none =>
      exact ⟨[], s, by simp [wire], by simp [HeaderLines], (ReadString_none_iff s).1 hs⟩
    | some q =>
      obtain ⟨line, rest⟩ := q
      obtain ⟨c, hc, hline, hsr⟩ := ReadString_some s line rest hs
      simp only [readHeaders, hs] at hr
      by_cases hb : line = CRLF ∨ line = [10]
      · rw [if_pos hb] at hr
        simp at hr
      · rw [if_neg hb] at hr
        have hlen : rest.length ≤ fuel := by
          rw [hsr] at hf; simp at hf; omega
        obtain ⟨cs, p, hrest, hcs, hp⟩ := ih rest _ hlen hr
        refine ⟨c :: cs, p, by simp [hsr, hrest, wire], ?_, hp⟩
        intro d hd
        rcases List.mem_cons.1 hd with e | e
        · subst e
          rw [hline, line_blank_iff] at hb
          exact ⟨hc, fun e => hb (Or.inl e), fun e => hb (Or.inr e)⟩
        · exact hcs d e

theorem readBody_ne_eof (h : GoMap Str) (s : Str) : readBody h s ≠ .error .eof := by
  unfold readBody
  cases GoMap.get? h (ascii "Content-Length") with
  | none => simp
  | some clv =>
    cases hA : Atoi clv with
    | none => simp [hA]
    | some n =>
      by_cases h1 : n > 0
      · by_cases h2 : n.toNat > maxAlloc
        · simp [hA, h1, h2]
        · by_cases h3 : n.toNat ≤ s.length
          · simp [hA, h1, h2, h3]
          · simp [hA, h1, h2, h3]
      · simp [hA, h1]

/-- C3, as stated, fails: the stream `GET / HT` ends inside the request line,
after eight bytes of the request were read, and the stream that ends inside
the header line `Host: x` ends after a complete request line; in both cases
the frame reader returns the bare end-of-stream error. -/
theorem C3_counterexample :
    AnalysisRequest (ascii "GET / HT") = .error .eof ∧
    AnalysisRequest (ascii "GET / HTTP/1.1\r\nHost: x") = .error .eof := by
  decide

/-- C3 (amended): the frame reader returns the bare end-of-stream error
exactly when the stream ends before the LF of the request line (the stream
holds no LF at all, be it empty or not), or when, after a request line with at
least three fields, the stream ends before the blank line that closes the
header block.  In every other case, among them a stream that ends inside the
body, the outcome is not the end-of-stream error. -/
theorem C3_end_of_stream (s : Str) :
    AnalysisRequest s = .error .eof ↔
      (10 ∉ s ∨
        ∃ l0 cs p, s = l0 ++ 10 :: (wire cs ++ p) ∧ 10 ∉ l0 ∧
          3 ≤ (Fields (l0 ++ [10])).length ∧ HeaderLines cs ∧ 10 ∉ p) := by
  constructor
  · intro h
    cases hs : ReadString 10 s with
    | none => exact Or.inl ((ReadString_none_iff s).1 hs)
    | some q =>
      obtain ⟨line, rest⟩ := q
      obtain ⟨c, hc, hline, hsr⟩ := ReadString_some s line rest hs
      right
      unfold AnalysisRequest at h
      simp only [hs] at h
      match hF : Fields line, h with
      | [], h => simp at h
      | [_], h => simp at h
      | [_, _], h => simp at h
      | m :: p :: v :: more, h =>
        simp only at h
        cases hh : readHeaders rest.length rest [] with
        | none =>
          obtain ⟨cs, q, hrest, hcs, hq⟩ := readHeaders_none _ rest [] (le_refl _) hh
          refine ⟨c, cs, q, by rw [hsr, hrest], hc, ?_, hcs, hq⟩
          rw [← hline, hF]; simp
        | some r =>
          obtain ⟨hd, rest'⟩ := r
          simp only [hh] at h
          have hne := readBody_ne_eof hd rest'
          cases hb : readBody hd rest' with
          | ok a => simp [hb] at h
          | error e =>
            rw [hb] at h hne
            simp only at h
            injection h with he
            exact absurd (by rw [he]) hne
          | fault => simp [hb] at h
  · rintro (h | ⟨l0, cs, p, hs, hl0, hF, hcs, hp⟩)
    · simp [AnalysisRequest, ReadString_none s h]
    · subst hs
      unfold AnalysisRequest
      simp only [ReadString_line l0 _ hl0]
      match hF' : Fields (l0 ++ [10]), hF with
      | m :: q :: v :: more, _ =>
        simp only [readHeaders_cut cs p _ [] hcs hp]
      | [], hF => simp at hF
      | [_], hF => simp at hF
      | [_, _], hF => simp at hF

/-! ## C4: header names are compared byte for byte -/

/-- C4, as stated, fails: with the name spelled `content-length` or
`CONTENT-LENGTH`, the value 5 and five bytes behind the blank line, the
returned body is empty, not five bytes long, and the five bytes stay unread:
the map keeps the name as spelled and the lookup is for `Content-Length`. -/
theorem C4_counterexample :
    AnalysisRequest (ascii "POST / HTTP/1.1\r\ncontent-length: 5\r\n\r\nhello")
      = .ok (⟨ascii "POST", ascii "/", ascii "HTTP/1.1",
          [(ascii "content-length", ascii "5")], []⟩, ascii "hello") ∧
    AnalysisRequest (ascii "POST / HTTP/1.1\r\nCONTENT-LENGTH: 5\r\n\r\nhello")
      = .ok (⟨ascii "POST", ascii "/", ascii "HTTP/1.1",
          [(ascii "CONTENT-LENGTH", ascii "5")], []⟩, ascii "hello") := by
  decide

/-- C4 (amended): header names are case-sensitive in the parsed request.  For
every well-formed head whose header map has no entry under the exact name
`Content-Length` (whatever it holds under other spellings of that name), the
frame reader succeeds, the body is empty and no byte after the blank line is
read. -/
theorem C4_exact_name_only (l0 : Str) (cs : List Str) (t tail : Str)
    (m p v : Str) (more : List Str)
    (hl0 : 10 ∉ l0) (hf : Fields (l0 ++ [10]) = m :: p :: v :: more)
    (hcs : HeaderLines cs) (ht : BlankLine t)
    (hcl : GoMap.get? (headerMap cs) (ascii "Content-Length") = none) :
    AnalysisRequest (l0 ++ 10 :: (wire cs ++ (t ++ 10 :: tail)))
      = .ok (⟨m, p, v, headerMap cs, []⟩, tail) := by
  rw [AnalysisRequest_head l0 cs t tail m p v more hl0 hf hcs ht]
  unfold readBody
  rw [hcl]

/-- C4, witness: the header `content-length: 5` is kept under its lower-case
name and frames no body. -/
theorem C4_exact_name_only_witness :
    GoMap.get? (headerMap [ascii "content-length: 5\r"]) (ascii "content-length")
      = some (ascii "5") ∧
    AnalysisRequest (ascii "POST / HTTP/1.1\r" ++ 10 ::
        (wire [ascii "content-length: 5\r"] ++ ([13] ++ 10 :: ascii "hello")))
      = .ok (⟨ascii "POST", ascii "/", ascii "HTTP/1.1",
          headerMap [ascii "content-length: 5\r"], []⟩, ascii "hello") :=
  ⟨by decide,
   C4_exact_name_only (ascii "POST / HTTP/1.1\r")
    [ascii "content-length: 5\r"] [13] (ascii "hello")
    (ascii "POST") (ascii "/") (ascii "HTTP/1.1") []
    (by decide) (by decide) (by unfold HeaderLines; decide) (by unfold BlankLine; decide)
    (by decide)⟩

/-! ## C5: the request line -/

/-- C5: for every first line (its bytes `l0` before the LF, a final CR
included or not): when `strings.Fields` gives fewer than three fields the
frame reader fails with the malformed-request-line error, whatever follows;
when it gives exactly three fields and the remainder is well formed (header
lines, blank line, and a body step that succeeds), the frame reader succeeds
and the method, path and version are the three fields in order. -/
theorem C5_request_line (l0 : Str) (hl0 : 10 ∉ l0) :
    ((Fields (l0 ++ [10])).length < 3 →
      ∀ rest, AnalysisRequest (l0 ++ 10 :: rest) = .error .invalidRequestLine) ∧
    (∀ m p v, Fields (l0 ++ [10]) = [m, p, v] →
      ∀ cs t tail body rest, HeaderLines cs → BlankLine t →
        readBody (headerMap cs) tail = .ok (body, rest) →
        ∃ req, AnalysisRequest (l0 ++ 10 :: (wire cs ++ (t ++ 10 :: tail))) = .ok (req, rest) ∧
          req.Method = m ∧ req.Path = p ∧ req.Version = v) := by
  refine ⟨fun hlt rest => ?_, fun m p v hF cs t tail body rest hcs ht hb => ?_⟩
  · unfold AnalysisRequest
    simp only [ReadString_line l0 _ hl0]
    match hF : Fields (l0 ++ [10]), hlt with
    | [], _ => rfl
    | [_], _ => rfl
    | [_, _], _ => rfl
    | _ :: _ :: _ :: _, hlt => exact absurd hlt (by simp)
  · rw [AnalysisRequest_head l0 cs t tail m p v [] hl0 hF hcs ht, hb]
    exact ⟨_, rfl, rfl, rfl, rfl⟩

/-- C5, witness: the line `GET /` has two fields and is refused; the line
`GET /echo/abc HTTP/1.1` has three, which come back as method, path and
version. -/
theorem C5_request_line_witness :
    AnalysisRequest (ascii "GET /\r" ++ 10 :: ascii "Host: x\r\n\r\n")
      = .error .invalidRequestLine ∧
    ∃ req, AnalysisRequest (ascii "GET /echo/abc HTTP/1.1\r" ++ 10 ::
          (wire [ascii "Host: x\r"] ++ ([13] ++ 10 :: ascii "GET"))) = .ok (req, ascii "GET") ∧
      req.Method = ascii "GET" ∧ req.Path = ascii "/echo/abc" ∧
      req.Version = ascii "HTTP/1.1" :=
  ⟨(C5_request_line (ascii "GET /\r") (by decide)).1 (by decide) (ascii "Host: x\r\n\r\n"),
   (C5_request_line (ascii "GET /echo/abc HTTP/1.1\r") (by decide)).2
      (ascii "GET") (ascii "/echo/abc") (ascii "HTTP/1.1") (by decide)
      [ascii "Host: x\r"] [13] (ascii "GET") [] (ascii "GET")
      (by unfold HeaderLines; decide) (by unfold BlankLine; decide) (by decide)⟩

/-! ## C6: the header map -/

theorem isSpace1_of_inCRLF (c : Nat) (h : inCRLF c = true) : isSpace1 c = true := by
  simp only [inCRLF, Bool.or_eq_true, decide_eq_true_eq] at h
  rcases h with h | h <;> subst h <;> rfl

theorem isSpace1_cases (c : Nat) (h : isSpace1 c = true) :
    c = 9 ∨ c = 10 ∨ c = 11 ∨ c = 12 ∨ c = 13 ∨ c = 32 := by
  simpa [isSpace1, or_assoc] using h

theorem spaceWidth_space1 (c : Nat) (r : Str) (h : isSpace1 c = true) :
    spaceWidth (c :: r) = 1 := by
  match r with
  | [] => simp [spaceWidth, h]
  | [_] => simp [spaceWidth, h]
  | _ :: _ :: _ => simp [spaceWidth, h]

theorem spaceWidthRev_space1 (c : Nat) (r : Str) (h : isSpace1 c = true) :
    spaceWidthRev (c :: r) = 1 := by
  match r with
  | [] => simp [spaceWidthRev, h]
  | [_] => simp [spaceWidthRev, h]
  | _ :: _ :: _ => simp [spaceWidthRev, h]

/-- A white-space rune at the head of a string stays one when bytes are
appended. -/
theorem spaceWidth_append_pos (u v : Str) (h : 0 < spaceWidth u) :
    spaceWidth (u ++ v) = spaceWidth u := by
  match u, v with
  | [], _ => simp [spaceWidth] at h
  | _, [] => simp
  | [a], [x] =>
    by_cases h1 : isSpace1 a = true
    · simp [spaceWidth, h1]
    · simp [spaceWidth, h1] at h
  | [a], [x, y] =>
    by_cases h1 : isSpace1 a = true
    · simp [spaceWidth, h1]
    · simp [spaceWidth, h1] at h
  | [a], x :: y :: z :: w =>
    by_cases h1 : isSpace1 a = true
    · simp [spaceWidth, h1]
    · simp [spaceWidth, h1] at h
  | [a, b], x :: w =>
    by_cases h1 : isSpace1 a = true
    · simp [spaceWidth, h1]
    · by_cases h2 : isSpace2 a b = true
      · simp [spaceWidth, h1, h2]
      · simp [spaceWidth, h1, h2] at h
  | a :: b :: c :: u', x :: w => simp [spaceWidth]

/-- A string that starts with no white-space rune still starts with none when
one byte of ASCII white space is appended. -/
theorem spaceWidth_append_zero (u : Str) (c : Nat) (hu : u ≠ [])
    (h : spaceWidth u = 0) (hc : isSpace1 c = true) : spaceWidth (u ++ [c]) = 0 := by
  have hc' := isSpace1_cases c hc
  match u with
  | [] => exact absurd rfl hu
  | [a] =>
    by_cases h1 : isSpace1 a = true
    · simp [spaceWidth, h1] at h
    · have h2 : isSpace2 a c = false := by
        simp only [isSpace2, Bool.and_eq_false_imp, decide_eq_true_eq]
        intro _
        rcases hc' with e | e | e | e | e | e <;> subst e <;> decide
      simp [spaceWidth, h1, h2]
  | [a, b] =>
    by_cases h1 : isSpace1 a = true
    · simp [spaceWidth, h1] at h
    · by_cases h2 : isSpace2 a b = true
      · simp [spaceWidth, h1, h2] at h
      · have h3 : isSpace3 a b c = false := by
          rcases hc' with e | e | e | e | e | e <;> subst e <;> simp [isSpace3]
        simp [spaceWidth, h1, h2, h3]
  | a :: b :: d :: u' =>
    simpa [spaceWidth] using h

/-- Dropping leading white space of a string followed by one byte of ASCII
white space: the byte stays behind what is kept, or nothing is kept. -/
theorem dropSpaces_append_space (x : Str) (c skip : Nat) (hc : isSpace1 c = true) :
    dropSpaces spaceWidth (x ++ [c]) skip = dropSpaces spaceWidth x skip ++ [c] ∨
    (dropSpaces spaceWidth x skip = [] ∧ dropSpaces spaceWidth (x ++ [c]) skip = []) := by
  induction x generalizing skip with
  | nil =>
    right
    cases skip with
    | zero => simp [dropSpaces, spaceWidth, hc]
    | succ k => simp [dropSpaces]
  | cons a x ih =>
    cases skip with
    | succ k => simpa [dropSpaces] using ih k
    | zero =>
      by_cases hw : spaceWidth (a :: x) = 0
      · have hw' : spaceWidth (a :: x ++ [c]) = 0 :=
          spaceWidth_append_zero (a :: x) c (by simp) hw hc
        left
        have hw'' : spaceWidth (a :: (x ++ [c])) = 0 := by simpa using hw'
        simp [dropSpaces, hw, hw'']
      · have hpos : 0 < spaceWidth (a :: x) := Nat.pos_of_ne_zero hw
        have hw' : spaceWidth (a :: (x ++ [c])) = spaceWidth (a :: x) := by
          simpa using spaceWidth_append_pos (a :: x) [c] hpos
        have := ih (spaceWidth (a :: x) - 1)
        simpa [dropSpaces, hw, hw'] using this

theorem TrimSpace_append_space (x : Str) (c : Nat) (hc : isSpace1 c = true) :
    TrimSpace (x ++ [c]) = TrimSpace x := by
  unfold TrimSpace
  rcases dropSpaces_append_space x c 0 hc with h | ⟨h1, h2⟩
  · rw [h]
    simp [dropSpaces, spaceWidthRev_space1 c _ hc]
  · rw [h1, h2]

theorem TrimSpace_cons_space (x : Str) (c : Nat) (hc : isSpace1 c = true) :
    TrimSpace (c :: x) = TrimSpace x := by
  unfold TrimSpace
  simp [dropSpaces, spaceWidth_space1 c x hc]

/-- Bytes of the cutset `"\r\n"` at the end of a string do not change what
`strings.TrimSpace` returns. -/
theorem TrimSpace_append_crlf (x z : Str) (hz : ∀ c ∈ z, inCRLF c = true) :
    TrimSpace (x ++ z) = TrimSpace x := by
  induction z generalizing x with
  | nil => simp
  | cons c z ih =>
    have e : x ++ c :: z = (x ++ [c]) ++ z := by simp
    rw [e, ih (x ++ [c]) (fun d hd => hz d (by simp [hd])),
      TrimSpace_append_space x c (isSpace1_of_inCRLF c (hz c (by simp)))]

/-- Bytes of the cutset `"\r\n"` at the start of a string do not change what
`strings.TrimSpace` returns. -/
theorem TrimSpace_crlf_append (z x : Str) (hz : ∀ c ∈ z, inCRLF c = true) :
    TrimSpace (z ++ x) = TrimSpace x := by
  induction z with
  | nil => simp
  | cons c z ih =>
    rw [List.cons_append,
      TrimSpace_cons_space (z ++ x) c (isSpace1_of_inCRLF c (hz c (by simp))),
      ih (fun d hd => hz d (by simp [hd]))]

theorem cut_none (sep : Nat) (s : Str) (h : sep ∉ s) : cut sep s = none := by
  induction s with
  | nil => rfl
  | cons c s ih =>
    have hc : c ≠ sep := fun e => h (by simp [e])
    have hs : sep ∉ s := fun e => h (by simp [e])
    simp [cut, hc, ih hs]

theorem cut_append (sep : Nat) (a b : Str) (h : sep ∉ a) :
    cut sep (a ++ sep :: b) = some (a, b) := by
  induction a with
  | nil => simp [cut]
  | cons c a ih =>
    have hc : c ≠ sep := fun e => h (by simp [e])
    have hs : sep ∉ a := fun e => h (by simp [e])
    simp [cut, hc, ih hs]

theorem cut_some (sep : Nat) (s a b : Str) (h : cut sep s = some (a, b)) :
    s = a ++ sep :: b ∧ sep ∉ a := by
  induction s generalizing a with
  | nil => simp [cut] at h
  | cons c s ih =>
    by_cases hc : c = sep
    · simp [cut, hc] at h
      obtain ⟨h1, h2⟩ := h
      subst h1 h2
      simp [hc]
    · simp only [cut, hc, if_false] at h
      cases hs : cut sep s with
      | none => simp [hs] at h
      | some q =>
        obtain ⟨a', b'⟩ := q
        simp [hs] at h
        obtain ⟨h1, h2⟩ := h
        subst h1 h2
        obtain ⟨e1, e2⟩ := ih a' hs
        refine ⟨by rw [e1]; simp, ?_⟩
        simp [e2]; exact fun e => hc e.symm

theorem cut_eq_none (sep : Nat) (s : Str) (h : cut sep s = none) : sep ∉ s := by
  intro hm
  induction s with
  | nil => simp at hm
  | cons c s ih =>
    by_cases hc : c = sep
    · simp [cut, hc] at h
    · simp only [cut, hc, if_false] at h
      cases hs : cut sep s with
      | none =>
        rcases List.mem_cons.1 hm with e | e
        · exact hc e.symm
        · exact ih hs e
      | some q => simp [hs] at h

theorem dropWhile_append_stop (p : Nat → Bool) (a r : Str) (x : Nat) (hx : p x = false) :
    (a ++ x :: r).dropWhile p = a.dropWhile p ++ x :: r := by
  induction a with
  | nil => simp [List.dropWhile, hx]
  | cons c a ih =>
    by_cases hc : p c = true
    · simp [List.dropWhile, hc, ih]
    · simp [List.dropWhile, hc]

/-- What `strings.Trim(s, "\r\n")` removes: a string splits into bytes of
the cutset, the trimmed string, and bytes of the cutset. -/
theorem TrimCRLF_split (s : Str) :
    ∃ z1 z2, s = z1 ++ TrimCRLF s ++ z2 ∧
      (∀ c ∈ z1, inCRLF c = true) ∧ (∀ c ∈ z2, inCRLF c = true) := by
  refine ⟨s.takeWhile inCRLF, ((s.dropWhile inCRLF).reverse.takeWhile inCRLF).reverse, ?_,
    fun c hc => List.mem_takeWhile_imp hc, fun c hc => ?_⟩
  · unfold TrimCRLF
    have e1 := List.takeWhile_append_dropWhile inCRLF s
    have e2 := List.takeWhile_append_dropWhile inCRLF (s.dropWhile inCRLF).reverse
    have e3 : s.dropWhile inCRLF
        = ((s.dropWhile inCRLF).reverse.dropWhile inCRLF).reverse
          ++ ((s.dropWhile inCRLF).reverse.takeWhile inCRLF).reverse := by
      rw [← List.reverse_append, e2, List.reverse_reverse]
    rw [List.append_assoc, ← e3, e1]
  · exact List.mem_takeWhile_imp (List.mem_reverse.1 hc)

/-- The code's treatment of a header line (trim CR and LF, split at the first
colon, trim both parts) is the step of the specification on the line without
its LF. -/
theorem addHeader_eq_spec (h : GoMap Str) (c : Str) :
    addHeader h (c ++ [10]) = specHeaderLine h c := by
  unfold addHeader specHeaderLine SplitN2
  cases hcut : cut 58 c with
  | none =>
    have h58 : 58 ∉ c := cut_eq_none 58 c hcut
    obtain ⟨z1, z2, hs, _, _⟩ := TrimCRLF_split (c ++ [10])
    have h58' : 58 ∉ TrimCRLF (c ++ [10]) := by
      intro hm
      have : 58 ∈ c ++ [10] := by rw [hs]; simp [hm]
      simp at this
      exact h58 this
    rw [cut_none 58 _ h58']
  | some q =>
    obtain ⟨a, b⟩ := q
    obtain ⟨hc, ha⟩ := cut_some 58 c a b hcut
    have h58 : inCRLF 58 = false := by decide
    have e1 : (c ++ [10]).dropWhile inCRLF = a.dropWhile inCRLF ++ 58 :: (b ++ [10]) := by
      rw [hc, List.append_assoc, List.cons_append, dropWhile_append_stop inCRLF a _ 58 h58]
    have e2 : TrimCRLF (c ++ [10])
        = a.dropWhile inCRLF ++ 58 :: ((b ++ [10]).reverse.dropWhile inCRLF).reverse := by
      unfold TrimCRLF
      rw [e1, List.reverse_append, List.reverse_cons, List.append_assoc,
        List.singleton_append, dropWhile_append_stop inCRLF _ _ 58 h58]
      simp
    have ha' : 58 ∉ a.dropWhile inCRLF := fun hm => ha ((List.dropWhile_sublist inCRLF).subset hm)
    rw [e2, cut_append 58 _ _ ha']
    have k1 : TrimSpace (a.dropWhile inCRLF) = TrimSpace a := by
      conv_rhs => rw [← List.takeWhile_append_dropWhile inCRLF a]
      exact (TrimSpace_crlf_append _ _ (fun d hd => List.mem_takeWhile_imp hd)).symm
    have k2 : TrimSpace ((b ++ [10]).reverse.dropWhile inCRLF).reverse = TrimSpace b := by
      have e3 : b ++ [10] = ((b ++ [10]).reverse.dropWhile inCRLF).reverse
          ++ ((b ++ [10]).reverse.takeWhile inCRLF).reverse := by
        rw [← List.reverse_append, List.takeWhile_append_dropWhile, List.reverse_reverse]
      have e4 := TrimSpace_append_crlf ((b ++ [10]).reverse.dropWhile inCRLF).reverse
        ((b ++ [10]).reverse.takeWhile inCRLF).reverse
        (fun d hd => List.mem_takeWhile_imp (List.mem_reverse.1 hd))
      rw [← e3] at e4
      rw [← e4]
      exact TrimSpace_append_space b 10 (by decide)
    simp only [k1, k2]

theorem headerMap_eq_spec (cs : List Str) : headerMap cs = specHeaders cs := by
  unfold headerMap specHeaders
  congr 1
  funext h c
  exact addHeader_eq_spec h c

/-- The assignment `m[k] = v` followed by a lookup: the new value under `k`,
the old entries elsewhere. -/
theorem GoMap.get?_set {α : Type} (h : GoMap α) (k k' : Str) (v : α) :
    GoMap.get? (GoMap.set h k v) k' = if k = k' then some v else GoMap.get? h k' := by
  induction h with
  | nil => simp [GoMap.set, GoMap.get?]
  | cons e h ih =>
    obtain ⟨k0, v0⟩ := e
    by_cases h0 : k0 = k
    · subst h0
      by_cases h1 : k0 = k'
      · simp [GoMap.set, GoMap.get?, h1]
      · simp [GoMap.set, GoMap.get?, h1]
    · by_cases h1 : k0 = k'
      · subst h1
        have h2 : ¬ k = k0 := fun e => h0 e.symm
        simp [GoMap.set, GoMap.get?, h0, h2]
      · simp [GoMap.set, GoMap.get?, h0, h1, ih]

/-- C6: for every header block (lines `cs`, each without its LF, none of them
the blank line) behind a request line with at least three fields and closed by
a blank line, the frame reader reads the whole block, and its outcome is that
of the body step with the header map of the specification: when the body step
succeeds the request carries exactly that map, the lines processed in order
from the empty map, lines without a colon skipped, the other lines setting
the trimmed name before the first colon to the trimmed text after it.  Setting
an entry overwrites: afterwards the name has the new value and every other
name has the value it had. -/
theorem C6_header_map (l0 : Str) (cs : List Str) (t tail : Str)
    (m p v : Str) (more : List Str)
    (hl0 : 10 ∉ l0) (hf : Fields (l0 ++ [10]) = m :: p :: v :: more)
    (hcs : HeaderLines cs) (ht : BlankLine t) :
    AnalysisRequest (l0 ++ 10 :: (wire cs ++ (t ++ 10 :: tail)))
      = (match readBody (specHeaders cs) tail with
        | .ok (body, rest) => .ok (⟨m, p, v, specHeaders cs, body⟩, rest)
        | .error e => .error e
        | .fault => .fault) ∧
    ∀ (h : GoMap Str) (k k' val : Str),
      GoMap.get? (GoMap.set h k val) k' = if k = k' then some val else GoMap.get? h k' := by
  refine ⟨?_, fun h k k' val => GoMap.get?_set h k k' val⟩
  rw [AnalysisRequest_head l0 cs t tail m p v more hl0 hf hcs ht, headerMap_eq_spec]

/-- C6, witness: a block with a value that holds a colon, a line without a
colon and a repeated name. -/
theorem C6_header_map_witness :
    specHeaders [ascii "Host: a:b\r", ascii "no colon here\r", ascii " Host :c \r"]
      = [(ascii "Host", ascii "c")] ∧
    specHeaders [ascii "Host: a:b\r", ascii "no colon here\r"]
      = [(ascii "Host", ascii "a:b")] ∧
    AnalysisRequest (ascii "GET / HTTP/1.1\r" ++ 10 ::
        (wire [ascii "Host: a:b\r", ascii "no colon here\r", ascii " Host :c \r"]
          ++ ([13] ++ 10 :: [])))
      = match readBody
            (specHeaders [ascii "Host: a:b\r", ascii "no colon here\r", ascii " Host :c \r"])
            [] with
        | .ok (body, rest) => .ok (⟨ascii "GET", ascii "/", ascii "HTTP/1.1",
            specHeaders [ascii "Host: a:b\r", ascii "no colon here\r", ascii " Host :c \r"],
            body⟩, rest)
        | .error e => .error e
        | .fault => .fault :=
  ⟨by decide, by decide,
   (C6_header_map (ascii "GET / HTTP/1.1\r")
    [ascii "Host: a:b\r", ascii "no colon here\r", ascii " Host :c \r"] [13] []
    (ascii "GET") (ascii "/") (ascii "HTTP/1.1") []
    (by decide) (by decide) (by unfold HeaderLines; decide) (by unfold BlankLine; decide)).1⟩

/-! ## C7: the router -/

theorem closeRequested_eq (r : Request) :
    closeRequested r
      = (decide (GoMap.index r.Headers (ascii "Connection") ≠ []) &&
          decide (ToLower (GoMap.index r.Headers (ascii "Connection")) = ascii "close")) := by
  unfold closeRequested GoMap.index
  cases GoMap.get? r.Headers (ascii "Connection") with
  | none => simp
  | some c =>
    have hl : (ascii "close").map lowerByte = ascii "close" := by decide
    by_cases hc : c = []
    · subst hc
      simp [equalFold, hl]
      decide
    · simp [equalFold, ToLower, hl, hc]

/-- What `Mux.Serve` returns, the 404 response written with the words of the
specification. -/
theorem Serve_eq {σ : Type} (m : Mux σ) (k : Str) (ord : Order) (fs : σ) (r : Request) :
    m.Serve k ord fs r
      = match GoMap.get? m.routes k with
        | some h => h ord fs r
        | none =>
          (⟨r.Version ++ ascii " 404 Not Found" ++ CRLF
              ++ (if closeRequested r then ascii "Connection: close" ++ CRLF else [])
              ++ CRLF,
            closeRequested r⟩, fs) := by
  unfold Mux.Serve
  cases GoMap.get? m.routes k with
  | some h => rfl
  | none =>
    simp only [closeRequested_eq]
    by_cases h1 : GoMap.index r.Headers (ascii "Connection") ≠ []
    · by_cases h2 : ToLower (GoMap.index r.Headers (ascii "Connection")) = ascii "close"
      · simp [h1, h2]
      · simp [h1, h2]
    · simp [h1]

/-- C7: for every router `m`, route key `k` and request `r`: when `k` has a
registered handler `h`, `m.Serve(k, r)` is `h(r)`, unmodified; otherwise the
result is the 404 response: `r.Version` followed by ` 404 Not Found` CRLF, then
the line `Connection: close` CRLF exactly when the `Connection` header of `r`
equals `close` ignoring case, then CRLF and nothing more, the `Close` flag
being set exactly in that case. -/
theorem C7_serve {σ : Type} (m : Mux σ) (k : Str) (ord : Order) (fs : σ) (r : Request) :
    m.Serve k ord fs r
      = match GoMap.get? m.routes k with
        | some h => h ord fs r
        | none =>
          (⟨r.Version ++ ascii " 404 Not Found" ++ CRLF
              ++ (if closeRequested r then ascii "Connection: close" ++ CRLF else [])
              ++ CRLF,
            closeRequested r⟩, fs) :=
  Serve_eq m k ord fs r

/-! ## C8: a request that asks for the connection to be closed -/

/-- C8, the code at the failing input: the first request, `GET` for a file
that does not exist, carries `Connection: close`; the code answers 404 with
the `Close` flag unset, goes on reading, and answers the second request on
the same connection before the stream ends. -/
theorem C8_close_request_ignored :
    AnalysisRequest
        (ascii "GET /files/missing HTTP/1.1\r\nConnection: close\r\n\r\nGET / HTTP/1.1\r\n\r\n")
      = .ok (⟨ascii "GET", ascii "/files/missing", ascii "HTTP/1.1",
          [(ascii "Connection", ascii "close")], []⟩, ascii "GET / HTTP/1.1\r\n\r\n") ∧
    closeRequested ⟨ascii "GET", ascii "/files/missing", ascii "HTTP/1.1",
          [(ascii "Connection", ascii "close")], []⟩ = true ∧
    (handleConnection (registerRoutes Env.empty NewMux) Tick.plain ()
        (ascii "GET /files/missing HTTP/1.1\r\nConnection: close\r\n\r\nGET / HTTP/1.1\r\n\r\n")).written
      = ascii "HTTP/1.1 404 Not Found\r\n\r\nHTTP/1.1 200 OK\r\n\r\n" ∧
    (handleConnection (registerRoutes Env.empty NewMux) Tick.plain ()
        (ascii "GET /files/missing HTTP/1.1\r\nConnection: close\r\n\r\nGET / HTTP/1.1\r\n\r\n")).exit
      = .eof := by
  decide

/-! ## C9: Content-Length and the body of a response -/

/-- C9, the code at the failing input: for `GET /` with `Connection: close`
the response of the root handler ends in three CRLF; the bytes after its
first blank line are one CRLF, a body of two bytes, and its header section
has no `Content-Length` line. -/
theorem C9_root_close_body_without_length :
    AnalysisRequest (ascii "GET / HTTP/1.1\r\nConnection: close\r\n\r\n")
      = .ok (⟨ascii "GET", ascii "/", ascii "HTTP/1.1",
          [(ascii "Connection", ascii "close")], []⟩, []) ∧
    ((registerRoutes Env.empty NewMux).Serve (routeKeyOf (ascii "/")) Order.stored ()
        ⟨ascii "GET", ascii "/", ascii "HTTP/1.1",
          [(ascii "Connection", ascii "close")], []⟩).1.Response
      = ascii "HTTP/1.1 200 OK\r\nConnection: close\r\n\r\n\r\n" ∧
    bodyAfterBlank (ascii "HTTP/1.1 200 OK\r\nConnection: close\r\n\r\n\r\n") = some CRLF ∧
    headerSection (ascii "HTTP/1.1 200 OK\r\nConnection: close\r\n\r\n\r\n")
      = [ascii "Connection: close"] ∧
    contentLengths (ascii "HTTP/1.1 200 OK\r\nConnection: close\r\n\r\n\r\n") = [] := by
  decide

/-! ## C10: the `Connection: close` line of a response -/

theorem splitCRLF_line (l rest cur : Str) (h : 10 ∉ l) :
    splitCRLF (l ++ 13 :: 10 :: rest) cur = (cur.reverse ++ l) :: splitCRLF rest [] := by
  induction l generalizing cur with
  | nil => simp [splitCRLF]
  | cons a l ih =>
    have hl : 10 ∉ l := fun e => h (by simp [e])
    cases l with
    | nil =>
      simp only [List.cons_append, List.nil_append]
      rw [splitCRLF]
      simp only [show ¬ (a = 13 ∧ 13 = 10) by omega, if_false]
      have := ih (a :: cur) hl
      simp only [List.nil_append] at this
      rw [this]
      simp
    | cons d l' =>
      have hd : d ≠ 10 := fun e => h (by simp [e])
      simp only [List.cons_append]
      rw [splitCRLF]
      simp only [show ¬ (a = 13 ∧ d = 10) from fun e => hd e.2, if_false]
      have := ih (a :: cur) hl
      simp only [List.cons_append] at this
      rw [this]
      simp

theorem splitCRLF_joinLines (ls : List Str) (body : Str)
    (h : ∀ l ∈ ls, 10 ∉ l) :
    splitCRLF (joinLines ls ++ 13 :: 10 :: body) [] = ls ++ [] :: splitCRLF body [] := by
  induction ls with
  | nil => simpa [joinLines] using splitCRLF_line [] body [] (by simp)
  | cons l ls ih =>
    have e : joinLines (l :: ls) ++ 13 :: 10 :: body
        = l ++ 13 :: 10 :: (joinLines ls ++ 13 :: 10 :: body) := by simp [joinLines]
    rw [e, splitCRLF_line l _ [] (h l (by simp)), ih (fun x hx => h x (by simp [hx]))]
    simp

/-- The header section of a response made of a status line, header lines and
a body: the header lines. -/
theorem headerSection_response (status : Str) (ls : List Str) (body : Str)
    (hs : 10 ∉ status) (h : ∀ l ∈ ls, 10 ∉ l ∧ l ≠ []) :
    headerSection (status ++ CRLF ++ joinLines ls ++ CRLF ++ body) = ls := by
  have e : status ++ CRLF ++ joinLines ls ++ CRLF ++ body
      = status ++ 13 :: 10 :: (joinLines ls ++ 13 :: 10 :: body) := by simp [CRLF]
  unfold headerSection
  rw [e, splitCRLF_line status _ [] hs, splitCRLF_joinLines ls body (fun l hl => (h l hl).1)]
  simp only [List.drop_succ_cons, List.drop_zero]
  rw [List.takeWhile_append_of_pos (by
    intro l hl
    simpa using (h l hl).2)]
  simp

theorem renderHeaders_foldl (l : List (Str × Str)) (acc : Str) :
    l.foldl (fun acc e => acc ++ e.1 ++ ascii ": " ++ e.2 ++ CRLF) acc
      = acc ++ joinLines (l.map renderLine) := by
  induction l generalizing acc with
  | nil => simp [joinLines]
  | cons e l ih =>
    simp only [List.foldl_cons, List.map_cons, joinLines, ih]
    simp [renderLine, CRLF]

theorem renderHeaders_eq (ord : Order) (h : GoMap Str) :
    renderHeaders ord h = joinLines ((ord.visit h).map renderLine) := by
  unfold renderHeaders
  rw [renderHeaders_foldl]
  rfl

theorem renderLine_no_lf (e : Str × Str) (h : 10 ∉ e.1 ∧ 10 ∉ e.2) :
    10 ∉ renderLine e ∧ renderLine e ≠ [] := by
  have h2 : 10 ∉ ascii ": " := by decide
  have hne : ascii ": " ≠ [] := by decide
  refine ⟨?_, ?_⟩
  · unfold renderLine
    simp only [List.mem_append, not_or]
    exact ⟨⟨h.1, h2⟩, h.2⟩
  · unfold renderLine
    intro e0
    have : ascii ": " = [] := by
      have := List.append_eq_nil.1 e0
      exact (List.append_eq_nil.1 this.1).2
    exact hne this

/-- A response made of a status line without LF, the rendering of a closing
map in any order, a blank line and any body holds the line
`Connection: close` exactly once in its header section. -/
theorem count_close_of_ClosingMap (status body : Str) (ord : Order) (h : GoMap Str)
    (hs : 10 ∉ status) (hm : ClosingMap h) :
    (headerSection (status ++ CRLF ++ renderHeaders ord h ++ CRLF ++ body)).count
      (ascii "Connection: close") = 1 := by
  rw [renderHeaders_eq, headerSection_response status _ body hs]
  · have hc : ((ord.visit h).map renderLine).count (ascii "Connection: close")
        = (h.map renderLine).count (ascii "Connection: close") := by
      simp only [List.count]
      exact List.Perm.countP_eq _ ((ord.perm h).map renderLine)
    rw [hc]
    exact hm.2
  · intro l hl
    obtain ⟨e, he, rfl⟩ := List.mem_map.1 hl
    exact renderLine_no_lf e (hm.1 e ((ord.perm h).mem_iff.1 he))

theorem itoaGo_digits (fuel n : Nat) (acc : Str)
    (h : ∀ b ∈ acc, 48 ≤ b ∧ b ≤ 57) : ∀ b ∈ itoaGo fuel n acc, 48 ≤ b ∧ b ≤ 57 := by
  induction fuel generalizing n acc with
  | zero => simpa [itoaGo] using h
  | succ fuel ih =>
    unfold itoaGo
    by_cases hn : n < 10
    · simp only [hn, if_true]
      intro b hb
      rcases List.mem_cons.1 hb with e | e
      · omega
      · exact h b e
    · simp only [hn, if_false]
      apply ih
      intro b hb
      rcases List.mem_cons.1 hb with e | e
      · omega
      · exact h b e

/-- The text of `strconv.Itoa` is made of decimal digits. -/
theorem Itoa_digits (n : Nat) : ∀ b ∈ Itoa n, 48 ≤ b ∧ b ≤ 57 :=
  itoaGo_digits (n + 1) n [] (by simp)

theorem Itoa_no_lf (n : Nat) : 10 ∉ Itoa n := fun h => by
  have := Itoa_digits n 10 h
  omega

theorem fieldsGo_no_space (s : Str) (skip : Nat) (cur : Str)
    (hcur : ∀ b ∈ cur, isSpace1 b = false) :
    ∀ f ∈ fieldsGo s skip cur, ∀ b ∈ f, isSpace1 b = false := by
  induction s generalizing skip cur with
  | nil =>
    intro f hf b hb
    unfold fieldsGo flushField at hf
    by_cases hc : cur = []
    · simp [hc] at hf
    · simp [hc] at hf
      subst hf
      exact hcur b (List.mem_reverse.1 hb)
  | cons c s ih =>
    cases skip with
    | succ k => simpa [fieldsGo] using ih k cur hcur
    | zero =>
      unfold fieldsGo
      by_cases hw : spaceWidth (c :: s) = 0
      · simp only [hw, if_true]
        apply ih
        intro b hb
        rcases List.mem_cons.1 hb with e | e
        · subst e
          by_contra hsp
          have := spaceWidth_space1 b s (by simpa using hsp)
          omega
        · exact hcur b e
      · simp only [hw, if_false]
        intro f hf b hb
        rcases List.mem_append.1 hf with hf1 | hf2
        · unfold flushField at hf1
          by_cases hc : cur = []
          · simp [hc] at hf1
          · simp [hc] at hf1
            subst hf1
            exact hcur b (List.mem_reverse.1 hb)
        · exact ih _ [] (by simp) f hf2 b hb

/-- The fields of `strings.Fields` hold no byte of ASCII white space. -/
theorem Fields_no_space (s : Str) : ∀ f ∈ Fields s, ∀ b ∈ f, isSpace1 b = false :=
  fieldsGo_no_space s 0 [] (by simp)

/-- The version of a parsed request holds no LF. -/
theorem parsed_version_no_lf (s : Str) (req : Request) (rest : Str)
    (hp : AnalysisRequest s = .ok (req, rest)) : 10 ∉ req.Version := by
  unfold AnalysisRequest at hp
  cases hs : ReadString 10 s with
  | none => simp [hs] at hp
  | some q =>
    obtain ⟨line, r1⟩ := q
    simp only [hs] at hp
    match hF : Fields line, hp with
    | [], hp => simp at hp
    | [_], hp => simp at hp
    | [_, _], hp => simp at hp
    | m :: p :: v :: more, hp =>
      simp only at hp
      cases hh : readHeaders r1.length r1 [] with
      | none => simp [hh] at hp
      | some r =>
        obtain ⟨hd, r2⟩ := r
        simp only [hh] at hp
        cases hb : readBody hd r2 with
        | error e => simp [hb] at hp
        | fault => simp [hb] at hp
        | ok a =>
          obtain ⟨body, r3⟩ := a
          simp only [hb, Outcome.ok.injEq, Prod.mk.injEq] at hp
          have hv : req.Version = v := by rw [← hp.1]
          rw [hv]
          intro h10
          have := Fields_no_space line v (by rw [hF]; simp) 10 h10
          simp [isSpace1] at this

/-- A response whose only header line is `Connection: close`. -/
theorem count_close_single (status body : Str) (hs : 10 ∉ status) :
    (headerSection (status ++ CRLF ++ (ascii "Connection: close" ++ CRLF) ++ CRLF ++ body)).count
      (ascii "Connection: close") = 1 := by
  have e : status ++ CRLF ++ (ascii "Connection: close" ++ CRLF) ++ CRLF ++ body
      = status ++ CRLF ++ joinLines [ascii "Connection: close"] ++ CRLF ++ body := by
    simp [joinLines, CRLF]
  rw [e, headerSection_response status _ body hs]
  · decide
  · intro l hl
    have : l = ascii "Connection: close" := by simpa using hl
    subst this
    decide

theorem status_no_lf (v code : Str) (hv : 10 ∉ v) (hc : 10 ∉ code) : 10 ∉ v ++ code := by
  simp only [List.mem_append, not_or]
  exact ⟨hv, hc⟩

theorem renderLine_content_ne (k v : Str) (hk : k.take 4 = ascii "Cont") (hlen : 4 ≤ k.length) :
    (renderLine (k, v) == ascii "Connection: close") = false := by
  have : renderLine (k, v) ≠ ascii "Connection: close" := by
    intro h
    have h4 := congrArg (List.take 4) h
    unfold renderLine at h4
    simp only at h4
    rw [List.append_assoc, List.take_append_of_le_length hlen, hk] at h4
    revert h4
    decide
  simpa using this

theorem renderLine_close :
    (renderLine (ascii "Connection", ascii "close") == ascii "Connection: close") = true := by
  decide

/-- The negotiation loop leaves the map empty or sets the single entry
`Content-Encoding` to `gzip` or `zip`. -/
theorem pickEncoding_cases (l : List Str) :
    pickEncoding l [] = [] ∨
    pickEncoding l [] = [(ascii "Content-Encoding", ascii "gzip")] ∨
    pickEncoding l [] = [(ascii "Content-Encoding", ascii "zip")] := by
  induction l with
  | nil => left; rfl
  | cons c l ih =>
    unfold pickEncoding
    by_cases h1 : TrimSpace c = ascii "gzip"
    · right; left
      simp only [h1, true_or, if_true]
      rfl
    · by_cases h2 : TrimSpace c = ascii "zip"
      · right; right
        simp only [h1, h2, or_true, if_true]
        rfl
      · simp only [h1, h2, or_self, if_false]
        exact ih

/-- The header map of `echoHandler` for a request that asks to close. -/
theorem ClosingMap_echo (h1 : GoMap Str) (v : Str)
    (hh : h1 = [] ∨ h1 = [(ascii "Content-Encoding", ascii "gzip")] ∨
      h1 = [(ascii "Content-Encoding", ascii "zip")])
    (hv : 10 ∉ v) :
    ClosingMap (GoMap.set (GoMap.set (GoMap.set h1 (ascii "Connection") (ascii "close"))
      (ascii "Content-Type") (ascii "text/plain")) (ascii "Content-Length") v) := by
  have c1 := renderLine_content_ne (ascii "Content-Encoding") (ascii "gzip") (by decide) (by decide)
  have c2 := renderLine_content_ne (ascii "Content-Encoding") (ascii "zip") (by decide) (by decide)
  have c3 := renderLine_content_ne (ascii "Content-Type") (ascii "text/plain") (by decide)
    (by decide)
  have c4 := renderLine_content_ne (ascii "Content-Length") v (by decide) (by decide)
  have c5 := renderLine_close
  have n1 : 10 ∉ ascii "Content-Encoding" := by decide
  have n2 : 10 ∉ ascii "gzip" := by decide
  have n3 : 10 ∉ ascii "zip" := by decide
  have n4 : 10 ∉ ascii "Connection" := by decide
  have n5 : 10 ∉ ascii "close" := by decide
  have n6 : 10 ∉ ascii "Content-Type" := by decide
  have n7 : 10 ∉ ascii "text/plain" := by decide
  have n8 : 10 ∉ ascii "Content-Length" := by decide
  rcases hh with e | e | e
  · subst e
    have hm : GoMap.set (GoMap.set (GoMap.set [] (ascii "Connection") (ascii "close"))
        (ascii "Content-Type") (ascii "text/plain")) (ascii "Content-Length") v
        = [(ascii "Connection", ascii "close"), (ascii "Content-Type", ascii "text/plain"),
            (ascii "Content-Length", v)] := rfl
    rw [hm]
    refine ⟨?_, ?_⟩
    · intro e he
      simp only [List.mem_cons, List.mem_singleton, List.not_mem_nil, or_false] at he
      rcases he with r | r | r <;> subst r <;> exact ⟨by assumption, by assumption⟩
    · simp only [List.map_cons, List.map_nil, List.count_cons, List.count_nil, c3, c4, c5]
      rfl
  · subst e
    have hm : GoMap.set (GoMap.set (GoMap.set [(ascii "Content-Encoding", ascii "gzip")]
        (ascii "Connection") (ascii "close"))
        (ascii "Content-Type") (ascii "text/plain")) (ascii "Content-Length") v
        = [(ascii "Content-Encoding", ascii "gzip"), (ascii "Connection", ascii "close"),
            (ascii "Content-Type", ascii "text/plain"), (ascii "Content-Length", v)] := rfl
    rw [hm]
    refine ⟨?_, ?_⟩
    · intro e he
      simp only [List.mem_cons, List.mem_singleton, List.not_mem_nil, or_false] at he
      rcases he with r | r | r | r <;> subst r <;> exact ⟨by assumption, by assumption⟩
    · simp only [List.map_cons, List.map_nil, List.count_cons, List.count_nil, c1, c3, c4, c5]
      rfl
  · subst e
    have hm : GoMap.set (GoMap.set (GoMap.set [(ascii "Content-Encoding", ascii "zip")]
        (ascii "Connection") (ascii "close"))
        (ascii "Content-Type") (ascii "text/plain")) (ascii "Content-Length") v
        = [(ascii "Content-Encoding", ascii "zip"), (ascii "Connection", ascii "close"),
            (ascii "Content-Type", ascii "text/plain"), (ascii "Content-Length", v)] := rfl
    rw [hm]
    refine ⟨?_, ?_⟩
    · intro e he
      simp only [List.mem_cons, List.mem_singleton, List.not_mem_nil, or_false] at he
      rcases he with r | r | r | r <;> subst r <;> exact ⟨by assumption, by assumption⟩
    · simp only [List.map_cons, List.map_nil, List.count_cons, List.count_nil, c2, c3, c4, c5]
      rfl

/-- The header map of `userAgentHandler` and of `filesHandler` for a request
that asks to close. -/
theorem ClosingMap_typed (ct v : Str) (hct : 10 ∉ ct) (hv : 10 ∉ v) :
    ClosingMap (GoMap.set (GoMap.set (GoMap.set [] (ascii "Content-Type") ct)
      (ascii "Content-Length") v) (ascii "Connection") (ascii "close")) := by
  have c3 := renderLine_content_ne (ascii "Content-Type") ct (by decide) (by decide)
  have c4 := renderLine_content_ne (ascii "Content-Length") v (by decide) (by decide)
  have c5 := renderLine_close
  have n4 : 10 ∉ ascii "Connection" := by decide
  have n5 : 10 ∉ ascii "close" := by decide
  have n6 : 10 ∉ ascii "Content-Type" := by decide
  have n8 : 10 ∉ ascii "Content-Length" := by decide
  have hm : GoMap.set (GoMap.set (GoMap.set [] (ascii "Content-Type") ct)
      (ascii "Content-Length") v) (ascii "Connection") (ascii "close")
      = [(ascii "Content-Type", ct), (ascii "Content-Length", v),
          (ascii "Connection", ascii "close")] := rfl
  rw [hm]
  refine ⟨?_, ?_⟩
  · intro e he
    simp only [List.mem_cons, List.mem_singleton, List.not_mem_nil, or_false] at he
    rcases he with r | r | r <;> subst r <;> exact ⟨by assumption, by assumption⟩
  · simp only [List.map_cons, List.map_nil, List.count_cons, List.count_nil, c3, c4, c5]
    rfl

theorem rootHandler_close_once (req : Request) (hv : 10 ∉ req.Version)
    (hc : (rootHandler req).Close = true) :
    (headerSection (rootHandler req).Response).count (ascii "Connection: close") = 1 := by
  unfold rootHandler at hc ⊢
  by_cases hw : wantsClose req = true
  · simp only [hw, if_true]
    exact count_close_single (req.Version ++ ascii " 200 OK") CRLF
      (status_no_lf _ _ hv (by decide))
  · simp [hw] at hc

theorem echoHandler_close_once (gzip : Str → Option Str) (ord : Order) (req : Request)
    (hv : 10 ∉ req.Version) (hc : (echoHandler gzip ord req).Close = true) :
    (headerSection (echoHandler gzip ord req).Response).count (ascii "Connection: close") = 1 := by
  unfold echoHandler at hc ⊢
  by_cases h3 : (Split 47 req.Path).length < 3
  · simp [h3] at hc
  · simp only [h3, if_false] at hc ⊢
    split at hc
    · simp at hc
    · rename_i bodyBytes hb
      simp only [hb]
      simp only at hc
      simp only [hc, if_true]
      apply count_close_of_ClosingMap _ _ _ _ (status_no_lf _ _ hv (by decide))
      apply ClosingMap_echo _ _ _ (Itoa_no_lf _)
      by_cases he : GoMap.index req.Headers (ascii "Accept-Encoding") ≠ []
      · rw [if_pos he]
        exact pickEncoding_cases _
      · rw [if_neg he]
        left; trivial

theorem userAgentHandler_close_once (ord : Order) (req : Request)
    (hv : 10 ∉ req.Version) (hc : (userAgentHandler ord req).Close = true) :
    (headerSection (userAgentHandler ord req).Response).count (ascii "Connection: close") = 1 := by
  unfold userAgentHandler at hc ⊢
  have hw : wantsClose req = true := hc
  simp only [hw, if_true]
  exact count_close_of_ClosingMap _ _ _ _ (status_no_lf _ _ hv (by decide))
    (ClosingMap_typed _ _ (by decide) (Itoa_no_lf _))

theorem filesHandler_close_once {σ : Type} (env : Env σ) (ord : Order) (fs : σ) (req : Request)
    (hv : 10 ∉ req.Version) (hc : (filesHandler env ord fs req).1.Close = true) :
    (headerSection (filesHandler env ord fs req).1.Response).count
      (ascii "Connection: close") = 1 := by
  unfold filesHandler at hc ⊢
  by_cases h1 : (Split 47 req.Path).length < 3
  · simp [h1] at hc
  · by_cases h2 : req.Method = ascii "POST"
    · simp only [h1, h2, if_true, if_false] at hc
      split_ifs at hc
    · by_cases h3 : (!env.stat fs (env.join env.baseDir
          (Join (ascii "/") ((Split 47 req.Path).drop 2)))) = true
      · simp [h1, h2, h3] at hc
      · simp only [h1, h2, h3, if_false] at hc ⊢
        cases hr : env.readFile fs (env.join env.baseDir
            (Join (ascii "/") ((Split 47 req.Path).drop 2))) with
        | none => simp [hr] at hc
        | some contentBytes =>
          simp only [hr] at hc ⊢
          have hw : wantsClose req = true := hc
          simp only [hw, if_true]
          exact count_close_of_ClosingMap _ _ _ _ (status_no_lf _ _ hv (by decide))
            (ClosingMap_typed _ _ (by decide) (Itoa_no_lf _))

theorem Serve_registerRoutes {σ : Type} (env : Env σ) (k : Str) (ord : Order) (fs : σ)
    (req : Request) :
    (registerRoutes env NewMux).Serve k ord fs req
      = if ascii "" = k then (rootHandler req, fs)
        else if ascii "echo" = k then (echoHandler env.gzip ord req, fs)
        else if ascii "user-agent" = k then (userAgentHandler ord req, fs)
        else if ascii "files" = k then filesHandler env ord fs req
        else
          (⟨req.Version ++ ascii " 404 Not Found" ++ CRLF
              ++ (if closeRequested req then ascii "Connection: close" ++ CRLF else [])
              ++ CRLF,
            closeRequested req⟩, fs) := by
  rw [Serve_eq]
  have hr : (registerRoutes env NewMux).routes
      = [(ascii "", fun _ fs req => (rootHandler req, fs)),
         (ascii "echo", fun ord fs req => (echoHandler env.gzip ord req, fs)),
         (ascii "user-agent", fun ord fs req => (userAgentHandler ord req, fs)),
         (ascii "files", filesHandler env)] := rfl
  rw [hr]
  simp only [GoMap.get?]
  split_ifs <;> rfl

/-- C10: for every request returned by the frame reader and every route key,
when the result of `Serve` with the routes of `registerRoutes` has its `Close`
flag set, the header section of its response (the lines between the status
line and the first blank line) holds the line `Connection: close` exactly
once, whatever the order in which the handler's map is visited, the gzip
writer and the file system. -/
theorem C10_connection_close_once {σ : Type} (env : Env σ) (k : Str) (ord : Order) (fs : σ)
    (s : Str) (req : Request) (rest : Str)
    (hp : AnalysisRequest s = .ok (req, rest))
    (hc : ((registerRoutes env NewMux).Serve k ord fs req).1.Close = true) :
    (headerSection ((registerRoutes env NewMux).Serve k ord fs req).1.Response).count
      (ascii "Connection: close") = 1 := by
  have hv := parsed_version_no_lf s req rest hp
  rw [Serve_registerRoutes] at hc ⊢
  by_cases h1 : ascii "" = k
  · simp only [h1, if_true] at hc ⊢
    exact rootHandler_close_once req hv hc
  · by_cases h2 : ascii "echo" = k
    · simp only [h1, h2, if_true, if_false] at hc ⊢
      exact echoHandler_close_once env.gzip ord req hv hc
    · by_cases h3 : ascii "user-agent" = k
      · simp only [h1, h2, h3, if_true, if_false] at hc ⊢
        exact userAgentHandler_close_once ord req hv hc
      · by_cases h4 : ascii "files" = k
        · simp only [h1, h2, h3, h4, if_true, if_false] at hc ⊢
          exact filesHandler_close_once env ord fs req hv hc
        · simp only [h1, h2, h3, h4, if_false] at hc ⊢
          have hw : closeRequested req = true := hc
          simp only [hw, if_true]
          have := count_close_single (req.Version ++ ascii " 404 Not Found") []
            (status_no_lf _ _ hv (by decide))
          simpa using this

/-- C10, witness: `GET /echo/abc` with `Connection: Close` and a gzip token. -/
theorem C10_connection_close_once_witness :
    (headerSection ((registerRoutes Env.empty NewMux).Serve (ascii "echo") Order.stored ()
        ⟨ascii "GET", ascii "/echo/abc", ascii "HTTP/1.1",
          [(ascii "Connection", ascii "Close"), (ascii "Accept-Encoding", ascii "br, gzip")],
          []⟩).1.Response).count
      (ascii "Connection: close") = 1 :=
  C10_connection_close_once Env.empty (ascii "echo") Order.stored ()
    (ascii "GET /echo/abc HTTP/1.1\r\nConnection: Close\r\nAccept-Encoding: br, gzip\r\n\r\n")
    ⟨ascii "GET", ascii "/echo/abc", ascii "HTTP/1.1",
      [(ascii "Connection", ascii "Close"), (ascii "Accept-Encoding", ascii "br, gzip")], []⟩
    [] (by decide) (by decide)

/-! ## The bounds of the loops are never reached -/

theorem readBody_length (h : GoMap Str) (s body rest : Str)
    (hb : readBody h s = .ok (body, rest)) : rest.length ≤ s.length := by
  unfold readBody at hb
  cases hg : GoMap.get? h (ascii "Content-Length") with
  | none =>
    simp only [hg, Outcome.ok.injEq, Prod.mk.injEq] at hb
    rw [← hb.2]
  | some clv =>
    simp only [hg] at hb
    cases hA : Atoi clv with
    | none => simp [hA] at hb
    | some n =>
      simp only [hA] at hb
      by_cases h1 : n > 0
      · by_cases h2 : n.toNat > maxAlloc
        · simp [h1, h2] at hb
        · by_cases h3 : n.toNat ≤ s.length
          · simp only [h1, h2, h3, if_true, if_false, Outcome.ok.injEq, Prod.mk.injEq] at hb
            rw [← hb.2]
            simp
          · simp [h1, h2, h3] at hb
      · simp only [h1, if_false, Outcome.ok.injEq, Prod.mk.injEq] at hb
        rw [← hb.2]

/-- A successful call of the frame reader reads at least one byte. -/
theorem AnalysisRequest_consumes (s : Str) (req : Request) (rest : Str)
    (hp : AnalysisRequest s = .ok (req, rest)) : rest.length < s.length := by
  unfold AnalysisRequest at hp
  cases hs : ReadString 10 s with
  | none => simp [hs] at hp
  | some q =>
    obtain ⟨line, r1⟩ := q
    obtain ⟨c, _, _, hsr⟩ := ReadString_some s line r1 hs
    have hl1 : r1.length < s.length := by
      have := congrArg List.length hsr
      simp at this
      omega
    simp only [hs] at hp
    match hF : Fields line, hp with
    | [], hp => simp at hp
    | [_], hp => simp at hp
    | [_, _], hp => simp at hp
    | m :: p :: v :: more, hp =>
      simp only at hp
      cases hh : readHeaders r1.length r1 [] with
      | none => simp [hh] at hp
      | some r =>
        obtain ⟨hd, r2⟩ := r
        have hl2 := readHeaders_length _ r1 [] hd r2 hh
        simp only [hh] at hp
        cases hb : readBody hd r2 with
        | error e => simp [hb] at hp
        | fault => simp [hb] at hp
        | ok a =>
          obtain ⟨body, r3⟩ := a
          have hl3 := readBody_length hd r2 body r3 hb
          simp only [hb, Outcome.ok.injEq, Prod.mk.injEq] at hp
          rw [← hp.2]
          omega

/-- The connection loop never stops for lack of fuel when the fuel exceeds
the length of the stream. -/
theorem handleLoop_exit_ne_fuel {σ : Type} (m : Mux σ) (fuel : Nat) (ticks : Nat → Tick)
    (fs : σ) (s out : Str) (hf : s.length < fuel) :
    (handleLoop m fuel ticks fs s out).exit ≠ .fuel := by
  induction fuel generalizing ticks fs s out with
  | zero => omega
  | succ fuel ih =>
    unfold handleLoop
    cases hp : AnalysisRequest s with
    | fault => simp
    | error e => cases e <;> simp
    | ok a =>
      obtain ⟨req, rest⟩ := a
      have hl := AnalysisRequest_consumes s req rest hp
      simp only
      split_ifs
      · simp
      · simp
      · exact ih _ _ _ _ (by omega)

/-- The function `handleConnection` always ends for a reason of the code. -/
theorem handleConnection_exit_ne_fuel {σ : Type} (m : Mux σ) (ticks : Nat → Tick)
    (fs : σ) (s : Str) : (handleConnection m ticks fs s).exit ≠ .fuel :=
  handleLoop_exit_ne_fuel m (s.length + 1) ticks fs s [] (by omega)

/-! ## C11: the plain echo response -/

theorem Split_no_sep (sep : Nat) (s : Str) (h : sep ∉ s) : Split sep s = [s] := by
  induction s with
  | nil => rfl
  | cons c s ih =>
    have hc : c ≠ sep := fun e => h (by simp [e])
    have hs : sep ∉ s := fun e => h (by simp [e])
    simp [Split, hc, ih hs]

theorem Split_echo (text : Str) (h : 47 ∉ text) :
    Split 47 (ascii "/echo/" ++ text) = [[], ascii "echo", text] := by
  have e : ascii "/echo/" ++ text = 47 :: 101 :: 99 :: 104 :: 111 :: 47 :: text := rfl
  rw [e]
  simp [Split, Split_no_sep 47 text h]
  rfl

/-- A permutation of a list of two entries is the list or its mirror. -/
theorem perm_pair {α : Type} (l : List α) (a b : α) (h : l.Perm [a, b]) :
    l = [a, b] ∨ l = [b, a] := by
  have hlen := h.length_eq
  match l, hlen with
  | [x, y], _ =>
    have hx : x ∈ [a, b] := h.subset (by simp)
    rcases List.mem_cons.1 hx with e | e
    · subst e
      have := (List.perm_cons x).1 h
      have hy : y = b := by simpa using this.eq_singleton
      left; rw [hy]
    · have e' : x = b := by simpa using e
      subst e'
      have h2 : [x, y].Perm [x, a] := h.trans (List.Perm.swap x a [])
      have := (List.perm_cons x).1 h2
      have hy : y = a := by simpa using this.eq_singleton
      right; rw [hy]

/-- The test of the handlers for `Connection: close` is the test of the
specification. -/
theorem wantsClose_eq (req : Request) : wantsClose req = closeRequested req := by
  rw [closeRequested_eq]
  unfold wantsClose
  by_cases h : ToLower (GoMap.index req.Headers (ascii "Connection")) = ascii "close"
  · have hne : GoMap.index req.Headers (ascii "Connection") ≠ [] := by
      intro e
      rw [e] at h
      revert h
      decide
    simp [h, hne]
  · simp [h]

/-- Value of a string of decimal digits. -/
theorem parseDigits_append (a b : Str) (acc : Nat) (ha : ∀ c ∈ a, 48 ≤ c ∧ c ≤ 57) :
    parseDigits (a ++ b) acc
      = parseDigits b (a.foldl (fun n c => n * 10 + (c - 48)) acc) := by
  induction a generalizing acc with
  | nil => rfl
  | cons c a ih =>
    have hc := ha c (by simp)
    simp only [List.cons_append, parseDigits, hc, and_self, if_true, List.foldl_cons]
    exact ih _ (fun d hd => ha d (by simp [hd]))

theorem digitsVal_shift (l : Str) (v : Nat) :
    l.foldl (fun n c => n * 10 + (c - 48)) v
      = v * 10 ^ l.length + l.foldl (fun n c => n * 10 + (c - 48)) 0 := by
  induction l generalizing v with
  | nil => simp
  | cons c l ih =>
    simp only [List.foldl_cons, List.length_cons]
    rw [ih (v * 10 + (c - 48)), ih (0 * 10 + (c - 48))]
    ring

theorem itoaGo_val (fuel n : Nat) (acc : Str) (hf : n < fuel) :
    (itoaGo fuel n acc).foldl (fun n c => n * 10 + (c - 48)) 0
      = n * 10 ^ acc.length + acc.foldl (fun n c => n * 10 + (c - 48)) 0 := by
  induction fuel generalizing n acc with
  | zero => omega
  | succ fuel ih =>
    unfold itoaGo
    by_cases hn : n < 10
    · simp only [hn, if_true, List.foldl_cons]
      rw [digitsVal_shift]
      simp
    · simp only [hn, if_false]
      rw [ih (n / 10) _ (by omega)]
      simp only [List.foldl_cons, List.length_cons]
      rw [digitsVal_shift acc]
      have h1 : 0 * 10 + (48 + n % 10 - 48) = n % 10 := by omega
      rw [h1]
      have h2 := Nat.div_add_mod n 10
      calc n / 10 * 10 ^ (acc.length + 1)
            + (n % 10 * 10 ^ acc.length + acc.foldl (fun n c => n * 10 + (c - 48)) 0)
          = (10 * (n / 10) + n % 10) * 10 ^ acc.length
            + acc.foldl (fun n c => n * 10 + (c - 48)) 0 := by ring
        _ = n * 10 ^ acc.length + acc.foldl (fun n c => n * 10 + (c - 48)) 0 := by rw [h2]

theorem itoaGo_ne_nil (fuel n : Nat) (acc : Str) (h : 0 < fuel ∨ acc ≠ []) :
    itoaGo fuel n acc ≠ [] := by
  induction fuel generalizing n acc with
  | zero =>
    rcases h with h | h
    · omega
    · simpa [itoaGo] using h
  | succ fuel ih =>
    unfold itoaGo
    by_cases hn : n < 10
    · simp [hn]
    · simp only [hn, if_false]
      exact ih _ _ (Or.inr (by simp))

theorem Itoa_ne_nil (n : Nat) : Itoa n ≠ [] := itoaGo_ne_nil (n + 1) n [] (Or.inl (by omega))

/-- The text of `strconv.Itoa` is the decimal numeral of the number. -/
theorem parseDigits_Itoa (n : Nat) : parseDigits (Itoa n) 0 = some n := by
  have h := parseDigits_append (Itoa n) [] 0 (Itoa_digits n)
  rw [List.append_nil] at h
  rw [h]
  have hv := itoaGo_val (n + 1) n [] (by omega)
  simp only [List.length_nil, pow_zero, mul_one, List.foldl_nil, add_zero] at hv
  unfold Itoa
  rw [hv]
  rfl

/-- Reading back with `strconv.Atoi` what `strconv.Itoa` wrote. -/
theorem Atoi_Itoa (n : Nat) (h : n ≤ maxInt) : Atoi (Itoa n) = some (n : Int) := by
  rw [Atoi_digits (Itoa n) n (Itoa_ne_nil n) (parseDigits_Itoa n)]
  simp [h]

/-- C11: for every request with path `/echo/<text>`, `<text>` without `/`, no
`Accept-Encoding` header and no `Connection` header equal to `close`, the
result of `echoHandler` has `Close` unset and its response is the version,
` 200 OK`, CRLF, the two header lines `Content-Type: text/plain` and
`Content-Length: n` in one of the two orders, a blank line, and `<text>`;
`n` is the decimal numeral of the length of `<text>`. -/
theorem C11_echo_plain (gzip : Str → Option Str) (ord : Order) (req : Request) (text : Str)
    (hpath : req.Path = ascii "/echo/" ++ text) (htext : 47 ∉ text)
    (henc : GoMap.get? req.Headers (ascii "Accept-Encoding") = none)
    (hclose : closeRequested req = false) :
    (echoHandler gzip ord req).Close = false ∧
    ((echoHandler gzip ord req).Response
        = req.Version ++ ascii " 200 OK" ++ CRLF
          ++ (ascii "Content-Type: text/plain" ++ CRLF
            ++ (ascii "Content-Length: " ++ Itoa text.length ++ CRLF))
          ++ CRLF ++ text ∨
      (echoHandler gzip ord req).Response
        = req.Version ++ ascii " 200 OK" ++ CRLF
          ++ (ascii "Content-Length: " ++ Itoa text.length ++ CRLF
            ++ (ascii "Content-Type: text/plain" ++ CRLF))
          ++ CRLF ++ text) ∧
    parseDigits (Itoa text.length) 0 = some text.length := by
  have hw : wantsClose req = false := by rw [wantsClose_eq]; exact hclose
  have hidx : GoMap.index req.Headers (ascii "Accept-Encoding") = [] := by
    simp [GoMap.index, henc]
  have hmap : GoMap.set (GoMap.set ([] : GoMap Str) (ascii "Content-Type") (ascii "text/plain"))
      (ascii "Content-Length") (Itoa text.length)
      = [(ascii "Content-Type", ascii "text/plain"),
          (ascii "Content-Length", Itoa text.length)] := rfl
  have hresp : echoHandler gzip ord req
      = ⟨req.Version ++ ascii " 200 OK" ++ CRLF
          ++ renderHeaders ord [(ascii "Content-Type", ascii "text/plain"),
              (ascii "Content-Length", Itoa text.length)]
          ++ CRLF ++ text, false⟩ := by
    unfold echoHandler
    simp only [hpath, Split_echo text htext, hidx, hw]
    simp [hmap]
    rfl
  refine ⟨by rw [hresp], ?_, parseDigits_Itoa _⟩
  rw [hresp]
  simp only
  rw [renderHeaders_eq]
  rcases perm_pair _ _ _ (ord.perm [(ascii "Content-Type", ascii "text/plain"),
      (ascii "Content-Length", Itoa text.length)]) with h | h
  · left
    rw [h]
    simp [joinLines, renderLine, CRLF]
    rfl
  · right
    rw [h]
    simp [joinLines, renderLine, CRLF]
    rfl

/-- C11, witness: `GET /echo/abc HTTP/1.1` with the header `Host: x`. -/
theorem C11_echo_plain_witness :
    (echoHandler (fun s => some s) Order.stored
        ⟨ascii "GET", ascii "/echo/abc", ascii "HTTP/1.1", [(ascii "Host", ascii "x")], []⟩).Close
      = false ∧
    ((echoHandler (fun s => some s) Order.stored
        ⟨ascii "GET", ascii "/echo/abc", ascii "HTTP/1.1", [(ascii "Host", ascii "x")], []⟩).Response
        = ascii "HTTP/1.1" ++ ascii " 200 OK" ++ CRLF
          ++ (ascii "Content-Type: text/plain" ++ CRLF
            ++ (ascii "Content-Length: " ++ Itoa (ascii "abc").length ++ CRLF))
          ++ CRLF ++ ascii "abc" ∨
      (echoHandler (fun s => some s) Order.stored
        ⟨ascii "GET", ascii "/echo/abc", ascii "HTTP/1.1", [(ascii "Host", ascii "x")], []⟩).Response
        = ascii "HTTP/1.1" ++ ascii " 200 OK" ++ CRLF
          ++ (ascii "Content-Length: " ++ Itoa (ascii "abc").length ++ CRLF
            ++ (ascii "Content-Type: text/plain" ++ CRLF))
          ++ CRLF ++ ascii "abc") ∧
    parseDigits (Itoa (ascii "abc").length) 0 = some (ascii "abc").length :=
  C11_echo_plain (fun s => some s) Order.stored
    ⟨ascii "GET", ascii "/echo/abc", ascii "HTTP/1.1", [(ascii "Host", ascii "x")], []⟩
    (ascii "abc") (by decide) (by decide) (by decide) (by decide)

/-! ## C12 and C19: the encoding header of the echo response -/

/-- C12, the code at the failing input: the `Accept-Encoding` header
`zip, gzip` holds the token `gzip`, yet the response carries
`Content-Encoding: zip`, the first token that the loop accepts, and no
`Content-Encoding: gzip`; the body is the output of the gzip writer and
`Content-Length` is its length. -/
theorem C12_zip_before_gzip :
    AnalysisRequest (ascii "GET /echo/abc HTTP/1.1\r\nAccept-Encoding: zip, gzip\r\n\r\n")
      = .ok (⟨ascii "GET", ascii "/echo/abc", ascii "HTTP/1.1",
          [(ascii "Accept-Encoding", ascii "zip, gzip")], []⟩, []) ∧
    (Split 44 (ascii "zip, gzip")).map TrimSpace = [ascii "zip", ascii "gzip"] ∧
    (echoHandler markGzip Order.stored
        ⟨ascii "GET", ascii "/echo/abc", ascii "HTTP/1.1",
          [(ascii "Accept-Encoding", ascii "zip, gzip")], []⟩).Response
      = ascii "HTTP/1.1 200 OK\r\nContent-Encoding: zip\r\nContent-Type: text/plain\r\nContent-Length: 5\r\n\r\n"
        ++ 31 :: 139 :: ascii "abc" ∧
    ascii "Content-Encoding: gzip" ∉ headerSection
      (echoHandler markGzip Order.stored
        ⟨ascii "GET", ascii "/echo/abc", ascii "HTTP/1.1",
          [(ascii "Accept-Encoding", ascii "zip, gzip")], []⟩).Response := by
  decide

/-- C19, the code at the failing input: with `Accept-Encoding: zip` the body
of the response is the output of the gzip writer, not the text, and the
encoding header says `zip`, not `gzip`. -/
theorem C19_zip_header_on_gzip_body :
    AnalysisRequest (ascii "GET /echo/abc HTTP/1.1\r\nAccept-Encoding: zip\r\n\r\n")
      = .ok (⟨ascii "GET", ascii "/echo/abc", ascii "HTTP/1.1",
          [(ascii "Accept-Encoding", ascii "zip")], []⟩, []) ∧
    (echoHandler markGzip Order.stored
        ⟨ascii "GET", ascii "/echo/abc", ascii "HTTP/1.1",
          [(ascii "Accept-Encoding", ascii "zip")], []⟩).Response
      = ascii "HTTP/1.1 200 OK\r\nContent-Encoding: zip\r\nContent-Type: text/plain\r\nContent-Length: 5\r\n\r\n"
        ++ 31 :: 139 :: ascii "abc" ∧
    markGzip (ascii "abc") = some (31 :: 139 :: ascii "abc") ∧
    headerSection
      (echoHandler markGzip Order.stored
        ⟨ascii "GET", ascii "/echo/abc", ascii "HTTP/1.1",
          [(ascii "Accept-Encoding", ascii "zip")], []⟩).Response
      = [ascii "Content-Encoding: zip", ascii "Content-Type: text/plain",
          ascii "Content-Length: 5"] := by
  decide

/-! ## C18: the frame reader reads one request and nothing more -/

theorem Frame.bytes_append (f : Frame) (s : Str) :
    f.bytes ++ s = f.line ++ 10 :: (wire f.headers ++ (f.blank ++ 10 :: (f.body ++ s))) := by
  simp [Frame.bytes]

/-- The frame reader on a well-formed request followed by any bytes: the
request, and the reader stops at the first byte behind it. -/
theorem AnalysisRequest_frame (f : Frame) (s : Str) (h : f.WellFormed) :
    AnalysisRequest (f.bytes ++ s) = .ok (f.request, s) := by
  obtain ⟨hl, hF, hcs, ht, hb⟩ := h
  match hFl : Fields (f.line ++ [10]), hF with
  | [], hF => simp at hF
  | [_], hF => simp at hF
  | [_, _], hF => simp at hF
  | m :: p :: v :: more, _ =>
    have hreq : f.request = ⟨m, p, v, headerMap f.headers, f.body⟩ := by
      unfold Frame.request
      rw [hFl]
    rw [Frame.bytes_append,
      AnalysisRequest_head f.line f.headers f.blank (f.body ++ s) m p v more hl hFl hcs ht, hreq]
    unfold readBody
    cases hg : GoMap.get? (headerMap f.headers) (ascii "Content-Length") with
    | none =>
      rw [hg] at hb
      simp only at hb
      simp [hb]
    | some clv =>
      rw [hg] at hb
      simp only at hb
      obtain ⟨n, hA, hmax, hlen⟩ := hb
      simp only [hA]
      by_cases hn : n > 0
      · have h2 : ¬ n.toNat > maxAlloc := by omega
        have h3 : n.toNat ≤ (f.body ++ s).length := by simp [hlen]
        simp only [hn, h2, h3, if_true, if_false]
        rw [← hlen]
        simp
      · have h0 : n.toNat = 0 := by omega
        have hb0 : f.body = [] := List.length_eq_zero.1 (by omega)
        simp [hn, hb0]

/-- C18: for every well-formed request `f` and every byte sequence `s`,
parsing the bytes of `f` followed by `s` returns the same request as parsing
the bytes of `f` alone and leaves the reader at the start of `s`.  When the
header map has no `Content-Length`, or one that `strconv.Atoi` reads as zero,
the body is empty and the reader stops right behind the blank line; and a
second well-formed request behind the first is what the next call parses. -/
theorem C18_one_request_only (f : Frame) (s : Str) (h : f.WellFormed) :
    AnalysisRequest (f.bytes ++ s) = .ok (f.request, s) ∧
    AnalysisRequest f.bytes = .ok (f.request, []) ∧
    ((GoMap.get? (headerMap f.headers) (ascii "Content-Length") = none ∨
        ∃ clv, GoMap.get? (headerMap f.headers) (ascii "Content-Length") = some clv ∧
          Atoi clv = some 0) →
      f.request.Body = [] ∧
      AnalysisRequest (f.line ++ 10 :: (wire f.headers ++ (f.blank ++ 10 :: s)))
        = .ok (f.request, s)) ∧
    (∀ g : Frame, g.WellFormed →
      AnalysisRequest (f.bytes ++ g.bytes) = .ok (f.request, g.bytes) ∧
      AnalysisRequest g.bytes = .ok (g.request, [])) := by
  have h1 := AnalysisRequest_frame f s h
  have h2 : AnalysisRequest f.bytes = .ok (f.request, []) := by
    simpa using AnalysisRequest_frame f [] h
  refine ⟨h1, h2, ?_, fun g hg => ⟨AnalysisRequest_frame f g.bytes h, ?_⟩⟩
  · intro hcl
    have hb : f.body = [] := by
      obtain ⟨_, _, _, _, hb⟩ := h
      rcases hcl with e | ⟨clv, e, hA⟩
      · rw [e] at hb
        exact hb
      · rw [e] at hb
        simp only at hb
        obtain ⟨n, hA', _, hlen⟩ := hb
        rw [hA] at hA'
        have : n = 0 := by simpa using hA'.symm
        subst this
        exact List.length_eq_zero.1 (by simpa using hlen)
    refine ⟨?_, ?_⟩
    · unfold Frame.request
      split <;> exact hb
    · have := h1
      rw [Frame.bytes_append, hb] at this
      simpa using this
  · simpa using AnalysisRequest_frame g [] hg

/-- C18, witness: a request with `Transfer-Encoding: chunked` and no
`Content-Length`, with a second request behind it. -/
theorem C18_one_request_only_witness :
    AnalysisRequest
        ((⟨ascii "POST /a HTTP/1.1\r", [ascii "Transfer-Encoding: chunked\r"], [13], []⟩ :
            Frame).bytes ++ ascii "GET /b HTTP/1.1\r\n\r\n")
      = .ok ((⟨ascii "POST /a HTTP/1.1\r", [ascii "Transfer-Encoding: chunked\r"], [13], []⟩ :
            Frame).request, ascii "GET /b HTTP/1.1\r\n\r\n") ∧
    (⟨ascii "POST /a HTTP/1.1\r", [ascii "Transfer-Encoding: chunked\r"], [13], []⟩ :
        Frame).request
      = ⟨ascii "POST", ascii "/a", ascii "HTTP/1.1",
          [(ascii "Transfer-Encoding", ascii "chunked")], []⟩ :=
  ⟨(C18_one_request_only
      ⟨ascii "POST /a HTTP/1.1\r", [ascii "Transfer-Encoding: chunked\r"], [13], []⟩
      (ascii "GET /b HTTP/1.1\r\n\r\n")
      ⟨by decide, by decide, by unfold HeaderLines; decide, by unfold BlankLine; decide, by
        have e : GoMap.get? (headerMap [ascii "Transfer-Encoding: chunked\r"])
            (ascii "Content-Length") = none := by decide
        simp only [e]⟩).1,
   by decide⟩

/-! ## C13 and C17: runs of the connection loop -/

/-- The connection loop along a chain of successful calls of the frame reader,
every write succeeding and every result keeping the connection alive: the
responses are written in order and the loop goes on at the end of the chain. -/
theorem handleLoop_chain {σ : Type} (m : Mux σ) (steps : List (Request × Str))
    (s : Str) (fuel : Nat) (ticks : Nat → Tick) (fs : σ) (out : Str)
    (hc : parseChain s steps = true) (hf : s.length < fuel)
    (hw : ∀ i, i < steps.length → (ticks i).writeOk = true)
    (hk : allKeepAlive m ticks fs (steps.map Prod.fst) = true) :
    ∃ fuel' ticks', (chainEnd s steps).length < fuel' ∧
      handleLoop m fuel ticks fs s out
        = handleLoop m fuel' ticks' (serveAll m ticks fs (steps.map Prod.fst)).2
            (chainEnd s steps) (out ++ (serveAll m ticks fs (steps.map Prod.fst)).1) := by
  induction steps generalizing s fuel ticks fs out with
  | nil => exact ⟨fuel, ticks, hf, by simp [chainEnd, serveAll]⟩
  | cons st more ih =>
    obtain ⟨req, rest⟩ := st
    simp only [parseChain, Bool.and_eq_true, decide_eq_true_eq] at hc
    simp only [List.map_cons, allKeepAlive, Bool.and_eq_true, Bool.not_eq_true'] at hk
    have hlen := AnalysisRequest_consumes s req rest hc.1
    cases fuel with
    | zero => omega
    | succ fuel =>
      have hw0 : (ticks 0).writeOk = true := hw 0 (by simp)
      obtain ⟨fuel', ticks', hlt, heq⟩ := ih rest fuel (fun i => ticks (i + 1))
        (m.Serve (routeKeyOf req.Path) (ticks 0).order fs req).2
        (out ++ (m.Serve (routeKeyOf req.Path) (ticks 0).order fs req).1.Response)
        hc.2 (by omega) (fun i hi => hw (i + 1) (by simp; omega)) hk.2
      refine ⟨fuel', ticks', hlt, ?_⟩
      rw [handleLoop]
      simp only [hc.1, hw0, hk.1, Bool.not_true, Bool.false_eq_true, if_false]
      rw [heq]
      simp [chainEnd, serveAll]

/-- The loop at the end of the stream. -/
theorem handleLoop_eof {σ : Type} (m : Mux σ) (fuel : Nat) (ticks : Nat → Tick) (fs : σ)
    (out : Str) (hf : 0 < fuel) :
    handleLoop m fuel ticks fs [] out = ⟨out, fs, [], .eof⟩ := by
  cases fuel with
  | zero => omega
  | succ fuel => rfl

/-- The loop on a stream that the frame reader refuses with an error other
than the end of the stream. -/
theorem handleLoop_error {σ : Type} (m : Mux σ) (fuel : Nat) (ticks : Nat → Tick) (fs : σ)
    (s out : Str) (e : ParseError) (hf : 0 < fuel)
    (he : AnalysisRequest s = .error e) (hne : e ≠ .eof) :
    handleLoop m fuel ticks fs s out = ⟨out, fs, s, .parseError e⟩ := by
  cases fuel with
  | zero => omega
  | succ fuel =>
    rw [handleLoop, he]
    cases e with
    | eof => exact absurd rfl hne
    | invalidRequestLine => rfl
    | invalidContentLength => rfl
    | readBody c => rfl

theorem parseChain_stepsOf (frames : List Frame) (h : ∀ f ∈ frames, f.WellFormed) :
    parseChain (frames.map Frame.bytes).flatten (stepsOf frames) = true ∧
    chainEnd (frames.map Frame.bytes).flatten (stepsOf frames) = [] ∧
    (stepsOf frames).map Prod.fst = frames.map Frame.request ∧
    (stepsOf frames).length = frames.length := by
  induction frames with
  | nil => simp [parseChain, chainEnd, stepsOf]
  | cons f fs ih =>
    obtain ⟨h1, h2, h3, h4⟩ := ih (fun g hg => h g (by simp [hg]))
    have hf := AnalysisRequest_frame f (fs.map Frame.bytes).flatten (h f (by simp))
    refine ⟨?_, ?_, ?_, ?_⟩
    · simp only [List.map_cons, List.flatten_cons, stepsOf, parseChain, hf, decide_True,
        Bool.true_and]
      exact h1
    · cases fs with
      | nil => simp [stepsOf, chainEnd]
      | cons g gs =>
        simp only [stepsOf, chainEnd] at h2 ⊢
        exact h2
    · simp [stepsOf, h3]
    · simp [stepsOf, h4]

/-- C13: `handleConnection` as a function from the bytes received to the
bytes written, every write succeeding: for every input that is the
concatenation of well-formed requests, each dispatched to a handler whose
result has `Close` unset, followed by the end of the stream, the bytes
written are the concatenation of the results of `Serve` for those requests,
in order; every byte is read and the loop ends on the end of the stream. -/
theorem C13_keep_alive_run {σ : Type} (m : Mux σ) (ticks : Nat → Tick) (fs : σ)
    (frames : List Frame) (hwf : ∀ f ∈ frames, f.WellFormed)
    (hw : ∀ i, i < frames.length → (ticks i).writeOk = true)
    (hk : allKeepAlive m ticks fs (frames.map Frame.request) = true) :
    (handleConnection m ticks fs (frames.map Frame.bytes).flatten).written
      = (serveAll m ticks fs (frames.map Frame.request)).1 ∧
    (handleConnection m ticks fs (frames.map Frame.bytes).flatten).exit = .eof ∧
    (handleConnection m ticks fs (frames.map Frame.bytes).flatten).unread = [] ∧
    (handleConnection m ticks fs (frames.map Frame.bytes).flatten).fs
      = (serveAll m ticks fs (frames.map Frame.request)).2 := by
  obtain ⟨h1, h2, h3, h4⟩ := parseChain_stepsOf frames hwf
  obtain ⟨fuel', ticks', hlt, heq⟩ := handleLoop_chain m (stepsOf frames)
    (frames.map Frame.bytes).flatten ((frames.map Frame.bytes).flatten.length + 1) ticks fs []
    h1 (by omega) (by rw [h4]; exact hw) (by rw [h3]; exact hk)
  unfold handleConnection
  rw [heq, h2, h3, handleLoop_eof m fuel' ticks' _ _ (by omega)]
  simp

/-- C17: for every input stream on which the frame reader, after a chain of
successful calls (every response written, every result keeping the
connection alive), fails with an error other than the end of the stream:
`handleConnection` writes nothing for the request that failed, the bytes
written are the responses to the requests parsed before it, and the loop
ends with that parse error. -/
theorem C17_parse_error_ends_run {σ : Type} (m : Mux σ) (ticks : Nat → Tick) (fs : σ)
    (s : Str) (steps : List (Request × Str)) (e : ParseError)
    (hc : parseChain s steps = true)
    (he : AnalysisRequest (chainEnd s steps) = .error e) (hne : e ≠ .eof)
    (hw : ∀ i, i < steps.length → (ticks i).writeOk = true)
    (hk : allKeepAlive m ticks fs (steps.map Prod.fst) = true) :
    (handleConnection m ticks fs s).written = (serveAll m ticks fs (steps.map Prod.fst)).1 ∧
    (handleConnection m ticks fs s).exit = .parseError e ∧
    (handleConnection m ticks fs s).fs = (serveAll m ticks fs (steps.map Prod.fst)).2 := by
  obtain ⟨fuel', ticks', hlt, heq⟩ := handleLoop_chain m steps s (s.length + 1) ticks fs []
    hc (by omega) hw hk
  unfold handleConnection
  rw [heq, handleLoop_error m fuel' ticks' _ _ _ e (by omega) he hne]
  simp

/-- C13, witness: `GET /echo/abc` and `GET /` back to back. -/
theorem C13_keep_alive_run_witness :
    (handleConnection (registerRoutes Env.empty NewMux) Tick.plain ()
        ([(⟨ascii "GET /echo/abc HTTP/1.1\r", [ascii "Host: x\r"], [13], []⟩ : Frame),
          ⟨ascii "GET / HTTP/1.1\r", [], [13], []⟩].map Frame.bytes).flatten).written
      = (serveAll (registerRoutes Env.empty NewMux) Tick.plain ()
          ([(⟨ascii "GET /echo/abc HTTP/1.1\r", [ascii "Host: x\r"], [13], []⟩ : Frame),
            ⟨ascii "GET / HTTP/1.1\r", [], [13], []⟩].map Frame.request)).1 ∧
    (serveAll (registerRoutes Env.empty NewMux) Tick.plain ()
        ([(⟨ascii "GET /echo/abc HTTP/1.1\r", [ascii "Host: x\r"], [13], []⟩ : Frame),
          ⟨ascii "GET / HTTP/1.1\r", [], [13], []⟩].map Frame.request)).1
      = ascii "HTTP/1.1 200 OK\r\nContent-Type: text/plain\r\nContent-Length: 3\r\n\r\nabcHTTP/1.1 200 OK\r\n\r\n" :=
  ⟨(C13_keep_alive_run (registerRoutes Env.empty NewMux) Tick.plain ()
      [⟨ascii "GET /echo/abc HTTP/1.1\r", [ascii "Host: x\r"], [13], []⟩,
        ⟨ascii "GET / HTTP/1.1\r", [], [13], []⟩]
      (by
        intro f hf
        have e1 : GoMap.get? (headerMap [ascii "Host: x\r"]) (ascii "Content-Length") = none := by
          decide
        have e2 : GoMap.get? (headerMap []) (ascii "Content-Length") = none := by decide
        simp only [List.mem_cons, List.mem_singleton, List.not_mem_nil, or_false] at hf
        rcases hf with rfl | rfl
        · exact ⟨by decide, by decide, by unfold HeaderLines; decide,
            by unfold BlankLine; decide, by simp only [e1]⟩
        · exact ⟨by decide, by decide, by unfold HeaderLines; decide,
            by unfold BlankLine; decide, by simp only [e2]⟩)
      (fun _ _ => rfl) (by decide)).1,
   by decide⟩

/-- C17, witness: a request for `/` followed by a line with one field. -/
theorem C17_parse_error_ends_run_witness :
    (handleConnection (registerRoutes Env.empty NewMux) Tick.plain ()
        (ascii "GET / HTTP/1.1\r\n\r\nBAD\n")).written
      = (serveAll (registerRoutes Env.empty NewMux) Tick.plain ()
          ([((⟨ascii "GET", ascii "/", ascii "HTTP/1.1", [], []⟩ : Request),
              ascii "BAD\n")].map Prod.fst)).1 ∧
    (handleConnection (registerRoutes Env.empty NewMux) Tick.plain ()
        (ascii "GET / HTTP/1.1\r\n\r\nBAD\n")).exit = .parseError .invalidRequestLine ∧
    (serveAll (registerRoutes Env.empty NewMux) Tick.plain ()
          ([((⟨ascii "GET", ascii "/", ascii "HTTP/1.1", [], []⟩ : Request),
              ascii "BAD\n")].map Prod.fst)).1
      = ascii "HTTP/1.1 200 OK\r\n\r\n" :=
  have h := C17_parse_error_ends_run (registerRoutes Env.empty NewMux) Tick.plain ()
    (ascii "GET / HTTP/1.1\r\n\r\nBAD\n")
    [(⟨ascii "GET", ascii "/", ascii "HTTP/1.1", [], []⟩, ascii "BAD\n")]
    .invalidRequestLine (by decide) (by decide) (by decide) (fun _ _ => rfl) (by decide)
  ⟨h.1, h.2.1, by decide⟩

/-! ## C14: the route key and the default 404 -/

theorem Split_ne_nil (sep : Nat) (s : Str) : Split sep s ≠ [] := by
  induction s with
  | nil => simp [Split]
  | cons c s ih =>
    unfold Split
    by_cases hc : c = sep
    · simp [hc]
    · simp only [hc, if_false]
      cases h : Split sep s with
      | nil => simp
      | cons a t => simp

theorem Split_append_sep (sep : Nat) (a r : Str) (h : sep ∉ a) :
    Split sep (a ++ sep :: r) = a :: Split sep r := by
  induction a with
  | nil => simp [Split]
  | cons c a ih =>
    have hc : c ≠ sep := fun e => h (by simp [e])
    have ha : sep ∉ a := fun e => h (by simp [e])
    show Split sep (c :: (a ++ sep :: r)) = (c :: a) :: Split sep r
    rw [Split]
    simp only [hc, if_false]
    rw [ih ha]

theorem routeKeyOf_no_slash (path : Str) (h : 47 ∉ path) : routeKeyOf path = [] := by
  simp [routeKeyOf, Split_no_sep 47 path h]

theorem routeKeyOf_one_slash (a b : Str) (ha : 47 ∉ a) (hb : 47 ∉ b) :
    routeKeyOf (a ++ 47 :: b) = b := by
  simp [routeKeyOf, Split_append_sep 47 a b ha, Split_no_sep 47 b hb]

theorem routeKeyOf_two_slashes (a b c : Str) (ha : 47 ∉ a) (hb : 47 ∉ b) :
    routeKeyOf (a ++ 47 :: (b ++ 47 :: c)) = b := by
  have hne := Split_ne_nil 47 c
  simp [routeKeyOf, Split_append_sep 47 a _ ha, Split_append_sep 47 b c hb]

theorem bodyAfterBlank_skip (l X : Str) (h : 10 ∉ l) :
    bodyAfterBlank (l ++ 13 :: 10 :: X) = bodyAfterBlank (13 :: 10 :: X) := by
  induction l with
  | nil => rfl
  | cons a l ih =>
    have hl : 10 ∉ l := fun e => h (by simp [e])
    have hne : (a :: (l ++ 13 :: 10 :: X)).take 4 ≠ [13, 10, 13, 10] := by
      cases l with
      | nil => simp
      | cons d l' =>
        have hd : d ≠ 10 := fun e => h (by simp [e])
        simp [hd]
    rw [List.cons_append, bodyAfterBlank, if_neg hne, ih hl]

theorem bodyAfterBlank_blank (body : Str) :
    bodyAfterBlank (13 :: 10 :: 13 :: 10 :: body) = some body := by
  simp [bodyAfterBlank]

theorem bodyAfterBlank_line (l Y : Str) (hne : l ≠ []) (h : 10 ∉ l) :
    bodyAfterBlank (13 :: 10 :: (l ++ 13 :: 10 :: Y)) = bodyAfterBlank (13 :: 10 :: Y) := by
  have h1 : (13 :: 10 :: (l ++ 13 :: 10 :: Y)).take 4 ≠ [13, 10, 13, 10] := by
    match l, hne, h with
    | [a], _, _ => simp
    | a :: b :: l', _, h =>
      have hb : b ≠ 10 := fun e => h (by simp [e])
      simp [hb]
  have h2 : (10 :: (l ++ 13 :: 10 :: Y)).take 4 ≠ [13, 10, 13, 10] := by simp
  rw [bodyAfterBlank, if_neg h1, bodyAfterBlank, if_neg h2, bodyAfterBlank_skip l Y h]

theorem bodyAfterBlank_joinLines (ls : List Str) (body : Str)
    (h : ∀ l ∈ ls, 10 ∉ l ∧ l ≠ []) :
    bodyAfterBlank (13 :: 10 :: (joinLines ls ++ 13 :: 10 :: body)) = some body := by
  induction ls with
  | nil => simpa [joinLines] using bodyAfterBlank_blank body
  | cons l ls ih =>
    have hl := h l (by simp)
    have e : joinLines (l :: ls) ++ 13 :: 10 :: body
        = l ++ 13 :: 10 :: (joinLines ls ++ 13 :: 10 :: body) := by simp [joinLines]
    rw [e, bodyAfterBlank_line l _ hl.2 hl.1]
    exact ih (fun x hx => h x (by simp [hx]))

/-- The body of a response made of a status line, header lines and a body:
the first blank line is the one behind the header lines. -/
theorem bodyAfterBlank_response (status : Str) (ls : List Str) (body : Str)
    (hs : 10 ∉ status) (h : ∀ l ∈ ls, 10 ∉ l ∧ l ≠ []) :
    bodyAfterBlank (status ++ CRLF ++ joinLines ls ++ CRLF ++ body) = some body := by
  have e : status ++ CRLF ++ joinLines ls ++ CRLF ++ body
      = status ++ 13 :: 10 :: (joinLines ls ++ 13 :: 10 :: body) := by simp [CRLF]
  rw [e, bodyAfterBlank_skip status _ hs]
  exact bodyAfterBlank_joinLines ls body h

theorem statusLine_response (status rest : Str) (hs : 10 ∉ status) :
    statusLine (status ++ CRLF ++ rest) = some status := by
  have e : status ++ CRLF ++ rest = status ++ 13 :: 10 :: rest := by simp [CRLF]
  unfold statusLine
  rw [e, splitCRLF_line status rest [] hs]
  simp

theorem statusLine_response3 (status mid body : Str) (hs : 10 ∉ status) :
    statusLine (status ++ CRLF ++ mid ++ CRLF ++ body) = some status := by
  have e : status ++ CRLF ++ mid ++ CRLF ++ body = status ++ CRLF ++ (mid ++ CRLF ++ body) := by
    simp only [List.append_assoc]
  rw [e]
  exact statusLine_response _ _ hs

/-- The loop only adds to the bytes written. -/
theorem handleLoop_written {σ : Type} (m : Mux σ) (fuel : Nat) (ticks : Nat → Tick) (fs : σ)
    (s out : Str) : ∃ tail, (handleLoop m fuel ticks fs s out).written = out ++ tail := by
  induction fuel generalizing ticks fs s out with
  | zero => exact ⟨[], by simp [handleLoop]⟩
  | succ fuel ih =>
    rw [handleLoop]
    cases hp : AnalysisRequest s with
    | fault => exact ⟨[], by simp⟩
    | error e => cases e <;> exact ⟨[], by simp⟩
    | ok a =>
      obtain ⟨req, rest⟩ := a
      simp only
      split_ifs
      · exact ⟨[], by simp⟩
      · exact ⟨_, rfl⟩
      · obtain ⟨tail, ht⟩ := ih (fun i => ticks (i + 1))
          (m.Serve (routeKeyOf req.Path) (ticks 0).order fs req).2 rest
          (out ++ (m.Serve (routeKeyOf req.Path) (ticks 0).order fs req).1.Response)
        exact ⟨(m.Serve (routeKeyOf req.Path) (ticks 0).order fs req).1.Response ++ tail,
          by rw [ht]; simp⟩

/-- The first response written on a connection whose first request is parsed
and whose first write succeeds. -/
theorem handleConnection_first {σ : Type} (m : Mux σ) (ticks : Nat → Tick) (fs : σ)
    (s : Str) (req : Request) (rest : Str)
    (hp : AnalysisRequest s = .ok (req, rest)) (hw : (ticks 0).writeOk = true) :
    ∃ tail, (handleConnection m ticks fs s).written
      = (m.Serve (routeKeyOf req.Path) (ticks 0).order fs req).1.Response ++ tail := by
  unfold handleConnection
  rw [handleLoop]
  simp only [hp, hw, Bool.not_true, Bool.false_eq_true, if_false, List.nil_append]
  split_ifs
  · exact ⟨[], by simp⟩
  · exact handleLoop_written m _ _ _ _ _

theorem notFound_shape (req : Request) (hv : 10 ∉ req.Version) :
    statusLine (notFound req) = some (req.Version ++ ascii " 404 Not Found") ∧
    bodyAfterBlank (notFound req) = some [] := by
  have hs : 10 ∉ req.Version ++ ascii " 404 Not Found" := status_no_lf _ _ hv (by decide)
  unfold notFound
  refine ⟨?_, ?_⟩
  · have e : req.Version ++ ascii " 404 Not Found" ++ CRLF
          ++ (if closeRequested req then ascii "Connection: close" ++ CRLF else []) ++ CRLF
        = req.Version ++ ascii " 404 Not Found" ++ CRLF
          ++ ((if closeRequested req then ascii "Connection: close" ++ CRLF else []) ++ CRLF) := by
      simp only [List.append_assoc]
    rw [e]
    exact statusLine_response _ _ hs
  · by_cases hc : closeRequested req = true
    · simp only [hc, if_true]
      have e : req.Version ++ ascii " 404 Not Found" ++ CRLF ++ (ascii "Connection: close" ++ CRLF)
            ++ CRLF
          = req.Version ++ ascii " 404 Not Found" ++ CRLF
            ++ joinLines [ascii "Connection: close"] ++ CRLF ++ [] := by
        simp [joinLines, CRLF]
      rw [e]
      exact bodyAfterBlank_response _ _ _ hs (by
        intro l hl
        have : l = ascii "Connection: close" := by simpa using hl
        subst this
        decide)
    · have hcf : closeRequested req = false := by simpa using hc
      rw [hcf]
      simp only [Bool.false_eq_true, if_false]
      have e : req.Version ++ ascii " 404 Not Found" ++ CRLF ++ [] ++ CRLF
          = req.Version ++ ascii " 404 Not Found" ++ CRLF ++ joinLines [] ++ CRLF ++ [] := by
        simp [joinLines]
      rw [e]
      exact bodyAfterBlank_response _ _ _ hs (by simp)

/-- C14: the route key of a path is the text between its first and second
`/` (up to the end when there is no second `/`), and the root key `""` when
the path has no `/`.  For every request returned by the frame reader whose
route key is none of `""`, `echo`, `user-agent` and `files`, `Serve` with the
routes of `registerRoutes` returns the 404 response, which is what
`handleConnection` writes first: its status line is the version of the
request followed by ` 404 Not Found` and its body is empty. -/
theorem C14_route_key_and_404 {σ : Type} (env : Env σ) (ticks : Nat → Tick) (fs : σ)
    (s : Str) (req : Request) (rest : Str)
    (hp : AnalysisRequest s = .ok (req, rest)) :
    (47 ∉ req.Path → routeKeyOf req.Path = []) ∧
    (∀ a b, req.Path = a ++ 47 :: b → 47 ∉ a → 47 ∉ b → routeKeyOf req.Path = b) ∧
    (∀ a b c, req.Path = a ++ 47 :: (b ++ 47 :: c) → 47 ∉ a → 47 ∉ b →
      routeKeyOf req.Path = b) ∧
    (routeKeyOf req.Path ∉ [ascii "", ascii "echo", ascii "user-agent", ascii "files"] →
      ((registerRoutes env NewMux).Serve (routeKeyOf req.Path) (ticks 0).order fs req).1.Response
          = notFound req ∧
        ((ticks 0).writeOk = true →
          ∃ tail, (handleConnection (registerRoutes env NewMux) ticks fs s).written
            = notFound req ++ tail) ∧
        statusLine (notFound req) = some (req.Version ++ ascii " 404 Not Found") ∧
        bodyAfterBlank (notFound req) = some []) := by
  refine ⟨routeKeyOf_no_slash _, ?_, ?_, ?_⟩
  · intro a b hpath ha hb
    rw [hpath]
    exact routeKeyOf_one_slash a b ha hb
  · intro a b c hpath ha hb
    rw [hpath]
    exact routeKeyOf_two_slashes a b c ha hb
  · intro hk
    simp only [List.mem_cons, List.mem_singleton, List.not_mem_nil, or_false, not_or] at hk
    obtain ⟨k1, k2, k3, k4⟩ := hk
    have hserve : ((registerRoutes env NewMux).Serve (routeKeyOf req.Path) (ticks 0).order fs
        req).1.Response = notFound req := by
      rw [Serve_registerRoutes]
      rw [if_neg (fun e => k1 (Eq.symm e)), if_neg (fun e => k2 (Eq.symm e)),
        if_neg (fun e => k3 (Eq.symm e)), if_neg (fun e => k4 (Eq.symm e))]
      rfl
    have hshape := notFound_shape req (parsed_version_no_lf s req rest hp)
    refine ⟨hserve, ?_, hshape.1, hshape.2⟩
    intro hw
    obtain ⟨tail, ht⟩ := handleConnection_first (registerRoutes env NewMux) ticks fs s req rest
      hp hw
    exact ⟨tail, by rw [ht, hserve]⟩

/-- C14, witness: `GET /unknown HTTP/1.1`. -/
theorem C14_route_key_and_404_witness :
    routeKeyOf (ascii "/unknown") = ascii "unknown" ∧
    notFound ⟨ascii "GET", ascii "/unknown", ascii "HTTP/1.1", [], []⟩
      = ascii "HTTP/1.1 404 Not Found\r\n\r\n" ∧
    ∃ tail, (handleConnection (registerRoutes Env.empty NewMux) Tick.plain ()
        (ascii "GET /unknown HTTP/1.1\r\n\r\n")).written
      = notFound ⟨ascii "GET", ascii "/unknown", ascii "HTTP/1.1", [], []⟩ ++ tail :=
  ⟨by decide, by decide,
   ((C14_route_key_and_404 Env.empty Tick.plain () (ascii "GET /unknown HTTP/1.1\r\n\r\n")
      ⟨ascii "GET", ascii "/unknown", ascii "HTTP/1.1", [], []⟩ [] (by decide)).2.2.2
      (by decide)).2.1 rfl⟩

/-! ## C20: the paths that `filesHandler` opens -/

/-- The model of `filepath.Clean` and `filepath.Join` on the examples of the
Go documentation and on the paths of the handler. -/
theorem filepathClean_examples :
    filepathClean (ascii "a/b/../c") = ascii "a/c" ∧
    filepathClean (ascii "/..") = ascii "/" ∧
    filepathClean (ascii "../a") = ascii "../a" ∧
    filepathClean (ascii "a/../..") = ascii ".." ∧
    filepathClean (ascii "a//b/./c/") = ascii "a/b/c" ∧
    filepathClean (ascii "/") = ascii "/" ∧
    filepathClean (ascii ".") = ascii "." ∧
    filepathClean (ascii "/a/../../b") = ascii "/b" ∧
    filepathClean (ascii "../../a/../b") = ascii "../../b" ∧
    filepathJoin (ascii "/tmp/data") (ascii "") = ascii "/tmp/data" ∧
    filepathJoin (ascii "/tmp/data") (ascii "test.txt") = ascii "/tmp/data/test.txt" ∧
    filepathJoin (ascii "") (ascii "x/") = ascii "x" := by
  decide

/-- C20, the code at the failing input: the request
`GET /files/../../etc/passwd` has route key `files`; with the directory
`/tmp/data`, the path that `filesHandler` stats and reads is `/etc/passwd`,
which is not inside `/tmp/data`, and the response carries the bytes of that
file. -/
theorem C20_path_leaves_directory :
    AnalysisRequest (ascii "GET /files/../../etc/passwd HTTP/1.1\r\n\r\n")
      = .ok (⟨ascii "GET", ascii "/files/../../etc/passwd", ascii "HTTP/1.1", [], []⟩, []) ∧
    routeKeyOf (ascii "/files/../../etc/passwd") = ascii "files" ∧
    Join (ascii "/") ((Split 47 (ascii "/files/../../etc/passwd")).drop 2)
      = ascii "../../etc/passwd" ∧
    filepathJoin (ascii "/tmp/data") (ascii "../../etc/passwd") = ascii "/etc/passwd" ∧
    insideDir (ascii "/tmp/data") (ascii "/etc/passwd") = false ∧
    (filesHandler (Env.onMap (ascii "/tmp/data")) Order.stored
        [(ascii "/etc/passwd", ascii "secret")]
        ⟨ascii "GET", ascii "/files/../../etc/passwd", ascii "HTTP/1.1", [], []⟩).1.Response
      = ascii "HTTP/1.1 200 OK\r\nContent-Type: application/octet-stream\r\nContent-Length: 6\r\n\r\nsecret" ∧
    (filesHandler (Env.onMap (ascii "/tmp/data")) Order.stored []
        ⟨ascii "POST", ascii "/files/../../etc/passwd", ascii "HTTP/1.1", [], ascii "x"⟩).2
      = [(ascii "/etc/passwd", ascii "x")] := by
  decide

/-! ## C16: writing a file and reading it back -/

theorem Join_Split (s : Str) : Join [47] (Split 47 s) = s := by
  induction s with
  | nil => rfl
  | cons c s ih =>
    unfold Split
    by_cases hc : c = 47
    · simp only [hc, if_true]
      cases hs : Split 47 s with
      | nil => exact absurd hs (Split_ne_nil 47 s)
      | cons b t =>
        rw [hs] at ih
        simp [Join, ih]
    · simp only [hc, if_false]
      cases hs : Split 47 s with
      | nil => exact absurd hs (Split_ne_nil 47 s)
      | cons b t =>
        rw [hs] at ih
        cases t with
        | nil =>
          simp only [Join] at ih ⊢
          rw [ih]
        | cons b2 t2 =>
          simp only [Join] at ih ⊢
          rw [← ih]
          simp

/-- The split of the path of a request for a file. -/
theorem Split_files (name : Str) :
    Split 47 (ascii "/files/" ++ name) = [] :: ascii "files" :: Split 47 name := by
  have e : ascii "/files/" ++ name = 47 :: 102 :: 105 :: 108 :: 101 :: 115 :: 47 :: name := rfl
  have h1 : Split 47 (47 :: name) = [] :: Split 47 name := by simp [Split]
  have h2 : Split 47 (ascii "files" ++ 47 :: name) = ascii "files" :: Split 47 name :=
    Split_append_sep 47 (ascii "files") name (by decide)
  have e2 : ascii "/files/" ++ name = 47 :: (ascii "files" ++ 47 :: name) := rfl
  rw [e2]
  have h3 : Split 47 (47 :: (ascii "files" ++ 47 :: name))
      = [] :: Split 47 (ascii "files" ++ 47 :: name) := by simp [Split]
  rw [h3, h2]

theorem files_name (name : Str) :
    3 ≤ (Split 47 (ascii "/files/" ++ name)).length ∧
    Join (ascii "/") ((Split 47 (ascii "/files/" ++ name)).drop 2) = name := by
  rw [Split_files]
  refine ⟨?_, ?_⟩
  · have := Split_ne_nil 47 name
    cases h : Split 47 name with
    | nil => exact absurd h this
    | cons a t => simp
  · have e : ascii "/" = [47] := rfl
    simp only [List.drop_succ_cons, List.drop_zero, e]
    exact Join_Split name

/-- The map of a file system after `os.Create` and `Write` on one path. -/
theorem GoMap.set_set {α : Type} (h : GoMap α) (k : Str) (v w : α) :
    GoMap.set (GoMap.set h k v) k w = GoMap.set h k w := by
  induction h with
  | nil => simp [GoMap.set]
  | cons e h ih =>
    obtain ⟨k0, v0⟩ := e
    by_cases h0 : k0 = k
    · simp [GoMap.set, h0]
    · simp [GoMap.set, h0, ih]

/-- What `filesHandler` does on `POST /files/<name>` over the map. -/
theorem filesHandler_post (baseDir : Str) (ord : Order) (fs : GoMap Str) (req : Request)
    (name : Str) (hm : req.Method = ascii "POST") (hp : req.Path = ascii "/files/" ++ name) :
    filesHandler (Env.onMap baseDir) ord fs req
      = (⟨req.Version ++ ascii " 201 Created" ++ CRLF ++ CRLF, false⟩,
          GoMap.set fs (filepathJoin baseDir name) req.Body) := by
  obtain ⟨h3, hj⟩ := files_name name
  have h3' : ¬ (Split 47 (ascii "/files/" ++ name)).length < 3 := by omega
  unfold filesHandler
  simp only [hp, h3', if_false, hm, if_true, hj]
  simp [Env.onMap, GoMap.set_set]

/-- What `filesHandler` does on another method for a path of the map. -/
theorem filesHandler_get (baseDir : Str) (ord : Order) (fs : GoMap Str) (req : Request)
    (name content : Str) (hm : req.Method ≠ ascii "POST")
    (hp : req.Path = ascii "/files/" ++ name)
    (hf : GoMap.get? fs (filepathJoin baseDir name) = some content) :
    filesHandler (Env.onMap baseDir) ord fs req
      = (⟨req.Version ++ ascii " 200 OK" ++ CRLF
            ++ renderHeaders ord
              (if wantsClose req then
                [(ascii "Content-Type", ascii "application/octet-stream"),
                  (ascii "Content-Length", Itoa content.length),
                  (ascii "Connection", ascii "close")]
              else
                [(ascii "Content-Type", ascii "application/octet-stream"),
                  (ascii "Content-Length", Itoa content.length)])
            ++ CRLF ++ content, wantsClose req⟩, fs) := by
  obtain ⟨h3, hj⟩ := files_name name
  have h3' : ¬ (Split 47 (ascii "/files/" ++ name)).length < 3 := by omega
  have hm1 : GoMap.set (GoMap.set (GoMap.set ([] : GoMap Str) (ascii "Content-Type")
      (ascii "application/octet-stream")) (ascii "Content-Length") (Itoa content.length))
      (ascii "Connection") (ascii "close")
      = [(ascii "Content-Type", ascii "application/octet-stream"),
          (ascii "Content-Length", Itoa content.length),
          (ascii "Connection", ascii "close")] := rfl
  have hm2 : GoMap.set (GoMap.set ([] : GoMap Str) (ascii "Content-Type")
      (ascii "application/octet-stream")) (ascii "Content-Length") (Itoa content.length)
      = [(ascii "Content-Type", ascii "application/octet-stream"),
          (ascii "Content-Length", Itoa content.length)] := rfl
  unfold filesHandler
  simp only [hp, h3', if_false, hm, hj]
  simp only [Env.onMap, hf, Option.isSome_some, Bool.not_true, Bool.false_eq_true, if_false]
  by_cases hw : wantsClose req = true
  · simp only [hw, if_true, hm1]
  · have hwf : wantsClose req = false := by simpa using hw
    simp only [hwf, Bool.false_eq_true, if_false, hm2]

/-- What `filesHandler` does on another method for a path that the map does
not hold. -/
theorem filesHandler_absent (baseDir : Str) (ord : Order) (fs : GoMap Str) (req : Request)
    (name : Str) (hm : req.Method ≠ ascii "POST")
    (hp : req.Path = ascii "/files/" ++ name)
    (hf : GoMap.get? fs (filepathJoin baseDir name) = none) :
    filesHandler (Env.onMap baseDir) ord fs req
      = (⟨req.Version ++ ascii " 404 Not Found" ++ CRLF ++ CRLF, false⟩, fs) := by
  obtain ⟨h3, hj⟩ := files_name name
  have h3' : ¬ (Split 47 (ascii "/files/" ++ name)).length < 3 := by omega
  unfold filesHandler
  simp only [hp, h3', if_false, hm, hj]
  simp [Env.onMap, hf]

/-- The parts of a 200 response of `filesHandler`: status line, header
section and body. -/
theorem files_response_shape (version content : Str) (close : Bool) (ord : Order)
    (hv : 10 ∉ version) :
    statusLine (version ++ ascii " 200 OK" ++ CRLF
        ++ renderHeaders ord
          (if close then
            [(ascii "Content-Type", ascii "application/octet-stream"),
              (ascii "Content-Length", Itoa content.length),
              (ascii "Connection", ascii "close")]
          else
            [(ascii "Content-Type", ascii "application/octet-stream"),
              (ascii "Content-Length", Itoa content.length)])
        ++ CRLF ++ content) = some (version ++ ascii " 200 OK") ∧
    bodyAfterBlank (version ++ ascii " 200 OK" ++ CRLF
        ++ renderHeaders ord
          (if close then
            [(ascii "Content-Type", ascii "application/octet-stream"),
              (ascii "Content-Length", Itoa content.length),
              (ascii "Connection", ascii "close")]
          else
            [(ascii "Content-Type", ascii "application/octet-stream"),
              (ascii "Content-Length", Itoa content.length)])
        ++ CRLF ++ content) = some content ∧
    (headerSection (version ++ ascii " 200 OK" ++ CRLF
        ++ renderHeaders ord
          (if close then
            [(ascii "Content-Type", ascii "application/octet-stream"),
              (ascii "Content-Length", Itoa content.length),
              (ascii "Connection", ascii "close")]
          else
            [(ascii "Content-Type", ascii "application/octet-stream"),
              (ascii "Content-Length", Itoa content.length)])
        ++ CRLF ++ content)).Perm
      (if close then
        [ascii "Content-Type: application/octet-stream",
          ascii "Content-Length: " ++ Itoa content.length, ascii "Connection: close"]
      else
        [ascii "Content-Type: application/octet-stream",
          ascii "Content-Length: " ++ Itoa content.length]) := by
  have hs : 10 ∉ version ++ ascii " 200 OK" := status_no_lf _ _ hv (by decide)
  have n1 : 10 ∉ ascii "Content-Type" := by decide
  have n2 : 10 ∉ ascii "application/octet-stream" := by decide
  have n3 : 10 ∉ ascii "Content-Length" := by decide
  have n4 : 10 ∉ ascii "Connection" := by decide
  have n5 : 10 ∉ ascii "close" := by decide
  have n6 := Itoa_no_lf content.length
  have hlines : ∀ l ∈ (ord.visit (if close then
            [(ascii "Content-Type", ascii "application/octet-stream"),
              (ascii "Content-Length", Itoa content.length),
              (ascii "Connection", ascii "close")]
          else
            [(ascii "Content-Type", ascii "application/octet-stream"),
              (ascii "Content-Length", Itoa content.length)])).map renderLine,
      10 ∉ l ∧ l ≠ [] := by
    intro l hl
    obtain ⟨e, he, rfl⟩ := List.mem_map.1 hl
    apply renderLine_no_lf
    have he' := (ord.perm _).mem_iff.1 he
    cases close
    · simp only [Bool.false_eq_true, if_false, List.mem_cons, List.mem_singleton,
        List.not_mem_nil, or_false] at he'
      rcases he' with r | r <;> subst r <;> exact ⟨by assumption, by assumption⟩
    · simp only [if_true, List.mem_cons, List.mem_singleton, List.not_mem_nil,
        or_false] at he'
      rcases he' with r | r | r <;> subst r <;> exact ⟨by assumption, by assumption⟩
  rw [renderHeaders_eq]
  refine ⟨?_, bodyAfterBlank_response _ _ _ hs hlines, ?_⟩
  · exact statusLine_response3 _ _ _ hs
  · rw [headerSection_response _ _ _ hs hlines]
    refine ((ord.perm _).map renderLine).trans ?_
    cases close
    · simp only [Bool.false_eq_true, if_false]
      exact List.Perm.refl _
    · simp only [if_true]
      exact List.Perm.refl _

/-- C16, as stated, fails: two identical `GET /files/test.txt` on the same file
system, the handler's map being visited in two different orders, return
responses that differ in the order of their header lines. -/
theorem C16_counterexample :
    (filesHandler (Env.onMap (ascii "/tmp/data")) Order.stored
        [(ascii "/tmp/data/test.txt", ascii "hello")]
        ⟨ascii "GET", ascii "/files/test.txt", ascii "HTTP/1.1", [], []⟩).1.Response
      = ascii "HTTP/1.1 200 OK\r\nContent-Type: application/octet-stream\r\nContent-Length: 5\r\n\r\nhello" ∧
    (filesHandler (Env.onMap (ascii "/tmp/data")) Order.reversed
        [(ascii "/tmp/data/test.txt", ascii "hello")]
        ⟨ascii "GET", ascii "/files/test.txt", ascii "HTTP/1.1", [], []⟩).1.Response
      = ascii "HTTP/1.1 200 OK\r\nContent-Length: 5\r\nContent-Type: application/octet-stream\r\n\r\nhello" ∧
    (filesHandler (Env.onMap (ascii "/tmp/data")) Order.stored
        [(ascii "/tmp/data/test.txt", ascii "hello")]
        ⟨ascii "GET", ascii "/files/test.txt", ascii "HTTP/1.1", [], []⟩).1.Response
      ≠ (filesHandler (Env.onMap (ascii "/tmp/data")) Order.reversed
        [(ascii "/tmp/data/test.txt", ascii "hello")]
        ⟨ascii "GET", ascii "/files/test.txt", ascii "HTTP/1.1", [], []⟩).1.Response := by
  decide

/-- C16 (amended): over the file system as a map in which creating and
writing succeed, with `p` the path `filepath.Join(baseDir, <name>)`.  `POST
/files/<name>` returns `201 Created` and leaves the body under `p`.  On a
file system that holds `content` under `p`, `GET /files/<name>` leaves the
file system unchanged and returns the status line `200 OK`, the header lines
`Content-Type: application/octet-stream` and `Content-Length: n` with `n` the
length of `content` (and `Connection: close` when asked for) in some order,
and the body `content`; a second identical `GET` returns the same status
line, the same header lines up to their order and the same body, and the
same bytes when the map is visited in the same order.  `GET` for a path that
the file system does not hold returns `404 Not Found`. -/
theorem C16_post_then_get (baseDir : Str) (ord1 ord2 ord3 : Order) (fs : GoMap Str)
    (post get : Request) (name : Str)
    (hpm : post.Method = ascii "POST") (hpp : post.Path = ascii "/files/" ++ name)
    (hgm : get.Method = ascii "GET") (hgp : get.Path = ascii "/files/" ++ name)
    (hv : 10 ∉ get.Version) :
    filesHandler (Env.onMap baseDir) ord1 fs post
      = (⟨post.Version ++ ascii " 201 Created" ++ CRLF ++ CRLF, false⟩,
          GoMap.set fs (filepathJoin baseDir name) post.Body) ∧
    GoMap.get? (GoMap.set fs (filepathJoin baseDir name) post.Body) (filepathJoin baseDir name)
      = some post.Body ∧
    (∀ (fs1 : GoMap Str) (content : Str),
      GoMap.get? fs1 (filepathJoin baseDir name) = some content →
      (filesHandler (Env.onMap baseDir) ord2 fs1 get).2 = fs1 ∧
      statusLine (filesHandler (Env.onMap baseDir) ord2 fs1 get).1.Response
        = some (get.Version ++ ascii " 200 OK") ∧
      (headerSection (filesHandler (Env.onMap baseDir) ord2 fs1 get).1.Response).Perm
        (if closeRequested get then
          [ascii "Content-Type: application/octet-stream",
            ascii "Content-Length: " ++ Itoa content.length, ascii "Connection: close"]
        else
          [ascii "Content-Type: application/octet-stream",
            ascii "Content-Length: " ++ Itoa content.length]) ∧
      bodyAfterBlank (filesHandler (Env.onMap baseDir) ord2 fs1 get).1.Response = some content ∧
      statusLine (filesHandler (Env.onMap baseDir) ord3
          (filesHandler (Env.onMap baseDir) ord2 fs1 get).2 get).1.Response
        = statusLine (filesHandler (Env.onMap baseDir) ord2 fs1 get).1.Response ∧
      (headerSection (filesHandler (Env.onMap baseDir) ord3
          (filesHandler (Env.onMap baseDir) ord2 fs1 get).2 get).1.Response).Perm
        (headerSection (filesHandler (Env.onMap baseDir) ord2 fs1 get).1.Response) ∧
      bodyAfterBlank (filesHandler (Env.onMap baseDir) ord3
          (filesHandler (Env.onMap baseDir) ord2 fs1 get).2 get).1.Response
        = bodyAfterBlank (filesHandler (Env.onMap baseDir) ord2 fs1 get).1.Response ∧
      (ord3.visit = ord2.visit →
        (filesHandler (Env.onMap baseDir) ord3
          (filesHandler (Env.onMap baseDir) ord2 fs1 get).2 get).1.Response
        = (filesHandler (Env.onMap baseDir) ord2 fs1 get).1.Response)) ∧
    (∀ fs0 : GoMap Str, GoMap.get? fs0 (filepathJoin baseDir name) = none →
      filesHandler (Env.onMap baseDir) ord2 fs0 get
        = (⟨get.Version ++ ascii " 404 Not Found" ++ CRLF ++ CRLF, false⟩, fs0)) := by
  have hgm' : get.Method ≠ ascii "POST" := by
    rw [hgm]
    decide
  refine ⟨filesHandler_post baseDir ord1 fs post name hpm hpp, ?_, ?_, ?_⟩
  · rw [GoMap.get?_set]
    simp
  · intro fs1 content hf
    have h2 := filesHandler_get baseDir ord2 fs1 get name content hgm' hgp hf
    have h3 := filesHandler_get baseDir ord3 fs1 get name content hgm' hgp hf
    have s2 := files_response_shape get.Version content (wantsClose get) ord2 hv
    have s3 := files_response_shape get.Version content (wantsClose get) ord3 hv
    rw [h2]
    simp only
    rw [h3]
    simp only
    rw [← wantsClose_eq]
    refine ⟨trivial, s2.1, s2.2.2, s2.2.1, ?_, ?_, ?_, ?_⟩
    · rw [s3.1, s2.1]
    · exact s3.2.2.trans s2.2.2.symm
    · rw [s3.2.1, s2.2.1]
    · intro hord
      unfold renderHeaders
      rw [hord]
  · intro fs0 hf
    exact filesHandler_absent baseDir ord2 fs0 get name hgm' hgp hf

/-- C16, witness: `POST /files/test.txt` with the body `hello` into the empty
directory `/tmp/data`, and `GET /files/test.txt` afterwards. -/
theorem C16_post_then_get_witness :
    filesHandler (Env.onMap (ascii "/tmp/data")) Order.stored []
        ⟨ascii "POST", ascii "/files/test.txt", ascii "HTTP/1.1",
          [(ascii "Content-Length", ascii "5")], ascii "hello"⟩
      = (⟨ascii "HTTP/1.1" ++ ascii " 201 Created" ++ CRLF ++ CRLF, false⟩,
          GoMap.set [] (filepathJoin (ascii "/tmp/data") (ascii "test.txt")) (ascii "hello")) ∧
    bodyAfterBlank (filesHandler (Env.onMap (ascii "/tmp/data")) Order.reversed
        [(ascii "/tmp/data/test.txt", ascii "hello")]
        ⟨ascii "GET", ascii "/files/test.txt", ascii "HTTP/1.1", [], []⟩).1.Response
      = some (ascii "hello") :=
  have h := C16_post_then_get (ascii "/tmp/data") Order.stored Order.reversed Order.stored []
    ⟨ascii "POST", ascii "/files/test.txt", ascii "HTTP/1.1",
      [(ascii "Content-Length", ascii "5")], ascii "hello"⟩
    ⟨ascii "GET", ascii "/files/test.txt", ascii "HTTP/1.1", [], []⟩
    (ascii "test.txt") (by decide) (by decide) (by decide) (by decide) (by decide)
  ⟨h.1, (h.2.2.1 [(ascii "/tmp/data/test.txt", ascii "hello")] (ascii "hello")
    (by decide)).2.2.2.1⟩

/-! ## C15: reading a response back with the frame reader -/

theorem isSpace2_space1 (a c : Nat) (hc : isSpace1 c = true) : isSpace2 a c = false := by
  rcases isSpace1_cases c hc with e | e | e | e | e | e <;> subst e <;> simp [isSpace2]

theorem isSpace3_mid_space1 (a c d : Nat) (hc : isSpace1 c = true) : isSpace3 a c d = false := by
  rcases isSpace1_cases c hc with e | e | e | e | e | e <;> subst e <;> simp [isSpace3]

theorem isSpace3_last_space1 (a b c : Nat) (hc : isSpace1 c = true) : isSpace3 a b c = false := by
  rcases isSpace1_cases c hc with e | e | e | e | e | e <;> subst e <;> simp [isSpace3]

/-- Bytes that start no white-space rune before some text start none before a
byte of ASCII white space. -/
theorem spaceWidth_close (v s : Str) (c : Nat) (X : Str) (hv : v ≠ [])
    (h : spaceWidth (v ++ s) = 0) (hc : isSpace1 c = true) :
    spaceWidth (v ++ c :: X) = 0 := by
  have k2 := fun a => isSpace2_space1 a c hc
  have k3 := fun a d => isSpace3_mid_space1 a c d hc
  have k4 := fun a b => isSpace3_last_space1 a b c hc
  match v, hv with
  | [a], _ =>
    have h1 : isSpace1 a = false := by
      by_contra hn
      have := spaceWidth_space1 a s (by simpa using hn)
      simp only [List.singleton_append] at h
      omega
    match X with
    | [] => simp [spaceWidth, h1, k2]
    | x :: X' => simp [spaceWidth, h1, k2, k3]
  | [a, b], _ =>
    have h1 : isSpace1 a = false := by
      by_contra hn
      have := spaceWidth_space1 a (b :: s) (by simpa using hn)
      simp only [List.cons_append, List.nil_append] at h
      omega
    have h2 : isSpace2 a b = false := by
      by_contra hn
      have hn' : isSpace2 a b = true := by simpa using hn
      match s with
      | [] => simp [spaceWidth, h1, hn'] at h
      | x :: s' => simp [spaceWidth, h1, hn'] at h
    simp [spaceWidth, h1, h2, k4]
  | a :: b :: d :: v', _ =>
    simpa [spaceWidth] using h

theorem NoSpaceAt_close (s f : Str) (c : Nat) (X : Str) (h : NoSpaceAt s f)
    (hc : isSpace1 c = true) : NoSpaceAt (c :: X) f := by
  induction f with
  | nil => trivial
  | cons a v ih =>
    exact ⟨spaceWidth_close (a :: v) s c X (by simp) h.1 hc, ih h.2⟩

theorem NoSpaceAt_snoc (f : Str) (c0 : Nat) (rest : Str) (h : NoSpaceAt (c0 :: rest) f)
    (h0 : spaceWidth (c0 :: rest) = 0) : NoSpaceAt rest (f ++ [c0]) := by
  induction f with
  | nil => exact ⟨by simpa using h0, trivial⟩
  | cons a v ih =>
    refine ⟨?_, ih h.2⟩
    have := h.1
    simpa using this

/-- The scanner of `strings.Fields` on a text that holds no white space,
followed by a byte of ASCII white space: the text is one field. -/
theorem fieldsGo_token (v cur : Str) (c : Nat) (X : Str) (hc : isSpace1 c = true)
    (hv : NoSpaceAt (c :: X) v) (hne : cur.reverse ++ v ≠ []) :
    fieldsGo (v ++ c :: X) 0 cur = (cur.reverse ++ v) :: fieldsGo X 0 [] := by
  induction v generalizing cur with
  | nil =>
    have hcur : cur ≠ [] := by simpa using hne
    have hw : spaceWidth (c :: X) = 1 := spaceWidth_space1 c X hc
    simp [fieldsGo, hw, flushField, hcur]
  | cons a v ih =>
    have hw : spaceWidth (a :: (v ++ c :: X)) = 0 := by simpa using hv.1
    have := ih (a :: cur) hv.2 (by simp)
    show fieldsGo (a :: (v ++ c :: X)) 0 cur = _
    rw [fieldsGo, if_pos hw, this]
    simp

theorem fieldsGo_NoSpaceAt (s : Str) (skip : Nat) (cur : Str)
    (h0 : skip = 0 → NoSpaceAt s cur.reverse) (h1 : 0 < skip → cur = []) :
    ∀ f ∈ fieldsGo s skip cur, f ≠ [] ∧ NoSpaceAt [32] f := by
  induction s generalizing skip cur with
  | nil =>
    intro f hf
    unfold fieldsGo flushField at hf
    by_cases hc : cur = []
    · simp [hc] at hf
    · simp only [hc, if_false, List.mem_singleton] at hf
      subst hf
      have hs : skip = 0 := by
        by_contra hn
        exact hc (h1 (Nat.pos_of_ne_zero hn))
      exact ⟨by simpa using hc, NoSpaceAt_close [] _ 32 [] (h0 hs) (by decide)⟩
  | cons c s ih =>
    cases skip with
    | succ k =>
      have hcur : cur = [] := h1 (by omega)
      subst hcur
      intro f hf
      rw [fieldsGo] at hf
      exact ih k [] (fun _ => trivial) (fun _ => rfl) f hf
    | zero =>
      have hP := h0 rfl
      intro f hf
      rw [fieldsGo] at hf
      by_cases hw : spaceWidth (c :: s) = 0
      · simp only [hw, if_true] at hf
        refine ih 0 (c :: cur) (fun _ => ?_) (fun h => by omega) f hf
        simpa using NoSpaceAt_snoc cur.reverse c s hP hw
      · simp only [hw, if_false] at hf
        rcases List.mem_append.1 hf with hf1 | hf2
        · unfold flushField at hf1
          by_cases hc : cur = []
          · simp [hc] at hf1
          · simp only [hc, if_false, List.mem_singleton] at hf1
            subst hf1
            exact ⟨by simpa using hc, NoSpaceAt_close (c :: s) _ 32 [] hP (by decide)⟩
        · by_cases hk : spaceWidth (c :: s) - 1 = 0
          · rw [hk] at hf2
            exact ih 0 [] (fun _ => trivial) (fun h => by omega) f hf2
          · exact ih _ [] (fun h => absurd h hk) (fun _ => rfl) f hf2

/-- Every field of `strings.Fields` is not empty and holds no white space. -/
theorem Fields_token (s : Str) : ∀ f ∈ Fields s, f ≠ [] ∧ NoSpaceAt [32] f :=
  fieldsGo_NoSpaceAt s 0 [] (fun _ => trivial) (fun h => by omega)

/-- The status line of a 200 response splits into the version, `200` and
`OK`. -/
theorem Fields_status (v : Str) (hne : v ≠ []) (hv : NoSpaceAt [32] v) :
    Fields (v ++ ascii " 200 OK" ++ [13] ++ [10]) = [v, ascii "200", ascii "OK"] := by
  have e : v ++ ascii " 200 OK" ++ [13] ++ [10] = v ++ 32 :: ascii "200 OK\r\n" := by
    simp only [List.append_assoc]
    rfl
  unfold Fields
  rw [e, fieldsGo_token v [] 32 _ (by decide) (NoSpaceAt_close [32] v 32 _ hv (by decide))
    (by simpa using hne)]
  have : fieldsGo (ascii "200 OK\r\n") 0 [] = [ascii "200", ascii "OK"] := by decide
  rw [this]
  rfl

/-- The version of a parsed request is a field. -/
theorem parsed_version_token (s : Str) (req : Request) (rest : Str)
    (hp : AnalysisRequest s = .ok (req, rest)) :
    req.Version ≠ [] ∧ NoSpaceAt [32] req.Version := by
  unfold AnalysisRequest at hp
  cases hs : ReadString 10 s with
  | none => simp [hs] at hp
  | some q =>
    obtain ⟨line, r1⟩ := q
    simp only [hs] at hp
    match hF : Fields line, hp with
    | [], hp => simp at hp
    | [_], hp => simp at hp
    | [_, _], hp => simp at hp
    | m :: p :: v :: more, hp =>
      simp only at hp
      cases hh : readHeaders r1.length r1 [] with
      | none => simp [hh] at hp
      | some r =>
        obtain ⟨hd, r2⟩ := r
        simp only [hh] at hp
        cases hb : readBody hd r2 with
        | error e => simp [hb] at hp
        | fault => simp [hb] at hp
        | ok a =>
          obtain ⟨body, r3⟩ := a
          simp only [hb, Outcome.ok.injEq, Prod.mk.injEq] at hp
          have hv : req.Version = v := by rw [← hp.1]
          rw [hv]
          exact Fields_token line v (by rw [hF]; simp)

theorem joinLines_wire (ls : List Str) :
    joinLines ls = wire (ls.map (fun l => l ++ [13])) := by
  induction ls with
  | nil => rfl
  | cons l ls ih => simp [joinLines, wire, ih]

theorem GoMap.get?_append {α : Type} (a b : GoMap α) (k : Str) :
    GoMap.get? (a ++ b) k
      = match GoMap.get? a k with
        | some v => some v
        | none => GoMap.get? b k := by
  induction a with
  | nil => rfl
  | cons e a ih =>
    obtain ⟨k0, v0⟩ := e
    by_cases h0 : k0 = k
    · simp [GoMap.get?, h0]
    · simp only [List.cons_append, GoMap.get?, h0, if_false]
      exact ih

theorem GoMap.get?_some_iff {α : Type} (l : GoMap α) (k : Str) (v : α)
    (hnd : (l.map Prod.fst).Nodup) : GoMap.get? l k = some v ↔ (k, v) ∈ l := by
  induction l with
  | nil => simp [GoMap.get?]
  | cons e l ih =>
    obtain ⟨k0, v0⟩ := e
    simp only [List.map_cons, List.nodup_cons] at hnd
    by_cases h0 : k0 = k
    · subst h0
      have hnot : ∀ w, (k0, w) ∉ l := fun w hw => hnd.1 (List.mem_map.2 ⟨(k0, w), hw, rfl⟩)
      simp only [GoMap.get?, if_true, Option.some.injEq, List.mem_cons, Prod.mk.injEq, true_and]
      constructor
      · intro e; exact Or.inl e.symm
      · rintro (e | e)
        · exact e.symm
        · exact absurd e (hnot v)
    · simp only [GoMap.get?, h0, if_false, List.mem_cons, Prod.mk.injEq]
      rw [ih hnd.2]
      constructor
      · intro e; exact Or.inr e
      · rintro (e | e)
        · exact absurd e.1.symm h0
        · exact e

/-- Two maps with the same entries in different orders give the same lookups. -/
theorem GoMap.get?_perm {α : Type} (l1 l2 : GoMap α) (k : Str) (hp : l1.Perm l2)
    (hnd : (l2.map Prod.fst).Nodup) : GoMap.get? l1 k = GoMap.get? l2 k := by
  have hnd1 : (l1.map Prod.fst).Nodup := ((hp.map Prod.fst).nodup_iff).2 hnd
  cases h1 : GoMap.get? l1 k with
  | some v =>
    have := (GoMap.get?_some_iff l1 k v hnd1).1 h1
    exact ((GoMap.get?_some_iff l2 k v hnd).2 (hp.mem_iff.1 this)).symm
  | none =>
    cases h2 : GoMap.get? l2 k with
    | none => rfl
    | some v =>
      have := (GoMap.get?_some_iff l2 k v hnd).1 h2
      have h1' := (GoMap.get?_some_iff l1 k v hnd1).2 (hp.mem_iff.2 this)
      rw [h1] at h1'
      exact absurd h1' (by simp)

theorem GoMap.get?_foldl_set (es : List (Str × Str)) (h0 : GoMap Str) (k : Str) :
    GoMap.get? (es.foldl (fun h e => GoMap.set h e.1 e.2) h0) k
      = match GoMap.get? es.reverse k with
        | some v => some v
        | none => GoMap.get? h0 k := by
  induction es generalizing h0 with
  | nil => rfl
  | cons e es ih =>
    simp only [List.foldl_cons, List.reverse_cons]
    rw [ih, GoMap.get?_append, GoMap.get?_set]
    cases GoMap.get? es.reverse k with
    | some v => rfl
    | none =>
      obtain ⟨k0, v0⟩ := e
      by_cases hk : k0 = k
      · simp [GoMap.get?, hk]
      · simp [GoMap.get?, hk]

/-- Assigning the entries of a map with distinct names to the empty map, in
any order, gives a map with the same lookups. -/
theorem GoMap.get?_rebuild (ord : Order) (H : GoMap Str) (k : Str)
    (hnd : (H.map Prod.fst).Nodup) :
    GoMap.get? ((ord.visit H).foldl (fun h e => GoMap.set h e.1 e.2) []) k = GoMap.get? H k := by
  rw [GoMap.get?_foldl_set]
  have hp : (ord.visit H).reverse.Perm H := (List.reverse_perm _).trans (ord.perm H)
  rw [GoMap.get?_perm _ H k hp hnd]
  cases GoMap.get? H k <;> rfl

/-- The step of the specification on the rendering of a clean entry assigns
the entry. -/
theorem specHeaderLine_render (h : GoMap Str) (e : Str × Str) (he : CleanEntry e) :
    specHeaderLine h (renderLine e ++ [13]) = GoMap.set h e.1 e.2 := by
  obtain ⟨h58, _, hk, _, hv⟩ := he
  have e1 : renderLine e ++ [13] = e.1 ++ 58 :: (32 :: (e.2 ++ [13])) := by
    unfold renderLine
    have : ascii ": " = [58, 32] := rfl
    rw [this]
    simp
  unfold specHeaderLine
  rw [e1, cut_append 58 _ _ h58]
  simp only
  rw [hk, TrimSpace_cons_space _ 32 (by decide), TrimSpace_append_space _ 13 (by decide), hv]

theorem specHeaders_render (es : List (Str × Str)) (h : GoMap Str)
    (hes : ∀ e ∈ es, CleanEntry e) :
    (es.map (fun e => renderLine e ++ [13])).foldl specHeaderLine h
      = es.foldl (fun h e => GoMap.set h e.1 e.2) h := by
  induction es generalizing h with
  | nil => rfl
  | cons e es ih =>
    simp only [List.map_cons, List.foldl_cons]
    rw [specHeaderLine_render h e (hes e (by simp))]
    exact ih _ (fun x hx => hes x (by simp [hx]))

theorem HeaderLines_render (es : List (Str × Str)) (hes : ∀ e ∈ es, CleanEntry e) :
    HeaderLines (es.map (fun e => renderLine e ++ [13])) := by
  intro c hc
  obtain ⟨e, he, rfl⟩ := List.mem_map.1 hc
  obtain ⟨_, h1, _, h2, _⟩ := hes e he
  obtain ⟨hlf, hne⟩ := renderLine_no_lf e ⟨h1, h2⟩
  refine ⟨?_, by simp, ?_⟩
  · simp only [List.mem_append, List.mem_singleton, not_or]
    exact ⟨hlf, by decide⟩
  · intro h13
    have : renderLine e ++ [13] = [] ++ [13] := by simpa using h13
    exact hne (List.append_cancel_right this)

/-- The body step on a header map whose `Content-Length` is the numeral of
the length of the bytes that follow: the body is those bytes. -/
theorem readBody_exact (h : GoMap Str) (B : Str)
    (hcl : GoMap.get? h (ascii "Content-Length") = some (Itoa B.length))
    (hB : B.length ≤ maxAlloc) : readBody h B = .ok (B, []) := by
  have hA : maxAlloc ≤ maxInt := by decide
  unfold readBody
  rw [hcl]
  simp only [Atoi_Itoa B.length (by omega)]
  by_cases hn : B.length = 0
  · have : B = [] := List.length_eq_zero.1 hn
    subst this
    simp
  · have hpos : ((B.length : Nat) : Int) > 0 := by
      have : 0 < B.length := Nat.pos_of_ne_zero hn
      exact_mod_cast this
    have h2 : ¬ B.length > maxAlloc := by omega
    simp [hpos, h2]

/-- Round trip of a 200 response: composed from a version that is a field, a
clean header map with the `Content-Length` of the body and a body that fits
in memory, and read back by the frame reader. -/
theorem roundtrip_200 (V : Str) (ord : Order) (H : GoMap Str) (B : Str)
    (hne : V ≠ []) (htok : NoSpaceAt [32] V) (hlf : 10 ∉ V)
    (hH : CleanMap H)
    (hcl : GoMap.get? H (ascii "Content-Length") = some (Itoa B.length))
    (hB : B.length ≤ maxAlloc) :
    ∃ H', AnalysisRequest (V ++ ascii " 200 OK" ++ CRLF ++ renderHeaders ord H ++ CRLF ++ B)
        = .ok (⟨V, ascii "200", ascii "OK", H', B⟩, []) ∧
      ∀ k, GoMap.get? H' k = GoMap.get? H k := by
  have hes : ∀ e ∈ ord.visit H, CleanEntry e := fun e he => hH.2 e ((ord.perm H).mem_iff.1 he)
  have e : V ++ ascii " 200 OK" ++ CRLF ++ renderHeaders ord H ++ CRLF ++ B
      = (V ++ ascii " 200 OK" ++ [13]) ++ 10 ::
          (wire ((ord.visit H).map (fun e => renderLine e ++ [13])) ++ ([13] ++ 10 :: B)) := by
    rw [renderHeaders_eq, joinLines_wire, List.map_map]
    simp [CRLF]
    rfl
  have hl0 : 10 ∉ V ++ ascii " 200 OK" ++ [13] := by
    simp only [List.mem_append, List.mem_singleton, not_or]
    exact ⟨⟨hlf, by decide⟩, by decide⟩
  have hF := Fields_status V hne htok
  have hhead := AnalysisRequest_head (V ++ ascii " 200 OK" ++ [13])
    ((ord.visit H).map (fun e => renderLine e ++ [13])) [13] B V (ascii "200") (ascii "OK") []
    hl0 hF (HeaderLines_render _ hes) (Or.inr rfl)
  have hmap : headerMap ((ord.visit H).map (fun e => renderLine e ++ [13]))
      = (ord.visit H).foldl (fun h e => GoMap.set h e.1 e.2) [] := by
    rw [headerMap_eq_spec]
    exact specHeaders_render _ [] hes
  refine ⟨(ord.visit H).foldl (fun h e => GoMap.set h e.1 e.2) [], ?_,
    fun k => GoMap.get?_rebuild ord H k hH.1⟩
  rw [e, hhead, hmap, readBody_exact _ B (by rw [GoMap.get?_rebuild ord H _ hH.1]; exact hcl) hB]

theorem GoMap.mem_set (h : GoMap Str) (k v : Str) (e : Str × Str)
    (he : e ∈ GoMap.set h k v) : e = (k, v) ∨ e ∈ h := by
  induction h with
  | nil => simpa [GoMap.set] using he
  | cons e0 h ih =>
    obtain ⟨k0, v0⟩ := e0
    by_cases h0 : k0 = k
    · simp only [GoMap.set, h0, if_true, List.mem_cons] at he
      rcases he with r | r
      · exact Or.inl r
      · exact Or.inr (List.mem_cons_of_mem _ r)
    · simp only [GoMap.set, h0, if_false, List.mem_cons] at he
      rcases he with r | r
      · exact Or.inr (by simp [r])
      · rcases ih r with r' | r'
        · exact Or.inl r'
        · exact Or.inr (List.mem_cons_of_mem _ r')

theorem GoMap.nodup_set (h : GoMap Str) (k v : Str) (hnd : (h.map Prod.fst).Nodup) :
    ((GoMap.set h k v).map Prod.fst).Nodup := by
  induction h with
  | nil => simp [GoMap.set]
  | cons e0 h ih =>
    obtain ⟨k0, v0⟩ := e0
    simp only [List.map_cons, List.nodup_cons] at hnd
    by_cases h0 : k0 = k
    · subst h0
      simp only [GoMap.set, if_true, List.map_cons, List.nodup_cons]
      exact hnd
    · simp only [GoMap.set, h0, if_false, List.map_cons, List.nodup_cons]
      refine ⟨?_, ih hnd.2⟩
      intro hm
      obtain ⟨e, he, hk⟩ := List.mem_map.1 hm
      rcases GoMap.mem_set h k v e he with r | r
      · rw [r] at hk
        exact h0 hk.symm
      · exact hnd.1 (List.mem_map.2 ⟨e, r, hk⟩)

theorem CleanMap_set (h : GoMap Str) (k v : Str) (hh : CleanMap h) (he : CleanEntry (k, v)) :
    CleanMap (GoMap.set h k v) := by
  refine ⟨GoMap.nodup_set h k v hh.1, fun e hm => ?_⟩
  rcases GoMap.mem_set h k v e hm with r | r
  · rw [r]; exact he
  · exact hh.2 e r

theorem spaceWidth_low (a : Nat) (r : Str) (ha : a < 0xC2) (h1 : isSpace1 a = false) :
    spaceWidth (a :: r) = 0 := by
  have h2 : ∀ b, isSpace2 a b = false := by
    intro b
    simp only [isSpace2, Bool.and_eq_false_imp, decide_eq_true_eq]
    intro e
    omega
  have h3 : ∀ b c, isSpace3 a b c = false := by
    intro b c
    have e1 : a ≠ 0xE1 := by omega
    have e2 : a ≠ 0xE2 := by omega
    have e3 : a ≠ 0xE3 := by omega
    simp [isSpace3, e1, e2, e3]
  match r with
  | [] => simp [spaceWidth, h1]
  | [b] => simp [spaceWidth, h1, h2]
  | b :: c :: _ => simp [spaceWidth, h1, h2, h3]

theorem spaceWidthRev_low (c : Nat) (r : Str) (hc : c < 0x80) (h1 : isSpace1 c = false) :
    spaceWidthRev (c :: r) = 0 := by
  have h2 : ∀ b, isSpace2 b c = false := by
    intro b
    have e1 : c ≠ 0x85 := by omega
    have e2 : c ≠ 0xA0 := by omega
    simp [isSpace2, e1, e2]
  have h3 : ∀ a b, isSpace3 a b c = false := by
    intro a b
    have e1 : c ≠ 0x80 := by omega
    have e2 : ¬ (0x80 ≤ c) := by omega
    have e3 : c ≠ 0xA8 := by omega
    have e4 : c ≠ 0xA9 := by omega
    have e5 : c ≠ 0xAF := by omega
    have e6 : c ≠ 0x9F := by omega
    simp [isSpace3, e1, e2, e3, e4, e5, e6]
  match r with
  | [] => simp [spaceWidthRev, h1]
  | [b] => simp [spaceWidthRev, h1, h2]
  | b :: a :: _ => simp [spaceWidthRev, h1, h2, h3]

/-- The function `strings.TrimSpace` leaves a string of decimal digits as it
is. -/
theorem TrimSpace_digits (v : Str) (h : ∀ b ∈ v, 48 ≤ b ∧ b ≤ 57) : TrimSpace v = v := by
  have hsp : ∀ b, 48 ≤ b ∧ b ≤ 57 → isSpace1 b = false := by
    intro b hb
    simp only [isSpace1, Bool.or_eq_false_iff, decide_eq_false_iff_not]
    omega
  unfold TrimSpace
  cases v with
  | nil => rfl
  | cons a r =>
    have ha := h a (by simp)
    have h1 : dropSpaces spaceWidth (a :: r) 0 = a :: r := by
      simp [dropSpaces, spaceWidth_low a r (by omega) (hsp a ha)]
    rw [h1]
    cases hrev : (a :: r).reverse with
    | nil => simp at hrev
    | cons c r' =>
      have hc : c ∈ a :: r := by
        have : c ∈ (a :: r).reverse := by rw [hrev]; simp
        exact List.mem_reverse.1 this
      have hcd := h c hc
      have h2 : dropSpaces spaceWidthRev (c :: r') 0 = c :: r' := by
        simp [dropSpaces, spaceWidthRev_low c r' (by omega) (hsp c hcd)]
      rw [h2, ← hrev, List.reverse_reverse]

theorem CleanEntry_length (n : Nat) : CleanEntry (ascii "Content-Length", Itoa n) := by
  have h1 : 58 ∉ ascii "Content-Length" := by decide
  have h2 : 10 ∉ ascii "Content-Length" := by decide
  have h3 : TrimSpace (ascii "Content-Length") = ascii "Content-Length" := by decide
  exact ⟨h1, h2, h3, Itoa_no_lf n, TrimSpace_digits _ (Itoa_digits n)⟩

/-- The header map of a 200 response of `echoHandler` is clean. -/
theorem CleanMap_echo (enc : List Str) (close : Bool) (n : Nat) :
    CleanMap (GoMap.set (GoMap.set
      (if close then GoMap.set (pickEncoding enc []) (ascii "Connection") (ascii "close")
        else pickEncoding enc [])
      (ascii "Content-Type") (ascii "text/plain")) (ascii "Content-Length") (Itoa n)) := by
  have h1 : CleanMap (pickEncoding enc []) := by
    rcases pickEncoding_cases enc with e | e | e <;> rw [e]
    · exact ⟨by simp, by simp⟩
    · refine ⟨by simp, fun x hx => ?_⟩
      have : x = (ascii "Content-Encoding", ascii "gzip") := by simpa using hx
      subst this
      unfold CleanEntry
      decide
    · refine ⟨by simp, fun x hx => ?_⟩
      have : x = (ascii "Content-Encoding", ascii "zip") := by simpa using hx
      subst this
      unfold CleanEntry
      decide
  have hc : CleanEntry (ascii "Connection", ascii "close") := by unfold CleanEntry; decide
  have ht : CleanEntry (ascii "Content-Type", ascii "text/plain") := by unfold CleanEntry; decide
  apply CleanMap_set _ _ _ _ (CleanEntry_length n)
  apply CleanMap_set _ _ _ _ ht
  cases close
  · simpa using h1
  · simpa using CleanMap_set _ _ _ h1 hc

/-- The header map of `userAgentHandler` is clean. -/
theorem CleanMap_userAgent (close : Bool) (n : Nat) :
    CleanMap (if close then
      GoMap.set (GoMap.set (GoMap.set ([] : GoMap Str) (ascii "Content-Type") (ascii "text/plain"))
        (ascii "Content-Length") (Itoa n)) (ascii "Connection") (ascii "close")
      else GoMap.set (GoMap.set ([] : GoMap Str) (ascii "Content-Type") (ascii "text/plain"))
        (ascii "Content-Length") (Itoa n)) := by
  have hc : CleanEntry (ascii "Connection", ascii "close") := by unfold CleanEntry; decide
  have ht : CleanEntry (ascii "Content-Type", ascii "text/plain") := by unfold CleanEntry; decide
  have h0 : CleanMap ([] : GoMap Str) := ⟨by simp, by simp⟩
  have h2 := CleanMap_set _ _ _ (CleanMap_set _ _ _ h0 ht) (CleanEntry_length n)
  cases close
  · simpa using h2
  · simpa using CleanMap_set _ _ _ h2 hc

/-- The responses of `echoHandler`: the 400 response, the 500 response, or a
200 response composed of a clean header map that holds the `Content-Type` and
the `Content-Length` of the body, and of a body that is the text or the
output of the gzip writer on it. -/
theorem echoHandler_shape (gzip : Str → Option Str) (ord : Order) (req : Request) :
    (echoHandler gzip ord req).Response = ascii "HTTP/1.1 400 Bad Request" ++ CRLF ++ CRLF ∨
    (echoHandler gzip ord req).Response
      = req.Version ++ ascii " 500 Internal Server Error" ++ CRLF ++ CRLF ∨
    ∃ H B, (echoHandler gzip ord req).Response
        = req.Version ++ ascii " 200 OK" ++ CRLF ++ renderHeaders ord H ++ CRLF ++ B ∧
      CleanMap H ∧
      GoMap.get? H (ascii "Content-Length") = some (Itoa B.length) ∧
      GoMap.get? H (ascii "Content-Type") = some (ascii "text/plain") ∧
      (B = (Split 47 req.Path).getD 2 [] ∨ gzip ((Split 47 req.Path).getD 2 []) = some B) := by
  unfold echoHandler
  by_cases h3 : (Split 47 req.Path).length < 3
  · left
    simp [h3]
  · right
    simp only [h3, if_false]
    split
    · left; rfl
    · rename_i bodyBytes heq
      right
      refine ⟨_, bodyBytes, rfl, ?_, ?_, ?_, ?_⟩
      · by_cases he : GoMap.index req.Headers (ascii "Accept-Encoding") ≠ []
        · rw [if_pos he]
          exact CleanMap_echo _ (wantsClose req) _
        · rw [if_neg he]
          have := CleanMap_echo [] (wantsClose req) bodyBytes.length
          simpa [pickEncoding] using this
      · rw [GoMap.get?_set]
        simp
      · rw [GoMap.get?_set, GoMap.get?_set]
        have hne : ¬ ascii "Content-Length" = ascii "Content-Type" := by decide
        simp [hne]
      · split_ifs at heq <;>
          first
          | exact Or.inr heq
          | exact Or.inl (Option.some.inj heq).symm

/-- The response of `userAgentHandler`: a 200 response composed of a clean
header map that holds the `Content-Type` and the `Content-Length` of the
body, and of the value of the `User-Agent` header as body. -/
theorem userAgentHandler_shape (ord : Order) (req : Request) :
    ∃ H, (userAgentHandler ord req).Response
        = req.Version ++ ascii " 200 OK" ++ CRLF ++ renderHeaders ord H ++ CRLF
          ++ GoMap.index req.Headers (ascii "User-Agent") ∧
      CleanMap H ∧
      GoMap.get? H (ascii "Content-Length")
        = some (Itoa (GoMap.index req.Headers (ascii "User-Agent")).length) ∧
      GoMap.get? H (ascii "Content-Type") = some (ascii "text/plain") := by
  unfold userAgentHandler
  refine ⟨_, rfl, CleanMap_userAgent (wantsClose req) _, ?_, ?_⟩
  · cases wantsClose req
    · simp only [Bool.false_eq_true, if_false]
      rw [GoMap.get?_set]
      simp
    · simp only [if_true]
      rw [GoMap.get?_set, GoMap.get?_set]
      have hne : ¬ ascii "Connection" = ascii "Content-Length" := by decide
      simp [hne]
  · have hne1 : ¬ ascii "Connection" = ascii "Content-Type" := by decide
    have hne2 : ¬ ascii "Content-Length" = ascii "Content-Type" := by decide
    cases wantsClose req
    · simp only [Bool.false_eq_true, if_false]
      rw [GoMap.get?_set, GoMap.get?_set]
      simp [hne2]
    · simp only [if_true]
      rw [GoMap.get?_set, GoMap.get?_set, GoMap.get?_set]
      simp [hne1, hne2]

theorem length_tail_le (a b : Str) : b.length ≤ (a ++ b).length := by
  simp

/-- C15: round trip between composing and parsing.  For every request returned
by the frame reader, every response of `echoHandler` that is not its 400 or
500 response, and every response of `userAgentHandler`, of a length that the
runtime can hold (at most `maxAlloc` bytes), is a 200 response composed of a
header map `H` and a body `B`; the frame reader accepts its bytes and reads
every one of them; the three fields of the first line are the version, `200`
and `OK`; the header map returned gives for every name what `H` gives,
whatever the order in which the lines were emitted; and the body returned is
`B`. -/
theorem C15_round_trip (gzip : Str → Option Str) (ord : Order) (s : Str) (req : Request)
    (rest : Str) (hp : AnalysisRequest s = .ok (req, rest)) :
    ((echoHandler gzip ord req).Response.length ≤ maxAlloc →
      (echoHandler gzip ord req).Response = ascii "HTTP/1.1 400 Bad Request" ++ CRLF ++ CRLF ∨
      (echoHandler gzip ord req).Response
        = req.Version ++ ascii " 500 Internal Server Error" ++ CRLF ++ CRLF ∨
      ∃ H B H', (echoHandler gzip ord req).Response
          = req.Version ++ ascii " 200 OK" ++ CRLF ++ renderHeaders ord H ++ CRLF ++ B ∧
        GoMap.get? H (ascii "Content-Type") = some (ascii "text/plain") ∧
        GoMap.get? H (ascii "Content-Length") = some (Itoa B.length) ∧
        (B = (Split 47 req.Path).getD 2 [] ∨ gzip ((Split 47 req.Path).getD 2 []) = some B) ∧
        AnalysisRequest (echoHandler gzip ord req).Response
          = .ok (⟨req.Version, ascii "200", ascii "OK", H', B⟩, []) ∧
        ∀ k, GoMap.get? H' k = GoMap.get? H k) ∧
    ((userAgentHandler ord req).Response.length ≤ maxAlloc →
      ∃ H H', (userAgentHandler ord req).Response
          = req.Version ++ ascii " 200 OK" ++ CRLF ++ renderHeaders ord H ++ CRLF
            ++ GoMap.index req.Headers (ascii "User-Agent") ∧
        GoMap.get? H (ascii "Content-Type") = some (ascii "text/plain") ∧
        GoMap.get? H (ascii "Content-Length")
          = some (Itoa (GoMap.index req.Headers (ascii "User-Agent")).length) ∧
        AnalysisRequest (userAgentHandler ord req).Response
          = .ok (⟨req.Version, ascii "200", ascii "OK", H',
              GoMap.index req.Headers (ascii "User-Agent")⟩, []) ∧
        ∀ k, GoMap.get? H' k = GoMap.get? H k) := by
  obtain ⟨hne, htok⟩ := parsed_version_token s req rest hp
  have hlf := parsed_version_no_lf s req rest hp
  refine ⟨fun hlen => ?_, fun hlen => ?_⟩
  · rcases echoHandler_shape gzip ord req with h | h | ⟨H, B, hresp, hH, hcl, hct, hB⟩
    · exact Or.inl h
    · exact Or.inr (Or.inl h)
    · right; right
      have hBlen : B.length ≤ maxAlloc := by
        rw [hresp] at hlen
        exact le_trans (length_tail_le _ B) hlen
      obtain ⟨H', hparse, hlook⟩ := roundtrip_200 req.Version ord H B hne htok hlf hH hcl hBlen
      exact ⟨H, B, H', hresp, hct, hcl, hB, by rw [hresp]; exact hparse, hlook⟩
  · obtain ⟨H, hresp, hH, hcl, hct⟩ := userAgentHandler_shape ord req
    have hBlen : (GoMap.index req.Headers (ascii "User-Agent")).length ≤ maxAlloc := by
      rw [hresp] at hlen
      exact le_trans (length_tail_le _ _) hlen
    obtain ⟨H', hparse, hlook⟩ := roundtrip_200 req.Version ord H _ hne htok hlf hH hcl hBlen
    exact ⟨H, H', hresp, hct, hcl, by rw [hresp]; exact hparse, hlook⟩

/-- C15, witness: the response to `GET /echo/abc` with `Accept-Encoding: gzip`,
its header lines emitted from the last stored to the first, read back. -/
theorem C15_round_trip_witness :
    ((echoHandler markGzip Order.reversed
        ⟨ascii "GET", ascii "/echo/abc", ascii "HTTP/1.1",
          [(ascii "Accept-Encoding", ascii "gzip")], []⟩).Response
        = ascii "HTTP/1.1 400 Bad Request" ++ CRLF ++ CRLF ∨
      (echoHandler markGzip Order.reversed
        ⟨ascii "GET", ascii "/echo/abc", ascii "HTTP/1.1",
          [(ascii "Accept-Encoding", ascii "gzip")], []⟩).Response
        = (⟨ascii "GET", ascii "/echo/abc", ascii "HTTP/1.1",
          [(ascii "Accept-Encoding", ascii "gzip")], []⟩ : Request).Version
          ++ ascii " 500 Internal Server Error" ++ CRLF ++ CRLF ∨
      ∃ H B H', (echoHandler markGzip Order.reversed
          ⟨ascii "GET", ascii "/echo/abc", ascii "HTTP/1.1",
            [(ascii "Accept-Encoding", ascii "gzip")], []⟩).Response
          = (⟨ascii "GET", ascii "/echo/abc", ascii "HTTP/1.1",
            [(ascii "Accept-Encoding", ascii "gzip")], []⟩ : Request).Version
            ++ ascii " 200 OK" ++ CRLF ++ renderHeaders Order.reversed H ++ CRLF ++ B ∧
        GoMap.get? H (ascii "Content-Type") = some (ascii "text/plain") ∧
        GoMap.get? H (ascii "Content-Length") = some (Itoa B.length) ∧
        (B = (Split 47 (⟨ascii "GET", ascii "/echo/abc", ascii "HTTP/1.1",
            [(ascii "Accept-Encoding", ascii "gzip")], []⟩ : Request).Path).getD 2 [] ∨
          markGzip ((Split 47 (⟨ascii "GET", ascii "/echo/abc", ascii "HTTP/1.1",
            [(ascii "Accept-Encoding", ascii "gzip")], []⟩ : Request).Path).getD 2 [])
            = some B) ∧
        AnalysisRequest (echoHandler markGzip Order.reversed
          ⟨ascii "GET", ascii "/echo/abc", ascii "HTTP/1.1",
            [(ascii "Accept-Encoding", ascii "gzip")], []⟩).Response
          = .ok (⟨(⟨ascii "GET", ascii "/echo/abc", ascii "HTTP/1.1",
              [(ascii "Accept-Encoding", ascii "gzip")], []⟩ : Request).Version,
              ascii "200", ascii "OK", H', B⟩, []) ∧
        ∀ k, GoMap.get? H' k = GoMap.get? H k) ∧
    AnalysisRequest (echoHandler markGzip Order.reversed
        ⟨ascii "GET", ascii "/echo/abc", ascii "HTTP/1.1",
          [(ascii "Accept-Encoding", ascii "gzip")], []⟩).Response
      = .ok (⟨ascii "HTTP/1.1", ascii "200", ascii "OK",
          [(ascii "Content-Length", ascii "5"), (ascii "Content-Type", ascii "text/plain"),
            (ascii "Content-Encoding", ascii "gzip")],
          31 :: 139 :: ascii "abc"⟩, []) :=
  ⟨(C15_round_trip markGzip Order.reversed
      (ascii "GET /echo/abc HTTP/1.1\r\nAccept-Encoding: gzip\r\n\r\n")
      ⟨ascii "GET", ascii "/echo/abc", ascii "HTTP/1.1",
        [(ascii "Accept-Encoding", ascii "gzip")], []⟩ [] (by decide)).1 (by decide),
   by decide⟩

end HttpServer
